import Mathlib

/-!
# go-cache: a TTL key/value table with a self-rescheduling expiration sweep

Shallow embedding of `cache.go`, `save.go` and `serve.go`.

Modelling conventions.

* The model is sequential: each exported method runs atomically, so the
  `sync.RWMutex` calls (including the `Unlock`/`Lock` pair inside
  `deleteInside`) are no-ops and are left out.  `fmt.Println` output is not
  modelled.
* `time.Duration` and `int` are 64-bit two's-complement integers: a value of
  type `GoInt64` carries its range, and arithmetic wraps explicitly.
* `time.Time` is an instant in nanoseconds on the monotonic clock; every call
  of `time.Now()` in the source is an explicit instant argument.
* `map[interface{}]*ItemsCache` is an association list without duplicate
  keys (`AList`).  Its entry order stands for the (unspecified) iteration
  order of a Go map, so a statement proved for every table holds for every
  iteration order.  Keys range over a type with decidable equality, i.e. Go
  values that are hashable and on which `==` is reflexive.
* Keys of type `interface{}` on which `==` is not reflexive (`math.NaN()`) are
  covered by a second embedding of the same methods (namespace `AnyKey`), in
  which a map is the list of its entries and keys are compared with a
  symmetric and transitive relation.  Values of a non-comparable dynamic type,
  on which the map operations panic, are outside both embeddings.
* Items are stored by value; where the source mutates an item through its
  pointer (`TriggerObtain`) the model replaces the entry under the same key.
* Timers of the runtime are kept in the table's `timers` list, and the
  `*time.Timer` handle is an index into it; a history of a table is a list of
  events (`Op`), each carrying its clock readings.
* The registry of `cache.go` maps a name to a `*CacheTable`; a pointer is the
  index of the table in the list of tables allocated so far, so that "the
  identical table" is equality of pointers.
-/

namespace GoCache

/-! ## Machine integers and time -/

/-- Two's-complement wrap-around of an integer into the `int64` range. -/
def wrap64 (x : Int) : Int :=
  (x + 9223372036854775808) % 18446744073709551616 - 9223372036854775808

/-- A Go `int64`: an integer together with its range. -/
structure GoInt64 where
  val : Int
  lo : -9223372036854775808 ≤ val
  hi : val ≤ 9223372036854775807
deriving DecidableEq

/-- Conversion of an integer to `int64` with wrap-around. -/
def GoInt64.ofInt (x : Int) : GoInt64 :=
  ⟨wrap64 x, by unfold wrap64; omega, by unfold wrap64; omega⟩

/-- Wrapping `int64` multiplication (`a * b`, `a *= b`). -/
def GoInt64.mul (a b : GoInt64) : GoInt64 := GoInt64.ofInt (a.val * b.val)

/-- Wrapping `int64` subtraction (`a - b`). -/
def GoInt64.sub (a b : GoInt64) : GoInt64 := GoInt64.ofInt (a.val - b.val)

/-- Wrapping `int64` increment (`a++`). -/
def GoInt64.succ (a : GoInt64) : GoInt64 := GoInt64.ofInt (a.val + 1)

/-- A `time.Duration` is an `int64` count of nanoseconds. -/
abbrev Duration := GoInt64

/-- The constant `time.Second`. -/
def Second : Duration := GoInt64.ofInt 1000000000

/-- A `time.Time`: an instant, in nanoseconds. -/
abbrev Time := Int

/-- The method `Time.Sub` of the standard library: `t - u` as a `Duration`,
saturating at the largest and smallest `Duration`. -/
def Time.Sub (t u : Int) : Duration :=
  if h1 : t - u < -9223372036854775808 then
    ⟨-9223372036854775808, by omega, by omega⟩
  else if h2 : 9223372036854775807 < t - u then
    ⟨9223372036854775807, by omega, by omega⟩
  else
    ⟨t - u, by omega, by omega⟩

/-! ## serve.go: items -/

/-- The struct `ItemsCache` (its lock left out). -/
structure ItemsCache (K V : Type) where
  key : K
  value : V
  lifeCycle : Duration
  createTime : Time
  accessTime : Time
  accessCount : GoInt64
deriving DecidableEq

/-- The constructor `NewItemsCache`; `t` is its reading of `time.Now()`. -/
def NewItemsCache {K V : Type} (key : K) (value : V) (lifeCycle : Duration) (t : Time) :
    ItemsCache K V :=
  { key := key, value := value, lifeCycle := lifeCycle,
    createTime := t, accessTime := t, accessCount := GoInt64.ofInt 0 }

/-- The method `TriggerObtain`; `now` is its reading of `time.Now()`. -/
def ItemsCache.TriggerObtain {K V : Type} (item : ItemsCache K V) (now : Time) :
    ItemsCache K V :=
  { item with accessTime := now, accessCount := item.accessCount.succ }

/-- The accessor `Key`. -/
def ItemsCache.Key {K V : Type} (item : ItemsCache K V) : K := item.key

/-- The accessor `Value`. -/
def ItemsCache.Value {K V : Type} (item : ItemsCache K V) : V := item.value

/-- The accessor `LifeCycle`. -/
def ItemsCache.LifeCycle {K V : Type} (item : ItemsCache K V) : Duration := item.lifeCycle

/-- The accessor `CreateTime`. -/
def ItemsCache.CreateTime {K V : Type} (item : ItemsCache K V) : Time := item.createTime

/-- The accessor `AccessTime`. -/
def ItemsCache.AccessTime {K V : Type} (item : ItemsCache K V) : Time := item.accessTime

/-- The accessor `AccessCount`. -/
def ItemsCache.AccessCount {K V : Type} (item : ItemsCache K V) : GoInt64 := item.accessCount

/-! ## save.go: tables -/

/-- Modelled from the spec: the declaration of `ErrKeyNotFound` is not among
the source files; the spec has a single error kind, `KeyNotFound`, signalled
by Get and Delete when the key is absent. -/
inductive CacheError where
  | ErrKeyNotFound
deriving DecidableEq

deriving instance DecidableEq for Except

/-- A runtime timer made by `time.AfterFunc(d, f)` at instant `created`; it is
`pending` until it fires or is stopped. -/
structure Timer where
  created : Time
  d : Duration
  pending : Bool
deriving DecidableEq

/-- The method `Timer.Stop` of the standard library. -/
def Timer.Stop (t : Timer) : Timer := { t with pending := false }

/-- The struct `CacheTable` (lock and unused logger left out).  `timeAfter` is
the `*time.Timer` handle, an index into `timers`; `timers` is the part of the
runtime state the table acts on: every timer its sweeps have created, in
creation order. -/
structure CacheTable (K V : Type) where
  name : String
  items : AList (fun _ : K => ItemsCache K V)
  deadline : Duration
  timeAfter : Option Nat
  timers : List Timer

variable {K V : Type} [DecidableEq K]

/-- The method `deleteInside`: the removed item, or `ErrKeyNotFound`, and the
table afterwards. -/
def CacheTable.deleteInside (table : CacheTable K V) (key : K) :
    Except CacheError (ItemsCache K V) × CacheTable K V :=
  match table.items.lookup key with
  | none => (Except.error CacheError.ErrKeyNotFound, table)
  | some v => (Except.ok v, { table with items := table.items.erase key })

/-- The method `Delete`. -/
def CacheTable.Delete (table : CacheTable K V) (key : K) :
    Except CacheError (ItemsCache K V) × CacheTable K V :=
  table.deleteInside key

/-- One iteration of the loop of `expirationCheck` on the entry `entry`, with
the table and `smallDuration` as loop state. -/
def expirationStep (checkTime : Time) (acc : CacheTable K V × Duration)
    (entry : Sigma (fun _ : K => ItemsCache K V)) : CacheTable K V × Duration :=
  if entry.2.lifeCycle.val = 0 then
    acc
  else if entry.2.lifeCycle.val ≤ (Time.Sub checkTime entry.2.accessTime).val then
    ((acc.1.deleteInside entry.1).2, acc.2)
  else if acc.2.val = 0 ∨
      (GoInt64.sub entry.2.lifeCycle (Time.Sub checkTime entry.2.accessTime)).val < acc.2.val then
    (acc.1, GoInt64.sub entry.2.lifeCycle (Time.Sub checkTime entry.2.accessTime))
  else
    acc

/-- The loop of `expirationCheck`: it ranges over the entries the map holds
when the loop starts (the body deletes only the entry being visited, so each
of them is visited once). -/
def expirationLoop (table : CacheTable K V) (checkTime : Time) : CacheTable K V × Duration :=
  table.items.entries.foldl (expirationStep checkTime) (table, GoInt64.ofInt 0)

/-- The method `expirationCheck`; `checkTime` is its reading of `time.Now()`.
When `smallDuration > 0` a new timer is created and `timeAfter` is pointed at
it; a timer created earlier is neither stopped nor removed. -/
def CacheTable.expirationCheck (table : CacheTable K V) (checkTime : Time) : CacheTable K V :=
  if 0 < (expirationLoop table checkTime).2.val then
    { (expirationLoop table checkTime).1 with
      deadline := (expirationLoop table checkTime).2
      timeAfter := some (expirationLoop table checkTime).1.timers.length
      timers := (expirationLoop table checkTime).1.timers ++
        [{ created := checkTime, d := (expirationLoop table checkTime).2, pending := true }] }
  else
    { (expirationLoop table checkTime).1 with deadline := (expirationLoop table checkTime).2 }

/-- The condition under which `setInside` calls `expirationCheck`, on the
deadline read before the call and the new item. -/
def sweepTriggered (deadline : Duration) (item : ItemsCache K V) : Bool :=
  decide (0 < item.lifeCycle.val) &&
    (decide (deadline.val = 0) || decide (item.lifeCycle.val < deadline.val))

/-- The method `setInside`; `checkTime` is the instant read by the sweep when
it is called. -/
def CacheTable.setInside (table : CacheTable K V) (item : ItemsCache K V) (checkTime : Time) :
    CacheTable K V :=
  if sweepTriggered table.deadline item then
    CacheTable.expirationCheck { table with items := table.items.insert item.key item } checkTime
  else
    { table with items := table.items.insert item.key item }

/-- The lifespan `Set` stores for its argument `lifeCycle`: the never-expire
request becomes 3155760000, then the count of seconds is scaled to
nanoseconds. -/
def setLifeCycle (lifeCycle : Duration) : Duration :=
  GoInt64.mul (if lifeCycle.val ≤ -1 then GoInt64.ofInt 3155760000 else lifeCycle) Second

/-- The method `Set`; `now` is the instant read by `NewItemsCache` and
`checkTime` the one read by the sweep, when it runs. -/
def CacheTable.Set (table : CacheTable K V) (key : K) (value : V) (lifeCycle : Duration)
    (now checkTime : Time) : CacheTable K V :=
  table.setInside (NewItemsCache key value (setLifeCycle lifeCycle) now) checkTime

/-- The method `DeleteAll`. -/
def CacheTable.DeleteAll (table : CacheTable K V) : CacheTable K V :=
  { table with
    items := ∅
    deadline := GoInt64.ofInt 0
    timers :=
      match table.timeAfter with
      | none => table.timers
      | some i => table.timers.modify Timer.Stop i }

/-- The method `Exists`. -/
def CacheTable.Exists (table : CacheTable K V) (key : K) : Bool :=
  (table.items.lookup key).isSome

/-- The method `Get`; `now` is the instant read by `TriggerObtain`.  The
returned item is the stored one, read after `TriggerObtain` has updated it. -/
def CacheTable.Get (table : CacheTable K V) (key : K) (now : Time) :
    Except CacheError (ItemsCache K V) × CacheTable K V :=
  match table.items.lookup key with
  | some v =>
    (Except.ok (v.TriggerObtain now),
      { table with items := table.items.replace key (v.TriggerObtain now) })
  | none => (Except.error CacheError.ErrKeyNotFound, table)

/-- The method `Count`. -/
def CacheTable.Count (table : CacheTable K V) : Int :=
  table.items.entries.length

/-- A freshly created table, as `Cache` builds it: only `name` and an empty
`items` are set. -/
def CacheTable.new (name : String) : CacheTable K V :=
  { name := name, items := ∅, deadline := GoInt64.ofInt 0, timeAfter := none, timers := [] }

/-- The firing of a timer of the standard library: it is no longer pending. -/
def Timer.fired (t : Timer) : Timer := { t with pending := false }

/-- The callback of the `i`-th timer running at instant `checkTime`: a pending
timer fires and its callback runs `expirationCheck`; a timer that was stopped
or has fired does nothing. -/
def CacheTable.fire (table : CacheTable K V) (i : Nat) (checkTime : Time) : CacheTable K V :=
  match table.timers.get? i with
  | some tm =>
    if tm.pending then
      CacheTable.expirationCheck { table with timers := table.timers.modify Timer.fired i }
        checkTime
    else table
  | none => table

/-- One event in the life of a table: a call of an exported method, a run of
the sweep, or a timer firing; each carries the clock readings it makes. -/
inductive Op (K V : Type) where
  | set (key : K) (value : V) (lifeCycle : Duration) (now checkTime : Time)
  | get (key : K) (now : Time)
  | delete (key : K)
  | deleteAll
  | sweep (checkTime : Time)
  | fire (i : Nat) (checkTime : Time)

/-- The table after one event. -/
def CacheTable.step (table : CacheTable K V) : Op K V → CacheTable K V
  | Op.set key value lifeCycle now checkTime => table.Set key value lifeCycle now checkTime
  | Op.get key now => (table.Get key now).2
  | Op.delete key => (table.Delete key).2
  | Op.deleteAll => table.DeleteAll
  | Op.sweep checkTime => table.expirationCheck checkTime
  | Op.fire i checkTime => table.fire i checkTime

/-- The table after a sequence of events. -/
def CacheTable.run (table : CacheTable K V) (ops : List (Op K V)) : CacheTable K V :=
  ops.foldl CacheTable.step table

/-- A sequence of events leaves key `k` undisturbed within `bound`: no `Set`
or `Delete` on `k`, no `DeleteAll`, and every sweep (inside a `Set`, on its
own, or from a timer) reads a clock less than `bound` nanoseconds after the
last access of `k`, where `last` is that access before the sequence and each
`Get(k)` moves it to its own clock reading. -/
def undisturbed (k : K) (bound : Int) : Time → List (Op K V) → Bool
  | _, [] => true
  | last, Op.set key _ _ _ checkTime :: ops =>
    decide (key ≠ k) && decide (checkTime - last < bound) && undisturbed k bound last ops
  | last, Op.get key now :: ops => undisturbed k bound (if key = k then now else last) ops
  | last, Op.delete key :: ops => decide (key ≠ k) && undisturbed k bound last ops
  | _, Op.deleteAll :: _ => false
  | last, Op.sweep checkTime :: ops =>
    decide (checkTime - last < bound) && undisturbed k bound last ops
  | last, Op.fire _ checkTime :: ops =>
    decide (checkTime - last < bound) && undisturbed k bound last ops

/-- An example table: key 1 set with a lifespan of 5 seconds and key 2 with
lifespan 0, both at instant 0. -/
def demoTable : CacheTable Nat Nat :=
  ((CacheTable.new "demo").Set 1 10 (GoInt64.ofInt 5) 0 0).Set 2 20 (GoInt64.ofInt 0) 0 0

/-- The item `demoTable` holds under key 1. -/
def demoItem1 : ItemsCache Nat Nat :=
  NewItemsCache 1 10 (GoInt64.ofInt 5000000000) 0

/-- The item `demoTable` holds under key 2. -/
def demoItem2 : ItemsCache Nat Nat :=
  NewItemsCache 2 20 (GoInt64.ofInt 0) 0

/-- Whether the sweep at instant `checkTime` deletes `item`: the lifespan is
not 0 and the time since the last access has reached it. -/
def ItemsCache.expired (item : ItemsCache K V) (checkTime : Time) : Bool :=
  decide (item.lifeCycle.val ≠ 0) &&
    decide (item.lifeCycle.val ≤ (Time.Sub checkTime item.accessTime).val)

/-- The update of `smallDuration` made by one iteration of the loop of
`expirationCheck` on the entry `entry`. -/
def smallStep (checkTime : Time) (small : Duration)
    (entry : Sigma (fun _ : K => ItemsCache K V)) : Duration :=
  if entry.2.lifeCycle.val = 0 then
    small
  else if entry.2.lifeCycle.val ≤ (Time.Sub checkTime entry.2.accessTime).val then
    small
  else if small.val = 0 ∨
      (GoInt64.sub entry.2.lifeCycle (Time.Sub checkTime entry.2.accessTime)).val < small.val then
    GoInt64.sub entry.2.lifeCycle (Time.Sub checkTime entry.2.accessTime)
  else
    small

/-- Instant `t` is not earlier than the last access of any stored item. -/
def CacheTable.notBefore (table : CacheTable K V) (t : Time) : Bool :=
  table.items.entries.all (fun e => decide (e.2.accessTime ≤ t))

/-- Whether the `i`-th timer exists and is pending. -/
def CacheTable.isPending (table : CacheTable K V) (i : Nat) : Bool :=
  match table.timers.get? i with
  | some tm => tm.pending
  | none => false

/-- The event `op` on `table` runs no sweep at an instant earlier than the
last access of a stored item (for a `Set`, the new item included): the
condition bears on the sweep a `Set` triggers, on a sweep run on its own and
on the sweep of a pending timer that fires. -/
def opTimely (table : CacheTable K V) : Op K V → Bool
  | Op.set key value lifeCycle now checkTime =>
    !sweepTriggered table.deadline (NewItemsCache key value (setLifeCycle lifeCycle) now) ||
      CacheTable.notBefore
        { table with
          items := table.items.insert key (NewItemsCache key value (setLifeCycle lifeCycle) now) }
        checkTime
  | Op.get _ _ => true
  | Op.delete _ => true
  | Op.deleteAll => true
  | Op.sweep checkTime => table.notBefore checkTime
  | Op.fire i checkTime => !table.isPending i || table.notBefore checkTime

/-- Every event of the sequence, run from `table`, is timely in the sense of
`opTimely`. -/
def timely : CacheTable K V → List (Op K V) → Bool
  | _, [] => true
  | table, op :: ops => opTimely table op && timely (table.step op) ops

/-- The number of scheduled sweep callbacks outstanding: timers that have
neither fired nor been stopped. -/
def CacheTable.pendingCount (table : CacheTable K V) : Nat :=
  (table.timers.filter (fun tm => tm.pending)).length

/-- The table after `n` successive calls of `Get(key)`, the `i`-th of them
reading the clock at `times i`. -/
def CacheTable.getN (table : CacheTable K V) (key : K) (times : Nat → Time) :
    Nat → CacheTable K V
  | 0 => table
  | n + 1 => ((table.getN key times n).Get key (times n)).2

/-! ## cache.go: the registry -/

/-- The package-level state of `cache.go` (its lock left out): `cache` maps a
name to a `*CacheTable`, a pointer being the index of the table in `tables`,
the tables allocated so far in allocation order. -/
structure Registry (K V : Type) where
  tables : List (CacheTable K V)
  cache : AList (fun _ : String => Nat)

/-- The registry when the package is loaded: `make(map[string]*CacheTable)`. -/
def Registry.empty : Registry K V :=
  { tables := [], cache := ∅ }

/-- The function `Cache`: the pointer it returns and the registry afterwards.
The second lookup is the one made again under the write lock. -/
def Cache (reg : Registry K V) (name : String) : Nat × Registry K V :=
  match reg.cache.lookup name with
  | some v => (v, reg)
  | none =>
    match reg.cache.lookup name with
    | some v => (v, reg)
    | none =>
      (reg.tables.length,
        { tables := reg.tables ++ [CacheTable.new name],
          cache := reg.cache.insert name reg.tables.length })

/-- The registry after `Cache` has been called on each of `names` in turn,
starting from the empty registry. -/
def Registry.after (names : List String) : Registry K V :=
  names.foldl (fun reg name => (Cache reg name).2) Registry.empty

/-- Every registered pointer refers to an allocated table that carries the
name it is registered under. -/
def Registry.WellFormed (reg : Registry K V) : Prop :=
  ∀ (name : String) (p : Nat), reg.cache.lookup name = some p →
    ∃ t, reg.tables.get? p = some t ∧ t.name = name

/-! ## Keys of any dynamic type

The definitions above take keys from a type with decidable equality.  A key of
type `interface{}` may also be a value that is not equal to itself
(`math.NaN()`), which a map never finds again.  The definitions of this
section embed the same methods of `save.go` over keys compared with Go's `==`,
which is symmetric and transitive but need not be reflexive; the claims that
speak of every key are settled on them. -/

namespace AnyKey

/-- Go's `==` on the values used as keys (hashable values of any dynamic
type): symmetric and transitive; a value such as `math.NaN()` is not equal to
itself. -/
class GoKey (K : Type) where
  eq : K → K → Bool
  symm : ∀ a b : K, eq a b = true → eq b a = true
  trans : ∀ a b c : K, eq a b = true → eq b c = true → eq a c = true

/-- A `map[interface{}]*ItemsCache`: its entries, in iteration order. -/
abbrev GoMap (K V : Type) := List (K × ItemsCache K V)

/-- The map read `m[k]`: the value of the entry whose key is equal to `k`. -/
def GoMap.lookup {K V : Type} [GoKey K] : GoMap K V → K → Option (ItemsCache K V)
  | [], _ => none
  | e :: m, k => if GoKey.eq k e.1 then some e.2 else GoMap.lookup m k

/-- The map write `m[k] = v`: the entry whose key is equal to `k` is
overwritten (for keys of interface type the stored key too), and when there
is none a new entry is added. -/
def GoMap.assign {K V : Type} [GoKey K] : GoMap K V → K → ItemsCache K V → GoMap K V
  | [], k, v => [(k, v)]
  | e :: m, k, v => if GoKey.eq k e.1 then (k, v) :: m else e :: GoMap.assign m k v

/-- The builtin `delete(m, k)`: the entry whose key is equal to `k` is
removed, when there is one. -/
def GoMap.delete {K V : Type} [GoKey K] : GoMap K V → K → GoMap K V
  | [], _ => []
  | e :: m, k => if GoKey.eq k e.1 then m else e :: GoMap.delete m k

/-- A change `f` made to the item that `m[k]` points to. -/
def GoMap.update {K V : Type} [GoKey K] :
    GoMap K V → K → (ItemsCache K V → ItemsCache K V) → GoMap K V
  | [], _, _ => []
  | e :: m, k, f => if GoKey.eq k e.1 then (e.1, f e.2) :: m else e :: GoMap.update m k f

/-- What the runtime keeps true of a map: no two entries have equal keys. -/
def GoMap.wf {K V : Type} [GoKey K] : GoMap K V → Bool
  | [] => true
  | e :: m => m.all (fun x => !GoKey.eq e.1 x.1) && GoMap.wf m

/-- The struct `CacheTable` over keys of any dynamic type; the fields are
those of `GoCache.CacheTable`. -/
structure CacheTable (K V : Type) where
  name : String
  items : GoMap K V
  deadline : Duration
  timeAfter : Option Nat
  timers : List Timer

/-- The method `deleteInside`. -/
def CacheTable.deleteInside {K V : Type} [GoKey K] (table : CacheTable K V) (key : K) :
    Except CacheError (ItemsCache K V) × CacheTable K V :=
  match GoMap.lookup table.items key with
  | none => (Except.error CacheError.ErrKeyNotFound, table)
  | some v => (Except.ok v, { table with items := GoMap.delete table.items key })

/-- The method `Delete`. -/
def CacheTable.Delete {K V : Type} [GoKey K] (table : CacheTable K V) (key : K) :
    Except CacheError (ItemsCache K V) × CacheTable K V :=
  table.deleteInside key

/-- One iteration of the loop of `expirationCheck` on the entry `entry`, with
the table and `smallDuration` as loop state. -/
def expirationStep {K V : Type} [GoKey K] (checkTime : Time)
    (acc : CacheTable K V × Duration) (entry : K × ItemsCache K V) :
    CacheTable K V × Duration :=
  if entry.2.lifeCycle.val = 0 then
    acc
  else if entry.2.lifeCycle.val ≤ (Time.Sub checkTime entry.2.accessTime).val then
    ((acc.1.deleteInside entry.1).2, acc.2)
  else if acc.2.val = 0 ∨
      (GoInt64.sub entry.2.lifeCycle (Time.Sub checkTime entry.2.accessTime)).val < acc.2.val then
    (acc.1, GoInt64.sub entry.2.lifeCycle (Time.Sub checkTime entry.2.accessTime))
  else
    acc

/-- The loop of `expirationCheck`, over the entries the map holds when the
loop starts. -/
def expirationLoop {K V : Type} [GoKey K] (table : CacheTable K V) (checkTime : Time) :
    CacheTable K V × Duration :=
  table.items.foldl (expirationStep checkTime) (table, GoInt64.ofInt 0)

/-- The method `expirationCheck`; `checkTime` is its reading of `time.Now()`. -/
def CacheTable.expirationCheck {K V : Type} [GoKey K] (table : CacheTable K V)
    (checkTime : Time) : CacheTable K V :=
  if 0 < (expirationLoop table checkTime).2.val then
    { (expirationLoop table checkTime).1 with
      deadline := (expirationLoop table checkTime).2
      timeAfter := some (expirationLoop table checkTime).1.timers.length
      timers := (expirationLoop table checkTime).1.timers ++
        [{ created := checkTime, d := (expirationLoop table checkTime).2, pending := true }] }
  else
    { (expirationLoop table checkTime).1 with deadline := (expirationLoop table checkTime).2 }

/-- The condition under which `setInside` calls `expirationCheck`. -/
def sweepTriggered {K V : Type} (deadline : Duration) (item : ItemsCache K V) : Bool :=
  decide (0 < item.lifeCycle.val) &&
    (decide (deadline.val = 0) || decide (item.lifeCycle.val < deadline.val))

/-- The method `setInside`. -/
def CacheTable.setInside {K V : Type} [GoKey K] (table : CacheTable K V)
    (item : ItemsCache K V) (checkTime : Time) : CacheTable K V :=
  if sweepTriggered table.deadline item then
    CacheTable.expirationCheck
      { table with items := GoMap.assign table.items item.key item } checkTime
  else
    { table with items := GoMap.assign table.items item.key item }

/-- The method `Set`; `now` is the instant read by `NewItemsCache` and
`checkTime` the one read by the sweep, when it runs. -/
def CacheTable.Set {K V : Type} [GoKey K] (table : CacheTable K V) (key : K) (value : V)
    (lifeCycle : Duration) (now checkTime : Time) : CacheTable K V :=
  table.setInside (NewItemsCache key value (setLifeCycle lifeCycle) now) checkTime

/-- The method `DeleteAll`. -/
def CacheTable.DeleteAll {K V : Type} (table : CacheTable K V) : CacheTable K V :=
  { table with
    items := []
    deadline := GoInt64.ofInt 0
    timers :=
      match table.timeAfter with
      | none => table.timers
      | some i => table.timers.modify Timer.Stop i }

/-- The method `Exists`. -/
def CacheTable.Exists {K V : Type} [GoKey K] (table : CacheTable K V) (key : K) : Bool :=
  (GoMap.lookup table.items key).isSome

/-- The method `Get`; `now` is the instant read by `TriggerObtain`. -/
def CacheTable.Get {K V : Type} [GoKey K] (table : CacheTable K V) (key : K) (now : Time) :
    Except CacheError (ItemsCache K V) × CacheTable K V :=
  match GoMap.lookup table.items key with
  | some v =>
    (Except.ok (v.TriggerObtain now),
      { table with items := GoMap.update table.items key (fun x => x.TriggerObtain now) })
  | none => (Except.error CacheError.ErrKeyNotFound, table)

/-- The method `Count`. -/
def CacheTable.Count {K V : Type} (table : CacheTable K V) : Int :=
  table.items.length

/-- A freshly created table, as `Cache` builds it. -/
def CacheTable.new {K V : Type} (name : String) : CacheTable K V :=
  { name := name, items := [], deadline := GoInt64.ofInt 0, timeAfter := none, timers := [] }

/-- The callback of the `i`-th timer running at instant `checkTime`. -/
def CacheTable.fire {K V : Type} [GoKey K] (table : CacheTable K V) (i : Nat)
    (checkTime : Time) : CacheTable K V :=
  match table.timers.get? i with
  | some tm =>
    if tm.pending then
      CacheTable.expirationCheck { table with timers := table.timers.modify Timer.fired i }
        checkTime
    else table
  | none => table

/-- One event in the life of a table, as `GoCache.Op`. -/
inductive Op (K V : Type) where
  | set (key : K) (value : V) (lifeCycle : Duration) (now checkTime : Time)
  | get (key : K) (now : Time)
  | delete (key : K)
  | deleteAll
  | sweep (checkTime : Time)
  | fire (i : Nat) (checkTime : Time)

/-- The table after one event. -/
def CacheTable.step {K V : Type} [GoKey K] (table : CacheTable K V) : Op K V → CacheTable K V
  | Op.set key value lifeCycle now checkTime => table.Set key value lifeCycle now checkTime
  | Op.get key now => (table.Get key now).2
  | Op.delete key => (table.Delete key).2
  | Op.deleteAll => table.DeleteAll
  | Op.sweep checkTime => table.expirationCheck checkTime
  | Op.fire i checkTime => table.fire i checkTime

/-- The table after a sequence of events. -/
def CacheTable.run {K V : Type} [GoKey K] (table : CacheTable K V) (ops : List (Op K V)) :
    CacheTable K V :=
  ops.foldl CacheTable.step table

/-- A sequence of events leaves key `k` undisturbed within `bound`: no `Set`
or `Delete` on a key equal to `k`, no `DeleteAll`, and every sweep (inside a
`Set`, on its own, or from a timer) reads a clock less than `bound`
nanoseconds after the last access of `k`, where `last` is that access before
the sequence and each `Get` of a key equal to `k` moves it to its own clock
reading. -/
def undisturbed {K V : Type} [GoKey K] (k : K) (bound : Int) : Time → List (Op K V) → Bool
  | _, [] => true
  | last, Op.set key _ _ _ checkTime :: ops =>
    !GoKey.eq key k && decide (checkTime - last < bound) && undisturbed k bound last ops
  | last, Op.get key now :: ops =>
    undisturbed k bound (if GoKey.eq key k then now else last) ops
  | last, Op.delete key :: ops => !GoKey.eq key k && undisturbed k bound last ops
  | _, Op.deleteAll :: _ => false
  | last, Op.sweep checkTime :: ops =>
    decide (checkTime - last < bound) && undisturbed k bound last ops
  | last, Op.fire _ checkTime :: ops =>
    decide (checkTime - last < bound) && undisturbed k bound last ops

/-- Instant `t` is not earlier than the last access of any stored item. -/
def CacheTable.notBefore {K V : Type} (table : CacheTable K V) (t : Time) : Bool :=
  table.items.all (fun e => decide (e.2.accessTime ≤ t))

/-- Whether the sweep at instant `checkTime` calls `deleteInside` for `item`:
the lifespan is not 0 and the time since the last access has reached it. -/
def expired {K V : Type} (item : ItemsCache K V) (checkTime : Time) : Bool :=
  decide (item.lifeCycle.val ≠ 0) &&
    decide (item.lifeCycle.val ≤ (Time.Sub checkTime item.accessTime).val)

/-- The update of `smallDuration` made by one iteration of the loop of
`expirationCheck` on an entry holding `item`. -/
def smallStep {K V : Type} (checkTime : Time) (small : Duration) (item : ItemsCache K V) :
    Duration :=
  if item.lifeCycle.val = 0 then
    small
  else if item.lifeCycle.val ≤ (Time.Sub checkTime item.accessTime).val then
    small
  else if small.val = 0 ∨
      (GoInt64.sub item.lifeCycle (Time.Sub checkTime item.accessTime)).val < small.val then
    GoInt64.sub item.lifeCycle (Time.Sub checkTime item.accessTime)
  else
    small

/-- Whether the sweep at instant `checkTime` removes the entry: `deleteInside`
is called for it and finds it, which takes a key equal to itself. -/
def removed {K V : Type} [GoKey K] (entry : K × ItemsCache K V) (checkTime : Time) : Bool :=
  expired entry.2 checkTime && GoKey.eq entry.1 entry.1

/-- Example keys: Go integers and the float `math.NaN()`. -/
inductive DemoKey where
  | int (n : Int)
  | nan
deriving DecidableEq

/-- Go's `==` on the example keys: integers are compared by value, and
`math.NaN()` is equal to nothing, itself included. -/
def DemoKey.eq : DemoKey → DemoKey → Bool
  | DemoKey.int m, DemoKey.int n => decide (m = n)
  | _, _ => false

instance instGoKeyDemoKey : GoKey DemoKey where
  eq := DemoKey.eq
  symm := by
    intro a b h
    cases a <;> cases b <;> simp_all [DemoKey.eq, eq_comm]
  trans := by
    intro a b c h1 h2
    cases a <;> cases b <;> cases c <;> simp_all [DemoKey.eq]

/-- An example table: on a fresh table, key 1 set with a lifespan of 5
seconds, the key `math.NaN()` with a lifespan of 1 second and key 2 with
lifespan 0, all at instant 0. -/
def demoTable : CacheTable DemoKey Nat :=
  (((CacheTable.new "demo").Set (DemoKey.int 1) 10 (GoInt64.ofInt 5) 0 0).Set
    DemoKey.nan 15 (GoInt64.ofInt 1) 0 0).Set (DemoKey.int 2) 20 (GoInt64.ofInt 0) 0 0

/-- The item `demoTable` holds under key 1. -/
def demoItem1 : ItemsCache DemoKey Nat :=
  NewItemsCache (DemoKey.int 1) 10 (GoInt64.ofInt 5000000000) 0

end AnyKey

/-! ## Association lists -/

theorem dlookup_kreplace (k : K) (v : ItemsCache K V) (a : K) :
    ∀ l : List (Sigma (fun _ : K => ItemsCache K V)),
      List.dlookup a (List.kreplace k v l) =
        if a = k then (List.dlookup k l).map (fun _ => v) else List.dlookup a l := by
  intro l
  induction l with
  | nil => by_cases h : a = k <;> simp [List.kreplace, h]
  | cons e l ih =>
    obtain ⟨ek, ev⟩ := e
    by_cases hk : k = ek
    · subst hk
      have hc : List.kreplace k v (⟨k, ev⟩ :: l) = ⟨k, v⟩ :: l := by
        unfold List.kreplace
        rw [List.lookmap_cons_some]
        simp
      rw [hc]
      by_cases h : a = k
      · subst h
        simp
      · simp [h, List.dlookup_cons_ne]
    · have hc : List.kreplace k v (⟨ek, ev⟩ :: l) = ⟨ek, ev⟩ :: List.kreplace k v l := by
        unfold List.kreplace
        rw [List.lookmap_cons_none]
        simp [hk]
      rw [hc]
      by_cases h : a = k
      · subst h
        rw [List.dlookup_cons_ne _ _ hk, List.dlookup_cons_ne _ _ hk, ih]
      · by_cases h2 : a = ek
        · subst h2
          simp [h]
        · have e1 := List.dlookup_cons_ne (List.kreplace k v l) (⟨ek, ev⟩ : Sigma _) h2
          have e2 := List.dlookup_cons_ne l (⟨ek, ev⟩ : Sigma (fun _ : K => ItemsCache K V)) h2
          rw [e1, e2, ih]
          simp [h]

theorem lookup_replace (s : AList (fun _ : K => ItemsCache K V)) (k a : K)
    (v : ItemsCache K V) :
    AList.lookup a (AList.replace k v s) =
      if a = k then (AList.lookup k s).map (fun _ => v) else AList.lookup a s := by
  unfold AList.lookup AList.replace
  exact dlookup_kreplace k v a s.entries

theorem erase_of_lookup_none (s : AList (fun _ : K => ItemsCache K V)) (k : K)
    (h : AList.lookup k s = none) : AList.erase k s = s := by
  apply AList.ext
  exact List.kerase_of_not_mem_keys (AList.lookup_eq_none.mp h)

theorem lookup_erase_eq (s : AList (fun _ : K => ItemsCache K V)) (k a : K) :
    AList.lookup a (AList.erase k s) = if a = k then none else AList.lookup a s := by
  by_cases h : a = k
  · subst h
    simp
  · simp [h, AList.lookup_erase_ne h]

theorem length_erase_of_lookup (s : AList (fun _ : K => ItemsCache K V)) (k : K)
    (item : ItemsCache K V) (h : AList.lookup k s = some item) :
    ((AList.erase k s).entries.length : Int) = (s.entries.length : Int) - 1 := by
  have hmem : (⟨k, item⟩ : Sigma (fun _ : K => ItemsCache K V)) ∈ s.entries :=
    AList.mem_lookup_iff.mp h
  have hlen : (AList.erase k s).entries.length = s.entries.length - 1 := by
    show (List.kerase k s.entries).length = s.entries.length - 1
    unfold List.kerase
    exact List.length_eraseP_of_mem hmem (by simp)
  have hpos : 0 < s.entries.length := List.length_pos_of_mem hmem
  omega

/-! ## The sweep loop -/

theorem deleteInside_snd (table : CacheTable K V) (key : K) :
    (table.deleteInside key).2 = { table with items := table.items.erase key } := by
  unfold CacheTable.deleteInside
  cases h : table.items.lookup key with
  | none => simp [erase_of_lookup_none _ _ h]
  | some v => rfl

theorem expirationStep_fst (now : Time) (acc : CacheTable K V × Duration)
    (e : Sigma (fun _ : K => ItemsCache K V)) :
    (expirationStep now acc e).1 =
      if e.2.expired now then { acc.1 with items := acc.1.items.erase e.1 } else acc.1 := by
  unfold expirationStep ItemsCache.expired
  by_cases h0 : e.2.lifeCycle.val = 0
  · simp [h0]
  · by_cases h1 : e.2.lifeCycle.val ≤ (Time.Sub now e.2.accessTime).val
    · simp [h0, h1, deleteInside_snd]
    · simp only [h0, h1, if_false, ne_eq, not_false_eq_true, decide_True, decide_False,
        Bool.and_false, Bool.false_eq_true]
      split_ifs <;> rfl

theorem expirationStep_items (now : Time) (acc : CacheTable K V × Duration)
    (e : Sigma (fun _ : K => ItemsCache K V)) (k : K) :
    AList.lookup k (expirationStep now acc e).1.items =
      if e.1 = k ∧ e.2.expired now = true then none else AList.lookup k acc.1.items := by
  rw [expirationStep_fst]
  by_cases hx : e.2.expired now = true
  · by_cases hk : k = e.1
    · subst hk
      simp [hx]
    · have hk2 : ¬ e.1 = k := fun h => hk h.symm
      simp [hx, hk2, AList.lookup_erase_ne hk]
  · simp [hx]

theorem foldl_lookup (now : Time) (k : K) :
    ∀ (es : List (Sigma (fun _ : K => ItemsCache K V))) (acc : CacheTable K V × Duration),
      AList.lookup k (es.foldl (expirationStep now) acc).1.items =
        if (∃ e ∈ es, e.1 = k ∧ e.2.expired now = true) then none
        else AList.lookup k acc.1.items := by
  intro es
  induction es with
  | nil => intro acc; simp
  | cons e es ih =>
    intro acc
    rw [List.foldl_cons, ih, expirationStep_items]
    by_cases h1 : e.1 = k ∧ e.2.expired now = true
    · have h2 : ∃ x ∈ e :: es, x.1 = k ∧ x.2.expired now = true :=
        ⟨e, List.mem_cons_self _ _, h1⟩
      simp only [h1, h2, and_self, if_true, ite_self]
    · by_cases h3 : ∃ x ∈ es, x.1 = k ∧ x.2.expired now = true
      · have h2 : ∃ x ∈ e :: es, x.1 = k ∧ x.2.expired now = true := by
          obtain ⟨x, hx, hp⟩ := h3
          exact ⟨x, List.mem_cons_of_mem _ hx, hp⟩
        simp only [h3, h2, if_true]
      · have h2 : ¬ ∃ x ∈ e :: es, x.1 = k ∧ x.2.expired now = true := by
          rintro ⟨x, hx, hp⟩
          rcases List.mem_cons.mp hx with rfl | hx
          · exact h1 hp
          · exact h3 ⟨x, hx, hp⟩
        simp only [h1, h2, h3, if_false]

theorem foldl_frame (now : Time) :
    ∀ (es : List (Sigma (fun _ : K => ItemsCache K V))) (acc : CacheTable K V × Duration),
      (es.foldl (expirationStep now) acc).1.name = acc.1.name ∧
      (es.foldl (expirationStep now) acc).1.deadline = acc.1.deadline ∧
      (es.foldl (expirationStep now) acc).1.timeAfter = acc.1.timeAfter ∧
      (es.foldl (expirationStep now) acc).1.timers = acc.1.timers := by
  intro es
  induction es with
  | nil => intro acc; simp
  | cons e es ih =>
    intro acc
    rw [List.foldl_cons]
    obtain ⟨h1, h2, h3, h4⟩ := ih (expirationStep now acc e)
    rw [h1, h2, h3, h4, expirationStep_fst]
    split_ifs <;> simp

theorem expirationLoop_lookup (table : CacheTable K V) (now : Time) (k : K) :
    AList.lookup k (expirationLoop table now).1.items =
      (AList.lookup k table.items).filter (fun item => !item.expired now) := by
  unfold expirationLoop
  rw [foldl_lookup]
  cases h : AList.lookup k table.items with
  | none => simp [Option.filter]
  | some item =>
    have hmem : (⟨k, item⟩ : Sigma (fun _ : K => ItemsCache K V)) ∈ table.items.entries :=
      AList.mem_lookup_iff.mp h
    by_cases hx : item.expired now = true
    · have h2 : ∃ e ∈ table.items.entries, e.1 = k ∧ e.2.expired now = true :=
        ⟨⟨k, item⟩, hmem, rfl, hx⟩
      simp [h2, Option.filter, hx]
    · have h2 : ¬ ∃ e ∈ table.items.entries, e.1 = k ∧ e.2.expired now = true := by
        rintro ⟨⟨ek, ev⟩, he, hk, hp⟩
        simp only at hk hp
        subst hk
        have h3 : AList.lookup ek table.items = some ev := AList.mem_lookup_iff.mpr he
        rw [h] at h3
        exact hx (by rw [Option.some.inj h3]; exact hp)
      simp [h2, Option.filter, hx]

theorem expirationCheck_items (table : CacheTable K V) (now : Time) :
    (table.expirationCheck now).items = (expirationLoop table now).1.items := by
  unfold CacheTable.expirationCheck
  split_ifs <;> rfl

theorem expirationCheck_deadline (table : CacheTable K V) (now : Time) :
    (table.expirationCheck now).deadline = (expirationLoop table now).2 := by
  unfold CacheTable.expirationCheck
  split_ifs <;> rfl

theorem expirationCheck_lookup (table : CacheTable K V) (now : Time) (k : K) :
    AList.lookup k (table.expirationCheck now).items =
      (AList.lookup k table.items).filter (fun item => !item.expired now) := by
  rw [expirationCheck_items, expirationLoop_lookup]

theorem expirationStep_snd_congr (now : Time) (acc other : CacheTable K V × Duration)
    (e : Sigma (fun _ : K => ItemsCache K V)) (h : acc.2 = other.2) :
    (expirationStep now acc e).2 = (expirationStep now other e).2 := by
  unfold expirationStep
  rw [h]
  split_ifs <;> first | rfl | exact h

theorem foldl_snd_congr (now : Time) :
    ∀ (es : List (Sigma (fun _ : K => ItemsCache K V))) (acc other : CacheTable K V × Duration),
      acc.2 = other.2 →
        (es.foldl (expirationStep now) acc).2 = (es.foldl (expirationStep now) other).2 := by
  intro es
  induction es with
  | nil => intro acc other h; exact h
  | cons e es ih =>
    intro acc other h
    rw [List.foldl_cons, List.foldl_cons]
    exact ih _ _ (expirationStep_snd_congr now acc other e h)

theorem foldl_snd_kerase (now : Time) (k : K) :
    ∀ (es : List (Sigma (fun _ : K => ItemsCache K V))) (acc : CacheTable K V × Duration),
      (∀ e ∈ es, e.1 = k → e.2.lifeCycle.val = 0) →
        ((List.kerase k es).foldl (expirationStep now) acc).2 =
          (es.foldl (expirationStep now) acc).2 := by
  intro es
  induction es with
  | nil => intro acc _; rfl
  | cons e es ih =>
    intro acc h
    by_cases hk : k = e.1
    · rw [List.kerase_cons_eq hk, List.foldl_cons]
      have h0 : e.2.lifeCycle.val = 0 := h e (List.mem_cons_self _ _) hk.symm
      have hs : expirationStep now acc e = acc := by
        unfold expirationStep
        rw [if_pos h0]
      rw [hs]
    · rw [List.kerase_cons_ne hk, List.foldl_cons, List.foldl_cons]
      exact ih _ (fun x hx hxk => h x (List.mem_cons_of_mem _ hx) hxk)

theorem expirationStep_snd (now : Time) (acc : CacheTable K V × Duration)
    (e : Sigma (fun _ : K => ItemsCache K V)) :
    (expirationStep now acc e).2 = smallStep now acc.2 e := by
  unfold expirationStep smallStep
  split_ifs <;> rfl

theorem foldl_snd (now : Time) :
    ∀ (es : List (Sigma (fun _ : K => ItemsCache K V))) (acc : CacheTable K V × Duration),
      (es.foldl (expirationStep now) acc).2 = es.foldl (smallStep now) acc.2 := by
  intro es
  induction es with
  | nil => intro acc; rfl
  | cons e es ih =>
    intro acc
    rw [List.foldl_cons, List.foldl_cons, ih, expirationStep_snd]

theorem smallStep_expired (now : Time) (s : Duration)
    (e : Sigma (fun _ : K => ItemsCache K V)) (h : e.2.expired now = true) :
    smallStep now s e = s := by
  unfold ItemsCache.expired at h
  simp only [Bool.and_eq_true, decide_eq_true_eq] at h
  unfold smallStep
  rw [if_neg h.1, if_pos h.2]

theorem foldl_smallStep_filter (now : Time) :
    ∀ (es : List (Sigma (fun _ : K => ItemsCache K V))) (s : Duration),
      (es.filter (fun e => !e.2.expired now)).foldl (smallStep now) s =
        es.foldl (smallStep now) s := by
  intro es
  induction es with
  | nil => intro s; rfl
  | cons e es ih =>
    intro s
    by_cases hx : e.2.expired now = true
    · rw [List.filter_cons_of_neg (by simp [hx]), List.foldl_cons, smallStep_expired now s e hx]
      exact ih s
    · rw [List.filter_cons_of_pos (by simp [hx]), List.foldl_cons, List.foldl_cons]
      exact ih _

theorem foldl_entries (now : Time) :
    ∀ (es done : List (Sigma (fun _ : K => ItemsCache K V))) (acc : CacheTable K V × Duration),
      acc.1.items.entries = done ++ es →
        ((es.foldl (expirationStep now) acc).1.items.entries =
          done ++ es.filter (fun e => !e.2.expired now)) := by
  intro es
  induction es with
  | nil => intro done acc h; simpa using h
  | cons e rest ih =>
    intro done acc h
    rw [List.foldl_cons]
    by_cases hx : e.2.expired now = true
    · rw [List.filter_cons_of_neg (by simp [hx])]
      apply ih
      rw [expirationStep_fst, if_pos hx]
      show List.kerase e.1 acc.1.items.entries = done ++ rest
      have hnd : (done ++ e :: rest).NodupKeys := h ▸ acc.1.items.nodupKeys
      have hnot : e.1 ∉ done.keys := by
        intro hmem
        rw [List.nodupKeys_iff_pairwise] at hnd
        have hp := (List.pairwise_append.mp hnd).2.2
        obtain ⟨b, hb⟩ := List.exists_of_mem_keys hmem
        exact hp _ hb e (List.mem_cons_self _ _) rfl
      rw [h, List.kerase_append_right hnot, List.kerase_cons_eq rfl]
    · rw [List.filter_cons_of_pos (by simp [hx])]
      have hacc : (expirationStep now acc e).1 = acc.1 := by
        rw [expirationStep_fst, if_neg hx]
      have := ih (done ++ [e]) (expirationStep now acc e) (by rw [hacc, h]; simp)
      simpa using this

theorem expirationLoop_entries (table : CacheTable K V) (now : Time) :
    (expirationLoop table now).1.items.entries =
      table.items.entries.filter (fun e => !e.2.expired now) := by
  unfold expirationLoop
  simpa using foldl_entries now table.items.entries [] (table, GoInt64.ofInt 0) (by simp)

theorem expirationLoop_snd (table : CacheTable K V) (now : Time) :
    (expirationLoop table now).2 =
      table.items.entries.foldl (smallStep now) (GoInt64.ofInt 0) := by
  unfold expirationLoop
  rw [foldl_snd]

/-! ## The recorded deadline -/

theorem remaining_pos (now : Time) (item : ItemsCache K V) (hat : item.accessTime ≤ now)
    (hx : ¬ item.lifeCycle.val ≤ (Time.Sub now item.accessTime).val) :
    (GoInt64.sub item.lifeCycle (Time.Sub now item.accessTime)).val =
        item.lifeCycle.val - (now - item.accessTime) ∧
      0 < (GoInt64.sub item.lifeCycle (Time.Sub now item.accessTime)).val := by
  have hhi := item.lifeCycle.hi
  have hlo := item.lifeCycle.lo
  unfold GoInt64.sub GoInt64.ofInt wrap64
  unfold Time.Sub at hx ⊢
  unfold Time at *
  split_ifs at hx ⊢ <;> simp only at hx ⊢ <;> omega

theorem smallStep_cases (now : Time) (s : Duration)
    (e : Sigma (fun _ : K => ItemsCache K V)) (hs : 0 ≤ s.val)
    (hpos : e.2.lifeCycle.val ≠ 0 → e.2.expired now = false →
      0 < (GoInt64.sub e.2.lifeCycle (Time.Sub now e.2.accessTime)).val) :
    0 ≤ (smallStep now s e).val ∧
      (smallStep now s e = s ∨
        (e.2.lifeCycle.val ≠ 0 ∧ e.2.expired now = false ∧
          smallStep now s e = GoInt64.sub e.2.lifeCycle (Time.Sub now e.2.accessTime))) ∧
      (0 < s.val → 0 < (smallStep now s e).val ∧ (smallStep now s e).val ≤ s.val) ∧
      (e.2.lifeCycle.val ≠ 0 → e.2.expired now = false →
        0 < (smallStep now s e).val ∧
          (smallStep now s e).val ≤
            (GoInt64.sub e.2.lifeCycle (Time.Sub now e.2.accessTime)).val) := by
  by_cases h0 : e.2.lifeCycle.val = 0
  · have hst : smallStep now s e = s := by unfold smallStep; rw [if_pos h0]
    rw [hst]
    exact ⟨hs, Or.inl rfl, fun h => ⟨h, le_refl _⟩, fun h => absurd h0 h⟩
  · by_cases h1 : e.2.lifeCycle.val ≤ (Time.Sub now e.2.accessTime).val
    · have hst : smallStep now s e = s := by unfold smallStep; rw [if_neg h0, if_pos h1]
      have hx : e.2.expired now = true := by
        unfold ItemsCache.expired
        simp [h0, h1]
      rw [hst]
      refine ⟨hs, Or.inl rfl, fun h => ⟨h, le_refl _⟩, fun _ h => ?_⟩
      rw [hx] at h
      cases h
    · have hx : e.2.expired now = false := by
        unfold ItemsCache.expired
        simp [h1]
      have ht := hpos h0 hx
      by_cases h2 : s.val = 0 ∨
          (GoInt64.sub e.2.lifeCycle (Time.Sub now e.2.accessTime)).val < s.val
      · have hst : smallStep now s e =
            GoInt64.sub e.2.lifeCycle (Time.Sub now e.2.accessTime) := by
          unfold smallStep; rw [if_neg h0, if_neg h1, if_pos h2]
        rw [hst]
        refine ⟨le_of_lt ht, Or.inr ⟨h0, hx, rfl⟩, fun h => ⟨ht, ?_⟩, fun _ _ => ⟨ht, le_refl _⟩⟩
        rcases h2 with h2 | h2
        · omega
        · omega
      · have hst : smallStep now s e = s := by
          unfold smallStep; rw [if_neg h0, if_neg h1, if_neg h2]
        rw [hst]
        have h3 : s.val ≠ 0 := fun h => h2 (Or.inl h)
        have h4 : ¬ (GoInt64.sub e.2.lifeCycle (Time.Sub now e.2.accessTime)).val < s.val :=
          fun h => h2 (Or.inr h)
        refine ⟨hs, Or.inl rfl, fun h => ⟨h, le_refl _⟩, fun _ _ => ⟨?_, ?_⟩⟩
        · omega
        · omega

theorem foldl_smallStep_min (now : Time) :
    ∀ (es : List (Sigma (fun _ : K => ItemsCache K V))) (s : Duration),
      0 ≤ s.val →
      (∀ e ∈ es, e.2.lifeCycle.val ≠ 0 → e.2.expired now = false →
        0 < (GoInt64.sub e.2.lifeCycle (Time.Sub now e.2.accessTime)).val) →
      0 ≤ (es.foldl (smallStep now) s).val ∧
        (es.foldl (smallStep now) s = s ∨
          ∃ e ∈ es, e.2.lifeCycle.val ≠ 0 ∧ e.2.expired now = false ∧
            es.foldl (smallStep now) s =
              GoInt64.sub e.2.lifeCycle (Time.Sub now e.2.accessTime)) ∧
        (0 < s.val →
          0 < (es.foldl (smallStep now) s).val ∧ (es.foldl (smallStep now) s).val ≤ s.val) ∧
        (∀ e ∈ es, e.2.lifeCycle.val ≠ 0 → e.2.expired now = false →
          0 < (es.foldl (smallStep now) s).val ∧
            (es.foldl (smallStep now) s).val ≤
              (GoInt64.sub e.2.lifeCycle (Time.Sub now e.2.accessTime)).val) := by
  intro es
  induction es with
  | nil =>
    intro s hs _
    exact ⟨hs, Or.inl rfl, fun h => ⟨h, le_refl _⟩, fun e he => absurd he (List.not_mem_nil e)⟩
  | cons e es ih =>
    intro s hs hpos
    rw [List.foldl_cons]
    obtain ⟨c0, c1, c2, c3⟩ :=
      smallStep_cases now s e hs (hpos e (List.mem_cons_self _ _))
    obtain ⟨i0, i1, i2, i3⟩ :=
      ih (smallStep now s e) c0 (fun x hx => hpos x (List.mem_cons_of_mem _ hx))
    refine ⟨i0, ?_, ?_, ?_⟩
    · rcases i1 with i1 | ⟨x, hx, hx0, hx1, hx2⟩
      · rcases c1 with c1 | ⟨d0, d1, d2⟩
        · left; rw [i1, c1]
        · right; exact ⟨e, List.mem_cons_self _ _, d0, d1, by rw [i1, d2]⟩
      · right; exact ⟨x, List.mem_cons_of_mem _ hx, hx0, hx1, hx2⟩
    · intro h
      obtain ⟨a, b⟩ := c2 h
      obtain ⟨a2, b2⟩ := i2 a
      exact ⟨a2, le_trans b2 b⟩
    · intro x hx hx0 hx1
      rcases List.mem_cons.mp hx with rfl | hx
      · obtain ⟨a, b⟩ := c3 hx0 hx1
        obtain ⟨a2, b2⟩ := i2 a
        exact ⟨a2, le_trans b2 b⟩
      · exact i3 x hx hx0 hx1

theorem notBefore_mem (table : CacheTable K V) (now : Time) (h : table.notBefore now = true)
    (e : Sigma (fun _ : K => ItemsCache K V)) (he : e ∈ table.items.entries) :
    e.2.accessTime ≤ now := by
  unfold CacheTable.notBefore at h
  rw [List.all_eq_true] at h
  simpa using h e he

theorem notBefore_remaining (table : CacheTable K V) (now : Time)
    (h : table.notBefore now = true) :
    ∀ e ∈ table.items.entries, e.2.lifeCycle.val ≠ 0 → e.2.expired now = false →
      (GoInt64.sub e.2.lifeCycle (Time.Sub now e.2.accessTime)).val =
          e.2.lifeCycle.val - (now - e.2.accessTime) ∧
        0 < (GoInt64.sub e.2.lifeCycle (Time.Sub now e.2.accessTime)).val := by
  intro e he h0 hx
  apply remaining_pos now e.2 (notBefore_mem table now h e he)
  unfold ItemsCache.expired at hx
  simp only [Bool.and_eq_false_imp, decide_eq_true_eq, decide_eq_false_iff_not] at hx
  exact hx h0

theorem expirationCheck_deadline_nonneg (table : CacheTable K V) (now : Time)
    (h : table.notBefore now = true) : 0 ≤ (table.expirationCheck now).deadline.val := by
  rw [expirationCheck_deadline, expirationLoop_snd]
  exact (foldl_smallStep_min now table.items.entries (GoInt64.ofInt 0) (by decide)
    (fun e he h0 hx => (notBefore_remaining table now h e he h0 hx).2)).1

theorem expirationCheck_timers (table : CacheTable K V) (now : Time) :
    (0 < (table.expirationCheck now).deadline.val →
      (table.expirationCheck now).timers =
          table.timers ++
            [{ created := now, d := (table.expirationCheck now).deadline, pending := true }] ∧
        (table.expirationCheck now).timeAfter = some table.timers.length) ∧
    (¬ 0 < (table.expirationCheck now).deadline.val →
      (table.expirationCheck now).timers = table.timers ∧
        (table.expirationCheck now).timeAfter = table.timeAfter) := by
  obtain ⟨_, _, f3, f4⟩ := foldl_frame now table.items.entries (table, GoInt64.ofInt 0)
  have g3 : (expirationLoop table now).1.timeAfter = table.timeAfter := f3
  have g4 : (expirationLoop table now).1.timers = table.timers := f4
  rw [expirationCheck_deadline]
  unfold CacheTable.expirationCheck
  constructor
  · intro hp
    rw [if_pos hp]
    constructor
    · show (expirationLoop table now).1.timers ++ _ = table.timers ++ _
      rw [g4]
    · show some (expirationLoop table now).1.timers.length = some table.timers.length
      rw [g4]
  · intro hp
    rw [if_neg hp]
    exact ⟨g4, g3⟩

theorem Time.Sub_self (t : Int) : (Time.Sub t t).val = 0 := by
  unfold Time.Sub
  simp

theorem Time.Sub_le_iff (d : Duration) (t u : Int) (hd : 0 < d.val) :
    d.val ≤ (Time.Sub t u).val ↔ d.val ≤ t - u := by
  have hhi := d.hi
  unfold Time.Sub
  split_ifs <;> simp only <;> omega

theorem setInside_lookup_self (table : CacheTable K V) (item : ItemsCache K V) (now : Time)
    (hat : item.accessTime = now) :
    AList.lookup item.key (table.setInside item now).items = some item := by
  unfold CacheTable.setInside
  by_cases ht : sweepTriggered table.deadline item = true
  · rw [if_pos ht, expirationCheck_lookup]
    simp only [AList.lookup_insert, Option.filter]
    have hpos : 0 < item.lifeCycle.val := by
      unfold sweepTriggered at ht
      simp only [Bool.and_eq_true, decide_eq_true_eq] at ht
      exact ht.1
    have hx : item.expired now = false := by
      unfold ItemsCache.expired
      rw [hat, Time.Sub_self]
      simp only [Bool.and_eq_false_imp, decide_eq_true_eq, decide_eq_false_iff_not]
      intro _
      omega
    simp [hx]
  · rw [if_neg ht]
    simp

theorem Set_lookup_self (table : CacheTable K V) (k : K) (v : V) (l : Duration) (now : Time) :
    AList.lookup k (table.Set k v l now now).items =
      some (NewItemsCache k v (setLifeCycle l) now) := by
  unfold CacheTable.Set
  exact setInside_lookup_self table (NewItemsCache k v (setLifeCycle l) now) now rfl

theorem expirationCheck_keeps (table : CacheTable K V) (now : Time) (k : K)
    (item : ItemsCache K V) (h : AList.lookup k table.items = some item)
    (hpos : 0 < item.lifeCycle.val) (hb : now - item.accessTime < item.lifeCycle.val) :
    AList.lookup k (table.expirationCheck now).items = some item := by
  rw [expirationCheck_lookup, h]
  have hiff := Time.Sub_le_iff item.lifeCycle now item.accessTime hpos
  have he : item.expired now = false := by
    unfold ItemsCache.expired
    have : ¬ item.lifeCycle.val ≤ (Time.Sub now item.accessTime).val := by
      intro hc
      have := hiff.mp hc
      unfold Time at *
      omega
    simp [this]
  simp [Option.filter, he]

theorem Set_lookup_other (table : CacheTable K V) (key k : K) (v : V) (l : Duration)
    (now checkTime : Time) (item : ItemsCache K V) (hk : key ≠ k)
    (h : AList.lookup k table.items = some item)
    (hpos : 0 < item.lifeCycle.val)
    (hb : checkTime - item.accessTime < item.lifeCycle.val) :
    AList.lookup k (table.Set key v l now checkTime).items = some item := by
  have hk2 : k ≠ key := fun e => hk e.symm
  unfold CacheTable.Set CacheTable.setInside
  split_ifs
  · apply expirationCheck_keeps _ _ _ _ _ hpos hb
    show AList.lookup k (AList.insert key _ table.items) = some item
    rw [AList.lookup_insert_ne hk2, h]
  · show AList.lookup k (AList.insert key _ table.items) = some item
    rw [AList.lookup_insert_ne hk2, h]

theorem fire_lookup (table : CacheTable K V) (i : Nat) (checkTime : Time) (k : K)
    (item : ItemsCache K V) (h : AList.lookup k table.items = some item)
    (hpos : 0 < item.lifeCycle.val)
    (hb : checkTime - item.accessTime < item.lifeCycle.val) :
    AList.lookup k (table.fire i checkTime).items = some item := by
  unfold CacheTable.fire
  cases table.timers.get? i with
  | none => exact h
  | some tm =>
    show AList.lookup k (if tm.pending = true then _ else table).items = some item
    split_ifs
    · exact expirationCheck_keeps _ _ _ _ h hpos hb
    · exact h

theorem run_keeps (k : K) (v : V) (bound : Int) (hbound : 0 < bound) :
    ∀ (ops : List (Op K V)) (table : CacheTable K V) (last : Time),
      undisturbed k bound last ops = true →
      (∃ item, AList.lookup k table.items = some item ∧ item.value = v ∧
        item.lifeCycle.val = bound ∧ item.accessTime = last) →
      ∃ item, AList.lookup k (table.run ops).items = some item ∧ item.value = v := by
  intro ops
  induction ops with
  | nil =>
    intro table last _ hinv
    obtain ⟨item, h1, h2, _, _⟩ := hinv
    exact ⟨item, h1, h2⟩
  | cons op ops ih =>
    intro table last hq hinv
    obtain ⟨item, h1, h2, h3, h4⟩ := hinv
    have hpos : 0 < item.lifeCycle.val := by omega
    show ∃ item, AList.lookup k ((table.step op).run ops).items = some item ∧ item.value = v
    cases op with
    | set key value lifeCycle now checkTime =>
      simp only [undisturbed, Bool.and_eq_true, decide_eq_true_eq] at hq
      obtain ⟨⟨hk, hb⟩, hrest⟩ := hq
      refine ih _ last hrest ⟨item, ?_, h2, h3, h4⟩
      exact Set_lookup_other table key k value lifeCycle now checkTime item hk h1 hpos
        (by rw [h4, h3]; exact hb)
    | get key now =>
      simp only [undisturbed] at hq
      by_cases hk : key = k
      · subst hk
        rw [if_pos rfl] at hq
        refine ih _ now hq ⟨item.TriggerObtain now, ?_, h2, h3, rfl⟩
        show AList.lookup key (table.Get key now).2.items = _
        unfold CacheTable.Get
        rw [h1]
        simp [lookup_replace, h1]
      · rw [if_neg hk] at hq
        refine ih _ last hq ⟨item, ?_, h2, h3, h4⟩
        show AList.lookup k (table.Get key now).2.items = _
        unfold CacheTable.Get
        have hk2 : ¬ k = key := fun e => hk e.symm
        cases hl : AList.lookup key table.items with
        | none => exact h1
        | some other => simp [lookup_replace, hk2, h1]
    | delete key =>
      simp only [undisturbed, Bool.and_eq_true, decide_eq_true_eq] at hq
      obtain ⟨hk, hrest⟩ := hq
      refine ih _ last hrest ⟨item, ?_, h2, h3, h4⟩
      show AList.lookup k (table.Delete key).2.items = _
      unfold CacheTable.Delete
      rw [deleteInside_snd]
      show AList.lookup k (AList.erase key table.items) = _
      rw [AList.lookup_erase_ne (fun e => hk e.symm), h1]
    | deleteAll =>
      simp [undisturbed] at hq
    | sweep checkTime =>
      simp only [undisturbed, Bool.and_eq_true, decide_eq_true_eq] at hq
      obtain ⟨hb, hrest⟩ := hq
      refine ih _ last hrest ⟨item, ?_, h2, h3, h4⟩
      exact expirationCheck_keeps table checkTime k item h1 hpos (by rw [h4, h3]; exact hb)
    | fire i checkTime =>
      simp only [undisturbed, Bool.and_eq_true, decide_eq_true_eq] at hq
      obtain ⟨hb, hrest⟩ := hq
      refine ih _ last hrest ⟨item, ?_, h2, h3, h4⟩
      exact fire_lookup table i checkTime k item h1 hpos (by rw [h4, h3]; exact hb)

theorem Set_eq (table : CacheTable K V) (k : K) (v : V) (l : Duration) (now ct : Time) :
    table.Set k v l now ct =
      if sweepTriggered table.deadline (NewItemsCache k v (setLifeCycle l) now) = true then
        CacheTable.expirationCheck
          { table with
            items := table.items.insert k (NewItemsCache k v (setLifeCycle l) now) } ct
      else
        { table with items := table.items.insert k (NewItemsCache k v (setLifeCycle l) now) } :=
  rfl

theorem length_insert (m : AList (fun _ : K => ItemsCache K V)) (k : K)
    (item : ItemsCache K V) :
    (AList.lookup k m = none →
        ((AList.insert k item m).entries.length : Int) = (m.entries.length : Int) + 1) ∧
      (∀ old, AList.lookup k m = some old →
        ((AList.insert k item m).entries.length : Int) = (m.entries.length : Int)) := by
  constructor
  · intro h
    rw [AList.insert_entries, List.kerase_of_not_mem_keys (AList.lookup_eq_none.mp h)]
    simp
  · intro old h
    have h2 := length_erase_of_lookup m k old h
    rw [AList.insert_entries]
    have h3 : (AList.erase k m).entries = List.kerase k m.entries := rfl
    rw [h3] at h2
    simp only [List.length_cons, Nat.cast_add, Nat.cast_one]
    omega

/-! ## Histories -/

theorem Get_deadline (table : CacheTable K V) (k : K) (now : Time) :
    (table.Get k now).2.deadline = table.deadline := by
  unfold CacheTable.Get
  cases AList.lookup k table.items <;> rfl

theorem fire_eq (table : CacheTable K V) (i : Nat) (ct : Time) :
    table.fire i ct =
      if table.isPending i = true then
        CacheTable.expirationCheck { table with timers := table.timers.modify Timer.fired i } ct
      else table := by
  unfold CacheTable.fire CacheTable.isPending
  cases table.timers.get? i with
  | none => rfl
  | some tm => rfl

theorem step_deadline_nonneg (table : CacheTable K V) (op : Op K V)
    (hd : 0 ≤ table.deadline.val) (ht : opTimely table op = true) :
    0 ≤ (table.step op).deadline.val := by
  cases op with
  | set key value lifeCycle now checkTime =>
    show 0 ≤ (table.Set key value lifeCycle now checkTime).deadline.val
    rw [Set_eq]
    by_cases hs : sweepTriggered table.deadline
        (NewItemsCache key value (setLifeCycle lifeCycle) now) = true
    · rw [if_pos hs]
      apply expirationCheck_deadline_nonneg
      simp only [opTimely, hs, Bool.not_true, Bool.false_or] at ht
      exact ht
    · rw [if_neg hs]
      exact hd
  | get key now =>
    show 0 ≤ (table.Get key now).2.deadline.val
    rw [Get_deadline]
    exact hd
  | delete key =>
    show 0 ≤ (table.Delete key).2.deadline.val
    unfold CacheTable.Delete
    rw [deleteInside_snd]
    exact hd
  | deleteAll =>
    show (0 : Int) ≤ (GoInt64.ofInt 0).val
    decide
  | sweep checkTime =>
    exact expirationCheck_deadline_nonneg table checkTime ht
  | fire i checkTime =>
    show 0 ≤ (table.fire i checkTime).deadline.val
    rw [fire_eq]
    by_cases hp : table.isPending i = true
    · rw [if_pos hp]
      apply expirationCheck_deadline_nonneg
      simp only [opTimely, hp, Bool.not_true, Bool.false_or] at ht
      exact ht
    · rw [if_neg hp]
      exact hd

theorem run_deadline_nonneg :
    ∀ (ops : List (Op K V)) (table : CacheTable K V),
      0 ≤ table.deadline.val → timely table ops = true → 0 ≤ (table.run ops).deadline.val := by
  intro ops
  induction ops with
  | nil => intro table hd _; exact hd
  | cons op ops ih =>
    intro table hd ht
    simp only [timely, Bool.and_eq_true] at ht
    exact ih (table.step op) (step_deadline_nonneg table op hd ht.1) ht.2

theorem notBefore_insert (table : CacheTable K V) (k : K) (item : ItemsCache K V)
    (now : Time) (h : table.notBefore now = true) (hat : item.accessTime ≤ now) :
    CacheTable.notBefore { table with items := table.items.insert k item } now = true := by
  unfold CacheTable.notBefore
  rw [List.all_eq_true]
  intro e he
  have he2 : e ∈ (⟨k, item⟩ : Sigma (fun _ : K => ItemsCache K V)) ::
      List.kerase k table.items.entries := by
    have h3 : (table.items.insert k item).entries =
        ⟨k, item⟩ :: List.kerase k table.items.entries := AList.insert_entries
    rw [← h3]
    exact he
  rcases List.mem_cons.mp he2 with rfl | hmem
  · simpa using hat
  · have := notBefore_mem table now h e ((List.kerase_sublist k table.items.entries).subset hmem)
    simpa using this

theorem Set_deadline_bounds (table : CacheTable K V) (k : K) (v : V) (l : Duration)
    (now : Time) (hd : 0 ≤ table.deadline.val) (hnow : table.notBefore now = true)
    (hpos : 0 < (setLifeCycle l).val) :
    0 < (table.Set k v l now now).deadline.val ∧
      (table.Set k v l now now).deadline.val ≤ (setLifeCycle l).val := by
  rw [Set_eq]
  by_cases ht : sweepTriggered table.deadline (NewItemsCache k v (setLifeCycle l) now) = true
  · rw [if_pos ht]
    have hnb := notBefore_insert table k (NewItemsCache k v (setLifeCycle l) now) now hnow
      (le_refl _)
    have hrem := notBefore_remaining _ now hnb
    obtain ⟨_, _, _, m3⟩ := foldl_smallStep_min now
      (table.items.insert k (NewItemsCache k v (setLifeCycle l) now)).entries (GoInt64.ofInt 0)
      (by decide) (fun e he h0 hx => (hrem e he h0 hx).2)
    have hmem : (⟨k, NewItemsCache k v (setLifeCycle l) now⟩ :
        Sigma (fun _ : K => ItemsCache K V)) ∈
        (table.items.insert k (NewItemsCache k v (setLifeCycle l) now)).entries := by
      rw [AList.insert_entries]
      exact List.mem_cons_self _ _
    have h0 : (NewItemsCache k v (setLifeCycle l) now).lifeCycle.val ≠ 0 := by
      show (setLifeCycle l).val ≠ 0
      omega
    have hx : (NewItemsCache k v (setLifeCycle l) now).expired now = false := by
      unfold ItemsCache.expired
      show (decide ((setLifeCycle l).val ≠ 0) &&
        decide ((setLifeCycle l).val ≤ (Time.Sub now now).val)) = false
      rw [Time.Sub_self]
      simp only [Bool.and_eq_false_imp, decide_eq_true_eq, decide_eq_false_iff_not]
      intro _
      omega
    have hb := m3 _ hmem h0 hx
    have hv := (hrem _ hmem h0 hx).1
    have hv2 : (GoInt64.sub (setLifeCycle l) (Time.Sub now now)).val = (setLifeCycle l).val := by
      have : (GoInt64.sub (setLifeCycle l) (Time.Sub now now)).val =
          (setLifeCycle l).val - (now - now) := hv
      rw [this]
      unfold Time at *
      omega
    rw [expirationCheck_deadline, expirationLoop_snd]
    have hb1 := hb.1
    have hb2 : _ ≤ (GoInt64.sub (setLifeCycle l) (Time.Sub now now)).val := hb.2
    rw [hv2] at hb2
    exact ⟨hb1, hb2⟩
  · rw [if_neg ht]
    show 0 < table.deadline.val ∧ table.deadline.val ≤ (setLifeCycle l).val
    unfold sweepTriggered NewItemsCache at ht
    simp only [Bool.and_eq_true, Bool.or_eq_true, decide_eq_true_eq, not_and, not_or] at ht
    have := ht hpos
    omega

/-! ## Get -/

theorem Get_lookup (table : CacheTable K V) (k j : K) (now : Time) :
    AList.lookup j (table.Get k now).2.items =
      if j = k then (AList.lookup k table.items).map (fun item => item.TriggerObtain now)
      else AList.lookup j table.items := by
  unfold CacheTable.Get
  cases h : AList.lookup k table.items with
  | none =>
    by_cases hj : j = k
    · subst hj
      simp [h]
    · simp [hj]
  | some item =>
    show AList.lookup j (AList.replace k (item.TriggerObtain now) table.items) = _
    rw [lookup_replace, h]
    rfl

theorem Get_frame (table : CacheTable K V) (k : K) (now : Time) :
    (table.Get k now).2.items.keys = table.items.keys ∧
      (table.Get k now).2.Count = table.Count ∧
      (table.Get k now).2.deadline = table.deadline ∧
      (table.Get k now).2.timeAfter = table.timeAfter ∧
      (table.Get k now).2.timers = table.timers ∧
      (table.Get k now).2.name = table.name := by
  unfold CacheTable.Get
  cases h : AList.lookup k table.items with
  | none => exact ⟨rfl, rfl, rfl, rfl, rfl, rfl⟩
  | some item =>
    have hk : (AList.replace k (item.TriggerObtain now) table.items).keys = table.items.keys :=
      AList.keys_replace _ _ _
    refine ⟨hk, ?_, rfl, rfl, rfl, rfl⟩
    unfold CacheTable.Count
    show ((AList.replace k (item.TriggerObtain now) table.items).entries.length : Int) =
      (table.items.entries.length : Int)
    have h1 : (AList.replace k (item.TriggerObtain now) table.items).entries.length =
        (AList.replace k (item.TriggerObtain now) table.items).keys.length := by
      unfold AList.keys List.keys
      rw [List.length_map]
    have h2 : table.items.entries.length = table.items.keys.length := by
      unfold AList.keys List.keys
      rw [List.length_map]
    rw [h1, h2, hk]

theorem wrap64_succ (x : Int) : wrap64 (wrap64 x + 1) = wrap64 (x + 1) := by
  unfold wrap64
  omega

theorem getN_count (table : CacheTable K V) (k : K) (times : Nat → Time)
    (item : ItemsCache K V) (h : AList.lookup k table.items = some item) :
    ∀ n : Nat, ∃ got, AList.lookup k (table.getN k times n).items = some got ∧
      got.accessCount.val = wrap64 (item.accessCount.val + n) := by
  intro n
  induction n with
  | zero =>
    refine ⟨item, h, ?_⟩
    have hlo := item.accessCount.lo
    have hhi := item.accessCount.hi
    unfold wrap64
    simp only [Nat.cast_zero, add_zero]
    omega
  | succ n ih =>
    obtain ⟨got, h1, h2⟩ := ih
    refine ⟨got.TriggerObtain (times n), ?_, ?_⟩
    · show AList.lookup k ((table.getN k times n).Get k (times n)).2.items = _
      rw [Get_lookup, if_pos rfl, h1]
      rfl
    · show wrap64 (got.accessCount.val + 1) = _
      rw [h2, wrap64_succ]
      congr 1
      push_cast
      ring

/-! ## The registry -/

theorem Cache_eq (reg : Registry K V) (name : String) :
    Cache reg name =
      match reg.cache.lookup name with
      | some v => (v, reg)
      | none =>
        (reg.tables.length,
          { tables := reg.tables ++ [CacheTable.new name],
            cache := reg.cache.insert name reg.tables.length }) := by
  unfold Cache
  cases reg.cache.lookup name <;> rfl

theorem Cache_lookup_self (reg : Registry K V) (name : String) :
    AList.lookup name (Cache reg name).2.cache = some (Cache reg name).1 := by
  rw [Cache_eq]
  cases h : reg.cache.lookup name with
  | some v => exact h
  | none => exact AList.lookup_insert _

theorem Cache_lookup_other (reg : Registry K V) (name other : String) (ho : other ≠ name) :
    AList.lookup other (Cache reg name).2.cache = AList.lookup other reg.cache := by
  rw [Cache_eq]
  cases h : reg.cache.lookup name with
  | some v => rfl
  | none => exact AList.lookup_insert_ne ho

theorem Cache_tables (reg : Registry K V) (name : String) (i : Nat) (t : CacheTable K V)
    (h : reg.tables.get? i = some t) : (Cache reg name).2.tables.get? i = some t := by
  rw [Cache_eq]
  cases reg.cache.lookup name with
  | some v => exact h
  | none =>
    show (reg.tables ++ [CacheTable.new name]).get? i = some t
    have hi : i < reg.tables.length := by
      obtain ⟨hlt, _⟩ := List.get?_eq_some.mp h
      exact hlt
    rw [List.get?_append hi]
    exact h

theorem Cache_wellFormed (reg : Registry K V) (name : String) (h : reg.WellFormed) :
    (Cache reg name).2.WellFormed := by
  intro n p hp
  by_cases hn : n = name
  · subst hn
    rw [Cache_lookup_self] at hp
    have hp2 : (Cache reg n).1 = p := Option.some.inj hp
    rw [← hp2]
    rw [Cache_eq]
    cases hl : reg.cache.lookup n with
    | some v => exact h n v hl
    | none =>
      refine ⟨CacheTable.new n, ?_, rfl⟩
      show (reg.tables ++ [CacheTable.new n]).get? reg.tables.length = _
      exact List.get?_concat_length _ _
  · rw [Cache_lookup_other reg name n hn] at hp
    obtain ⟨t, ht, htn⟩ := h n p hp
    exact ⟨t, Cache_tables reg name p t ht, htn⟩

theorem after_wellFormed (names : List String) :
    (Registry.after names : Registry K V).WellFormed := by
  unfold Registry.after
  have key : ∀ (l : List String) (reg : Registry K V), reg.WellFormed →
      (l.foldl (fun reg name => (Cache reg name).2) reg).WellFormed := by
    intro l
    induction l with
    | nil => intro reg h; exact h
    | cons a l ih =>
      intro reg h
      rw [List.foldl_cons]
      exact ih _ (Cache_wellFormed reg a h)
  apply key
  intro n p hp
  cases hp

theorem Cache_distinct (reg : Registry K V) (h : reg.WellFormed) (a b : String)
    (hab : a ≠ b) : (Cache reg a).1 ≠ (Cache (Cache reg a).2 b).1 := by
  intro heq
  have w2 := Cache_wellFormed (Cache reg a).2 b (Cache_wellFormed reg a h)
  have la : AList.lookup a (Cache (Cache reg a).2 b).2.cache = some (Cache reg a).1 := by
    rw [Cache_lookup_other _ b a hab, Cache_lookup_self]
  have lb := Cache_lookup_self (Cache reg a).2 b
  rw [← heq] at lb
  obtain ⟨t1, ht1, hn1⟩ := w2 a _ la
  obtain ⟨t2, ht2, hn2⟩ := w2 b _ lb
  rw [ht1] at ht2
  have : t1 = t2 := Option.some.inj ht2
  rw [this] at hn1
  exact hab (hn1.symm.trans hn2)

/-! ## Two successive calls of Set -/

theorem sweep_deadline_mem (table : CacheTable K V) (now : Time)
    (hnow : table.notBefore now = true) :
    (table.expirationCheck now).deadline.val = 0 ∨
      ∃ e ∈ table.items.entries, e.2.lifeCycle.val ≠ 0 ∧
        (table.expirationCheck now).deadline.val =
          e.2.lifeCycle.val - (now - e.2.accessTime) := by
  have hrem := notBefore_remaining table now hnow
  obtain ⟨_, m1, _, _⟩ := foldl_smallStep_min now table.items.entries (GoInt64.ofInt 0)
    (by decide) (fun e he h0 hx => (hrem e he h0 hx).2)
  rw [expirationCheck_deadline, expirationLoop_snd]
  rcases m1 with m1 | ⟨e, he, h0, hx, hr⟩
  · left
    rw [m1]
    decide
  · right
    exact ⟨e, he, h0, by rw [hr]; exact (hrem e he h0 hx).1⟩

theorem set_deadline_mem (table : CacheTable K V) (k : K) (v : V) (l : Duration) (now : Time)
    (hnow : table.notBefore now = true)
    (ht : sweepTriggered table.deadline (NewItemsCache k v (setLifeCycle l) now) = true) :
    (table.Set k v l now now).deadline.val = 0 ∨
      (table.Set k v l now now).deadline.val = (setLifeCycle l).val ∨
      ∃ e ∈ table.items.entries, e.2.lifeCycle.val ≠ 0 ∧
        (table.Set k v l now now).deadline.val =
          e.2.lifeCycle.val - (now - e.2.accessTime) := by
  have hnb := notBefore_insert table k (NewItemsCache k v (setLifeCycle l) now) now hnow
    (le_refl _)
  rw [Set_eq, if_pos ht]
  rcases sweep_deadline_mem _ now hnb with h | ⟨e, he, h0, h⟩
  · exact Or.inl h
  · have he2 : e ∈ (⟨k, NewItemsCache k v (setLifeCycle l) now⟩ :
        Sigma (fun _ : K => ItemsCache K V)) :: List.kerase k table.items.entries := by
      have h3 : (table.items.insert k (NewItemsCache k v (setLifeCycle l) now)).entries =
          ⟨k, NewItemsCache k v (setLifeCycle l) now⟩ :: List.kerase k table.items.entries :=
        AList.insert_entries
      rw [← h3]
      exact he
    rcases List.mem_cons.mp he2 with h4 | h4
    · right; left
      rw [h, h4]
      show (setLifeCycle l).val - (now - now) = (setLifeCycle l).val
      unfold Time at *
      omega
    · right; right
      exact ⟨e, (List.kerase_sublist k table.items.entries).subset h4, h0, h⟩

theorem first_set_five (t : CacheTable K V) (a : K) (x : V) (now : Time)
    (he : t.items.entries = []) :
    (t.Set a x (GoInt64.ofInt 5) now now).deadline.val =
        (if t.deadline.val = 0 ∨ 5000000000 < t.deadline.val then 5000000000
          else t.deadline.val) ∧
      ∀ e ∈ (t.Set a x (GoInt64.ofInt 5) now now).items.entries,
        e.2.lifeCycle.val = 5000000000 ∧ e.2.accessTime = now := by
  have hl5 : (setLifeCycle (GoInt64.ofInt 5)).val = 5000000000 := by decide
  have hnb0 : t.notBefore now = true := by
    unfold CacheTable.notBefore
    rw [he]
    rfl
  have hins : ∀ e ∈ (t.items.insert a
      (NewItemsCache a x (setLifeCycle (GoInt64.ofInt 5)) now)).entries,
      e.2.lifeCycle.val = 5000000000 ∧ e.2.accessTime = now := by
    intro e h2
    rw [AList.insert_entries, he] at h2
    have h3 : e = ⟨a, NewItemsCache a x (setLifeCycle (GoInt64.ofInt 5)) now⟩ := by
      simpa using h2
    rw [h3]
    exact ⟨hl5, rfl⟩
  by_cases hd : t.deadline.val = 0 ∨ 5000000000 < t.deadline.val
  · have htrig : sweepTriggered t.deadline
        (NewItemsCache a x (setLifeCycle (GoInt64.ofInt 5)) now) = true := by
      unfold sweepTriggered NewItemsCache
      simp only [hl5, Bool.and_eq_true, Bool.or_eq_true, decide_eq_true_eq]
      exact ⟨by decide, hd⟩
    have hb1 := Set_deadline_bounds t a x (GoInt64.ofInt 5) now (by omega) hnb0
      (by rw [hl5]; decide)
    constructor
    · rw [if_pos hd]
      rcases set_deadline_mem t a x (GoInt64.ofInt 5) now hnb0 htrig with h | h | ⟨e, hin, _, _⟩
      · omega
      · rw [h, hl5]
      · rw [he] at hin
        exact absurd hin (List.not_mem_nil e)
    · intro e hin
      rw [Set_eq, if_pos htrig, expirationCheck_items, expirationLoop_entries] at hin
      exact hins e (List.mem_of_mem_filter hin)
  · have htrig : ¬ sweepTriggered t.deadline
        (NewItemsCache a x (setLifeCycle (GoInt64.ofInt 5)) now) = true := by
      unfold sweepTriggered NewItemsCache
      simp only [hl5, Bool.and_eq_true, Bool.or_eq_true, decide_eq_true_eq]
      exact fun h => hd h.2
    rw [Set_eq, if_neg htrig, if_neg hd]
    exact ⟨rfl, hins⟩

theorem second_set_one (t : CacheTable K V) (b : K) (y : V) (now : Time)
    (hall : ∀ e ∈ t.items.entries, e.2.lifeCycle.val = 5000000000 ∧ e.2.accessTime = now) :
    (t.Set b y (GoInt64.ofInt 1) now now).deadline.val =
      (if t.deadline.val = 0 ∨ 1000000000 < t.deadline.val then 1000000000
        else t.deadline.val) := by
  have hl1 : (setLifeCycle (GoInt64.ofInt 1)).val = 1000000000 := by decide
  have hnb : t.notBefore now = true := by
    unfold CacheTable.notBefore
    rw [List.all_eq_true]
    intro e hin
    have := (hall e hin).2
    simp [this]
  by_cases hd : t.deadline.val = 0 ∨ 1000000000 < t.deadline.val
  · have hb := Set_deadline_bounds t b y (GoInt64.ofInt 1) now (by omega) hnb
      (by rw [hl1]; decide)
    rw [hl1] at hb
    have htrig : sweepTriggered t.deadline
        (NewItemsCache b y (setLifeCycle (GoInt64.ofInt 1)) now) = true := by
      unfold sweepTriggered NewItemsCache
      simp only [hl1, Bool.and_eq_true, Bool.or_eq_true, decide_eq_true_eq]
      exact ⟨by decide, hd⟩
    rw [if_pos hd]
    rcases set_deadline_mem t b y (GoInt64.ofInt 1) now hnb htrig with h | h | ⟨e, hin, _, h⟩
    · omega
    · rw [h, hl1]
    · obtain ⟨h5, h6⟩ := hall e hin
      rw [h5, h6] at h
      unfold Time at *
      omega
  · have htrig : ¬ sweepTriggered t.deadline
        (NewItemsCache b y (setLifeCycle (GoInt64.ofInt 1)) now) = true := by
      unfold sweepTriggered NewItemsCache
      simp only [hl1, Bool.and_eq_true, Bool.or_eq_true, decide_eq_true_eq]
      exact fun h => hd h.2
    rw [Set_eq, if_neg htrig, if_neg hd]

theorem two_sets_deadline_iff (t : CacheTable K V) (a b : K) (x y : V) (now : Time)
    (he : t.items.entries = []) :
    ((t.Set a x (GoInt64.ofInt 5) now now).Set b y (GoInt64.ofInt 1) now now).deadline.val =
        1000000000 ↔
      (t.deadline.val = 0 ∨ 1000000000 ≤ t.deadline.val) := by
  obtain ⟨h1, h2⟩ := first_set_five t a x now he
  rw [second_set_one _ b y now h2, h1]
  split_ifs <;> omega

theorem two_sets_deadline (t : CacheTable K V) (a b : K) (x y : V) (now : Time)
    (he : t.items.entries = []) (hd : t.deadline.val = 0) :
    ((t.Set a x (GoInt64.ofInt 5) now now).Set b y (GoInt64.ofInt 1) now now).deadline.val =
      1000000000 :=
  (two_sets_deadline_iff t a b x y now he).mpr (Or.inl hd)

/-! ## Maps over keys of any dynamic type -/

namespace AnyKey

theorem goKey_irrefl {K : Type} [GoKey K] (a b : K) (h : GoKey.eq a a = false) :
    GoKey.eq a b = false ∧ GoKey.eq b a = false := by
  constructor
  · cases h1 : GoKey.eq a b with
    | false => rfl
    | true =>
      have := GoKey.trans a b a h1 (GoKey.symm a b h1)
      rw [h] at this
      cases this
  · cases h1 : GoKey.eq b a with
    | false => rfl
    | true =>
      have := GoKey.trans a b a (GoKey.symm b a h1) h1
      rw [h] at this
      cases this

theorem goKey_not_symm {K : Type} [GoKey K] (a b : K) (h : GoKey.eq a b = false) :
    GoKey.eq b a = false := by
  cases h1 : GoKey.eq b a with
  | false => rfl
  | true =>
    have := GoKey.symm b a h1
    rw [h] at this
    cases this

theorem goKey_not_trans {K : Type} [GoKey K] (j k x : K) (hjk : GoKey.eq j k = false)
    (hkx : GoKey.eq k x = true) : GoKey.eq j x = false := by
  cases h1 : GoKey.eq j x with
  | false => rfl
  | true =>
    have := GoKey.trans j x k h1 (GoKey.symm k x hkx)
    rw [hjk] at this
    cases this

theorem lookup_cons_pos {K V : Type} [GoKey K] (e : K × ItemsCache K V) (m : GoMap K V)
    (k : K) (h : GoKey.eq k e.1 = true) : GoMap.lookup (e :: m) k = some e.2 := by
  simp [GoMap.lookup, h]

theorem lookup_cons_neg {K V : Type} [GoKey K] (e : K × ItemsCache K V) (m : GoMap K V)
    (k : K) (h : GoKey.eq k e.1 = false) : GoMap.lookup (e :: m) k = GoMap.lookup m k := by
  simp [GoMap.lookup, h]

theorem assign_cons_pos {K V : Type} [GoKey K] (e : K × ItemsCache K V) (m : GoMap K V)
    (k : K) (v : ItemsCache K V) (h : GoKey.eq k e.1 = true) :
    GoMap.assign (e :: m) k v = (k, v) :: m := by
  simp [GoMap.assign, h]

theorem assign_cons_neg {K V : Type} [GoKey K] (e : K × ItemsCache K V) (m : GoMap K V)
    (k : K) (v : ItemsCache K V) (h : GoKey.eq k e.1 = false) :
    GoMap.assign (e :: m) k v = e :: GoMap.assign m k v := by
  simp [GoMap.assign, h]

theorem delete_cons_pos {K V : Type} [GoKey K] (e : K × ItemsCache K V) (m : GoMap K V)
    (k : K) (h : GoKey.eq k e.1 = true) : GoMap.delete (e :: m) k = m := by
  simp [GoMap.delete, h]

theorem delete_cons_neg {K V : Type} [GoKey K] (e : K × ItemsCache K V) (m : GoMap K V)
    (k : K) (h : GoKey.eq k e.1 = false) :
    GoMap.delete (e :: m) k = e :: GoMap.delete m k := by
  simp [GoMap.delete, h]

theorem update_cons_pos {K V : Type} [GoKey K] (e : K × ItemsCache K V) (m : GoMap K V)
    (k : K) (f : ItemsCache K V → ItemsCache K V) (h : GoKey.eq k e.1 = true) :
    GoMap.update (e :: m) k f = (e.1, f e.2) :: m := by
  simp [GoMap.update, h]

theorem update_cons_neg {K V : Type} [GoKey K] (e : K × ItemsCache K V) (m : GoMap K V)
    (k : K) (f : ItemsCache K V → ItemsCache K V) (h : GoKey.eq k e.1 = false) :
    GoMap.update (e :: m) k f = e :: GoMap.update m k f := by
  simp [GoMap.update, h]

theorem goMap_lookup_assign_self {K V : Type} [GoKey K] (m : GoMap K V) (k : K)
    (v : ItemsCache K V) (hk : GoKey.eq k k = true) :
    GoMap.lookup (GoMap.assign m k v) k = some v := by
  induction m with
  | nil => exact lookup_cons_pos (k, v) [] k hk
  | cons e m ih =>
    cases h : GoKey.eq k e.1 with
    | true => rw [assign_cons_pos e m k v h, lookup_cons_pos (k, v) m k hk]
    | false => rw [assign_cons_neg e m k v h, lookup_cons_neg e _ k h, ih]

theorem goMap_lookup_assign_other {K V : Type} [GoKey K] (m : GoMap K V) (k j : K)
    (v : ItemsCache K V) (hj : GoKey.eq j k = false) :
    GoMap.lookup (GoMap.assign m k v) j = GoMap.lookup m j := by
  induction m with
  | nil => exact lookup_cons_neg (k, v) [] j hj
  | cons e m ih =>
    cases h : GoKey.eq k e.1 with
    | true =>
      have hje : GoKey.eq j e.1 = false := goKey_not_trans j k e.1 hj h
      rw [assign_cons_pos e m k v h, lookup_cons_neg (k, v) m j hj, lookup_cons_neg e m j hje]
    | false =>
      rw [assign_cons_neg e m k v h]
      cases hje : GoKey.eq j e.1 with
      | true => rw [lookup_cons_pos e _ j hje, lookup_cons_pos e _ j hje]
      | false => rw [lookup_cons_neg e _ j hje, lookup_cons_neg e _ j hje, ih]

theorem goMap_mem_assign {K V : Type} [GoKey K] (m : GoMap K V) (k : K)
    (v : ItemsCache K V) (x : K × ItemsCache K V) (hx : x ∈ GoMap.assign m k v) :
    x ∈ m ∨ x = (k, v) := by
  induction m with
  | nil =>
    have h1 : x ∈ [(k, v)] := hx
    exact Or.inr (List.mem_singleton.mp h1)
  | cons e m ih =>
    cases h : GoKey.eq k e.1 with
    | true =>
      rw [assign_cons_pos e m k v h] at hx
      rcases List.mem_cons.mp hx with h1 | h1
      · exact Or.inr h1
      · exact Or.inl (List.mem_cons_of_mem _ h1)
    | false =>
      rw [assign_cons_neg e m k v h] at hx
      rcases List.mem_cons.mp hx with h1 | h1
      · exact Or.inl (h1 ▸ List.mem_cons_self _ _)
      · rcases ih h1 with h2 | h2
        · exact Or.inl (List.mem_cons_of_mem _ h2)
        · exact Or.inr h2

theorem goMap_wf_cons {K V : Type} [GoKey K] (e : K × ItemsCache K V) (m : GoMap K V) :
    GoMap.wf (e :: m) = true ↔
      (∀ x ∈ m, GoKey.eq e.1 x.1 = false) ∧ GoMap.wf m = true := by
  simp [GoMap.wf, List.all_eq_true]

theorem goMap_wf_assign {K V : Type} [GoKey K] (m : GoMap K V) (k : K)
    (v : ItemsCache K V) (h : GoMap.wf m = true) : GoMap.wf (GoMap.assign m k v) = true := by
  induction m with
  | nil => exact (goMap_wf_cons (k, v) []).mpr ⟨fun x hx => absurd hx (List.not_mem_nil x), rfl⟩
  | cons e m ih =>
    obtain ⟨h1, h2⟩ := (goMap_wf_cons e m).mp h
    cases hk : GoKey.eq k e.1 with
    | true =>
      rw [assign_cons_pos e m k v hk, goMap_wf_cons]
      refine ⟨?_, h2⟩
      intro x hx
      exact goKey_not_symm _ _
        (goKey_not_trans x.1 e.1 k (goKey_not_symm _ _ (h1 x hx)) (GoKey.symm k e.1 hk))
    | false =>
      rw [assign_cons_neg e m k v hk, goMap_wf_cons]
      refine ⟨?_, ih h2⟩
      intro x hx
      rcases goMap_mem_assign m k v x hx with hx | hx
      · exact h1 x hx
      · rw [hx]
        exact goKey_not_symm k e.1 hk

theorem goMap_mem_delete {K V : Type} [GoKey K] (m : GoMap K V) (k : K)
    (x : K × ItemsCache K V) (hx : x ∈ GoMap.delete m k) : x ∈ m := by
  induction m with
  | nil => exact hx
  | cons e m ih =>
    cases h : GoKey.eq k e.1 with
    | true =>
      rw [delete_cons_pos e m k h] at hx
      exact List.mem_cons_of_mem _ hx
    | false =>
      rw [delete_cons_neg e m k h] at hx
      rcases List.mem_cons.mp hx with h1 | h1
      · exact h1 ▸ List.mem_cons_self _ _
      · exact List.mem_cons_of_mem _ (ih h1)

theorem goMap_wf_delete {K V : Type} [GoKey K] (m : GoMap K V) (k : K)
    (h : GoMap.wf m = true) : GoMap.wf (GoMap.delete m k) = true := by
  induction m with
  | nil => exact h
  | cons e m ih =>
    obtain ⟨h1, h2⟩ := (goMap_wf_cons e m).mp h
    cases hk : GoKey.eq k e.1 with
    | true =>
      rw [delete_cons_pos e m k hk]
      exact h2
    | false =>
      rw [delete_cons_neg e m k hk, goMap_wf_cons]
      exact ⟨fun x hx => h1 x (goMap_mem_delete m k x hx), ih h2⟩

theorem goMap_lookup_delete_other {K V : Type} [GoKey K] (m : GoMap K V) (k j : K)
    (hj : GoKey.eq j k = false) :
    GoMap.lookup (GoMap.delete m k) j = GoMap.lookup m j := by
  induction m with
  | nil => rfl
  | cons e m ih =>
    cases h : GoKey.eq k e.1 with
    | true =>
      have hje : GoKey.eq j e.1 = false := goKey_not_trans j k e.1 hj h
      rw [delete_cons_pos e m k h, lookup_cons_neg e m j hje]
    | false =>
      rw [delete_cons_neg e m k h]
      cases hje : GoKey.eq j e.1 with
      | true => rw [lookup_cons_pos e _ j hje, lookup_cons_pos e _ j hje]
      | false => rw [lookup_cons_neg e _ j hje, lookup_cons_neg e _ j hje, ih]

theorem goMap_lookup_update {K V : Type} [GoKey K] (m : GoMap K V) (k j : K)
    (f : ItemsCache K V → ItemsCache K V) :
    GoMap.lookup (GoMap.update m k f) j =
      if GoKey.eq j k = true then (GoMap.lookup m j).map f else GoMap.lookup m j := by
  induction m with
  | nil =>
    show (none : Option (ItemsCache K V)) = _
    split_ifs <;> rfl
  | cons e m ih =>
    cases h : GoKey.eq k e.1 with
    | true =>
      rw [update_cons_pos e m k f h]
      cases hjk : GoKey.eq j k with
      | true =>
        have hje : GoKey.eq j e.1 = true := GoKey.trans j k e.1 hjk h
        rw [lookup_cons_pos (e.1, f e.2) m j hje, lookup_cons_pos e m j hje]
        simp
      | false =>
        have hje : GoKey.eq j e.1 = false := goKey_not_trans j k e.1 hjk h
        rw [lookup_cons_neg (e.1, f e.2) m j hje, lookup_cons_neg e m j hje]
        simp
    | false =>
      rw [update_cons_neg e m k f h]
      cases hje : GoKey.eq j e.1 with
      | true =>
        have hjk : GoKey.eq j k = false :=
          goKey_not_symm _ _ (goKey_not_trans k e.1 j h (GoKey.symm j e.1 hje))
        rw [lookup_cons_pos e _ j hje, lookup_cons_pos e _ j hje]
        simp [hjk]
      | false =>
        rw [lookup_cons_neg e _ j hje, lookup_cons_neg e _ j hje, ih]

theorem goMap_mem_update {K V : Type} [GoKey K] (m : GoMap K V) (k : K)
    (f : ItemsCache K V → ItemsCache K V) (x : K × ItemsCache K V)
    (hx : x ∈ GoMap.update m k f) : ∃ y ∈ m, y.1 = x.1 := by
  induction m with
  | nil => exact absurd hx (List.not_mem_nil x)
  | cons e m ih =>
    cases h : GoKey.eq k e.1 with
    | true =>
      rw [update_cons_pos e m k f h] at hx
      rcases List.mem_cons.mp hx with h1 | h1
      · exact ⟨e, List.mem_cons_self _ _, by rw [h1]⟩
      · exact ⟨x, List.mem_cons_of_mem _ h1, rfl⟩
    | false =>
      rw [update_cons_neg e m k f h] at hx
      rcases List.mem_cons.mp hx with h1 | h1
      · exact ⟨e, List.mem_cons_self _ _, by rw [h1]⟩
      · obtain ⟨y, hy, hy2⟩ := ih h1
        exact ⟨y, List.mem_cons_of_mem _ hy, hy2⟩

theorem goMap_wf_update {K V : Type} [GoKey K] (m : GoMap K V) (k : K)
    (f : ItemsCache K V → ItemsCache K V) (h : GoMap.wf m = true) :
    GoMap.wf (GoMap.update m k f) = true := by
  induction m with
  | nil => exact h
  | cons e m ih =>
    obtain ⟨h1, h2⟩ := (goMap_wf_cons e m).mp h
    cases hk : GoKey.eq k e.1 with
    | true =>
      rw [update_cons_pos e m k f hk, goMap_wf_cons]
      exact ⟨fun x hx => h1 x hx, h2⟩
    | false =>
      rw [update_cons_neg e m k f hk, goMap_wf_cons]
      refine ⟨?_, ih h2⟩
      intro x hx
      obtain ⟨y, hy, hy2⟩ := goMap_mem_update m k f x hx
      rw [← hy2]
      exact h1 y hy

theorem goMap_delete_of_no_match {K V : Type} [GoKey K] (m : GoMap K V) (k : K)
    (h : ∀ x ∈ m, GoKey.eq k x.1 = false) : GoMap.delete m k = m := by
  induction m with
  | nil => rfl
  | cons e m ih =>
    rw [delete_cons_neg e m k (h e (List.mem_cons_self _ _)),
      ih (fun x hx => h x (List.mem_cons_of_mem _ hx))]

theorem goMap_update_of_no_match {K V : Type} [GoKey K] (m : GoMap K V) (k : K)
    (f : ItemsCache K V → ItemsCache K V) (h : ∀ x ∈ m, GoKey.eq k x.1 = false) :
    GoMap.update m k f = m := by
  induction m with
  | nil => rfl
  | cons e m ih =>
    rw [update_cons_neg e m k f (h e (List.mem_cons_self _ _)),
      ih (fun x hx => h x (List.mem_cons_of_mem _ hx))]

theorem goMap_lookup_none {K V : Type} [GoKey K] (m : GoMap K V) (k : K)
    (h : GoMap.lookup m k = none) : ∀ x ∈ m, GoKey.eq k x.1 = false := by
  induction m with
  | nil => intro x hx; exact absurd hx (List.not_mem_nil x)
  | cons e m ih =>
    cases he : GoKey.eq k e.1 with
    | true =>
      rw [lookup_cons_pos e m k he] at h
      cases h
    | false =>
      rw [lookup_cons_neg e m k he] at h
      intro x hx
      rcases List.mem_cons.mp hx with h1 | h1
      · rw [h1]; exact he
      · exact ih h x h1

theorem goMap_delete_middle {K V : Type} [GoKey K] (done rest : GoMap K V)
    (e : K × ItemsCache K V) (h : ∀ x ∈ done, GoKey.eq e.1 x.1 = false)
    (he : GoKey.eq e.1 e.1 = true) :
    GoMap.delete (done ++ e :: rest) e.1 = done ++ rest := by
  induction done with
  | nil => exact delete_cons_pos e rest e.1 he
  | cons d done ih =>
    show GoMap.delete (d :: (done ++ e :: rest)) e.1 = d :: (done ++ rest)
    rw [delete_cons_neg d _ e.1 (h d (List.mem_cons_self _ _)),
      ih (fun x hx => h x (List.mem_cons_of_mem _ hx))]

theorem goMap_wf_append {K V : Type} [GoKey K] (done rest : GoMap K V)
    (e : K × ItemsCache K V) (h : GoMap.wf (done ++ e :: rest) = true) :
    ∀ x ∈ done, GoKey.eq e.1 x.1 = false := by
  induction done with
  | nil => intro x hx; exact absurd hx (List.not_mem_nil x)
  | cons d done ih =>
    have h0 : GoMap.wf (d :: (done ++ e :: rest)) = true := h
    obtain ⟨h1, h2⟩ := (goMap_wf_cons d (done ++ e :: rest)).mp h0
    intro x hx
    rcases List.mem_cons.mp hx with h3 | h3
    · rw [h3]
      exact goKey_not_symm _ _ (h1 e (by simp))
    · exact ih h2 x h3

theorem goMap_wf_filter {K V : Type} [GoKey K] (m : GoMap K V)
    (p : K × ItemsCache K V → Bool) (h : GoMap.wf m = true) :
    GoMap.wf (m.filter p) = true := by
  induction m with
  | nil => exact h
  | cons e m ih =>
    obtain ⟨h1, h2⟩ := (goMap_wf_cons e m).mp h
    by_cases hp : p e = true
    · rw [List.filter_cons_of_pos hp, goMap_wf_cons]
      exact ⟨fun x hx => h1 x (List.mem_of_mem_filter hx), ih h2⟩
    · rw [List.filter_cons_of_neg hp]
      exact ih h2

theorem goMap_lookup_mem {K V : Type} [GoKey K] (m : GoMap K V) (k : K)
    (item : ItemsCache K V) (h : GoMap.wf m = true) (hmem : (k, item) ∈ m)
    (hk : GoKey.eq k k = true) : GoMap.lookup m k = some item := by
  induction m with
  | nil => exact absurd hmem (List.not_mem_nil _)
  | cons e m ih =>
    obtain ⟨h1, h2⟩ := (goMap_wf_cons e m).mp h
    rcases List.mem_cons.mp hmem with he | hmem
    · rw [← he]
      exact lookup_cons_pos (k, item) m k hk
    · have hke : GoKey.eq k e.1 = false := goKey_not_symm _ _ (h1 (k, item) hmem)
      rw [lookup_cons_neg e m k hke]
      exact ih h2 hmem

theorem goMap_mem_lookup {K V : Type} [GoKey K] (m : GoMap K V) (k : K)
    (item : ItemsCache K V) (h : GoMap.lookup m k = some item) :
    ∃ j, (j, item) ∈ m ∧ GoKey.eq k j = true := by
  induction m with
  | nil => cases h
  | cons e m ih =>
    cases he : GoKey.eq k e.1 with
    | true =>
      rw [lookup_cons_pos e m k he] at h
      refine ⟨e.1, ?_, he⟩
      rw [← Option.some.inj h]
      exact List.mem_cons_self _ _
    | false =>
      rw [lookup_cons_neg e m k he] at h
      obtain ⟨j, hj, hj2⟩ := ih h
      exact ⟨j, List.mem_cons_of_mem _ hj, hj2⟩

theorem goMap_unique {K V : Type} [GoKey K] (m : GoMap K V) (k : K)
    (item : ItemsCache K V) (e : K × ItemsCache K V) (h : GoMap.wf m = true)
    (hmem : (k, item) ∈ m) (he : e ∈ m) (hke : GoKey.eq k e.1 = true) : e = (k, item) := by
  induction m with
  | nil => exact absurd hmem (List.not_mem_nil _)
  | cons x m ih =>
    obtain ⟨h1, h2⟩ := (goMap_wf_cons x m).mp h
    rcases List.mem_cons.mp hmem with hx | hmem
    · rcases List.mem_cons.mp he with hex | he
      · rw [hex, hx]
      · have := h1 e he
        rw [← hx] at this
        rw [hke] at this
        cases this
    · rcases List.mem_cons.mp he with hex | he
      · have := goKey_not_symm _ _ (h1 (k, item) hmem)
        rw [← hex, hke] at this
        cases this
      · exact ih h2 hmem he

end AnyKey

/-! ## The sweep over keys of any dynamic type -/

namespace AnyKey

theorem anyKey_deleteInside_snd {K V : Type} [GoKey K] (table : CacheTable K V) (key : K) :
    (table.deleteInside key).2 = { table with items := GoMap.delete table.items key } := by
  unfold CacheTable.deleteInside
  cases h : GoMap.lookup table.items key with
  | none =>
    show table = _
    rw [goMap_delete_of_no_match table.items key (goMap_lookup_none table.items key h)]
  | some v => rfl

theorem anyKey_step_fst {K V : Type} [GoKey K] (now : Time) (acc : CacheTable K V × Duration)
    (e : K × ItemsCache K V) :
    (expirationStep now acc e).1 =
      if expired e.2 now = true then
        { acc.1 with items := GoMap.delete acc.1.items e.1 }
      else acc.1 := by
  unfold expirationStep expired
  by_cases h0 : e.2.lifeCycle.val = 0
  · simp [h0]
  · by_cases h1 : e.2.lifeCycle.val ≤ (Time.Sub now e.2.accessTime).val
    · simp [h0, h1, anyKey_deleteInside_snd]
    · simp only [h0, h1, if_false, ne_eq, not_false_eq_true, decide_True, decide_False,
        Bool.and_false, Bool.false_eq_true]
      split_ifs <;> rfl

theorem anyKey_step_snd {K V : Type} [GoKey K] (now : Time) (acc : CacheTable K V × Duration)
    (e : K × ItemsCache K V) :
    (expirationStep now acc e).2 = smallStep now acc.2 e.2 := by
  unfold expirationStep smallStep
  split_ifs <;> rfl

theorem anyKey_foldl_snd {K V : Type} [GoKey K] (now : Time) :
    ∀ (es : List (K × ItemsCache K V)) (acc : CacheTable K V × Duration),
      (es.foldl (expirationStep now) acc).2 =
        es.foldl (fun s e => smallStep now s e.2) acc.2 := by
  intro es
  induction es with
  | nil => intro acc; rfl
  | cons e es ih =>
    intro acc
    rw [List.foldl_cons, List.foldl_cons, ih, anyKey_step_snd]

theorem anyKey_foldl_frame {K V : Type} [GoKey K] (now : Time) :
    ∀ (es : List (K × ItemsCache K V)) (acc : CacheTable K V × Duration),
      (es.foldl (expirationStep now) acc).1.name = acc.1.name ∧
      (es.foldl (expirationStep now) acc).1.deadline = acc.1.deadline ∧
      (es.foldl (expirationStep now) acc).1.timeAfter = acc.1.timeAfter ∧
      (es.foldl (expirationStep now) acc).1.timers = acc.1.timers := by
  intro es
  induction es with
  | nil => intro acc; simp
  | cons e es ih =>
    intro acc
    rw [List.foldl_cons]
    obtain ⟨h1, h2, h3, h4⟩ := ih (expirationStep now acc e)
    rw [h1, h2, h3, h4, anyKey_step_fst]
    split_ifs <;> simp

theorem anyKey_foldl_items {K V : Type} [GoKey K] (now : Time) :
    ∀ (es done : List (K × ItemsCache K V)) (acc : CacheTable K V × Duration),
      acc.1.items = done ++ es → GoMap.wf acc.1.items = true →
        (es.foldl (expirationStep now) acc).1.items =
          done ++ es.filter (fun e => !removed e now) := by
  intro es
  induction es with
  | nil => intro done acc h _; simpa using h
  | cons e rest ih =>
    intro done acc h hwf
    rw [List.foldl_cons]
    by_cases hx : expired e.2 now = true
    · cases hk : GoKey.eq e.1 e.1 with
      | true =>
        have hr : removed e now = true := by
          unfold removed
          rw [hx, hk]
          rfl
        rw [List.filter_cons_of_neg (by simp [hr])]
        have hstep : (expirationStep now acc e).1.items = done ++ rest := by
          rw [anyKey_step_fst, if_pos hx]
          show GoMap.delete acc.1.items e.1 = done ++ rest
          rw [h]
          exact goMap_delete_middle done rest e
            (goMap_wf_append done rest e (h ▸ hwf)) hk
        apply ih done _ hstep
        rw [anyKey_step_fst, if_pos hx]
        exact goMap_wf_delete acc.1.items e.1 hwf
      | false =>
        have hr : removed e now = false := by
          unfold removed
          rw [hx, hk]
          rfl
        rw [List.filter_cons_of_pos (by simp [hr])]
        have hstep : (expirationStep now acc e).1.items = acc.1.items := by
          rw [anyKey_step_fst, if_pos hx]
          show GoMap.delete acc.1.items e.1 = acc.1.items
          exact goMap_delete_of_no_match _ _ (fun x _ => (goKey_irrefl e.1 x.1 hk).1)
        have := ih (done ++ [e]) (expirationStep now acc e) (by rw [hstep, h]; simp)
          (by rw [hstep]; exact hwf)
        simpa using this
    · have hr : removed e now = false := by
        unfold removed
        have : expired e.2 now = false := by simpa using hx
        rw [this]
        rfl
      rw [List.filter_cons_of_pos (by simp [hr])]
      have hstep : (expirationStep now acc e).1 = acc.1 := by
        rw [anyKey_step_fst, if_neg hx]
      have := ih (done ++ [e]) (expirationStep now acc e) (by rw [hstep, h]; simp)
        (by rw [hstep]; exact hwf)
      simpa using this

theorem anyKey_check_items {K V : Type} [GoKey K] (table : CacheTable K V) (now : Time)
    (hwf : GoMap.wf table.items = true) :
    (table.expirationCheck now).items = table.items.filter (fun e => !removed e now) := by
  have h := anyKey_foldl_items now table.items [] (table, GoInt64.ofInt 0) (by simp) hwf
  have h2 : (expirationLoop table now).1.items =
      table.items.filter (fun e => !removed e now) := by
    unfold expirationLoop
    simpa using h
  unfold CacheTable.expirationCheck
  split_ifs <;> exact h2

theorem anyKey_check_deadline {K V : Type} [GoKey K] (table : CacheTable K V) (now : Time) :
    (table.expirationCheck now).deadline =
      table.items.foldl (fun s e => smallStep now s e.2) (GoInt64.ofInt 0) := by
  have h2 : (expirationLoop table now).2 =
      table.items.foldl (fun s e => smallStep now s e.2) (GoInt64.ofInt 0) := by
    unfold expirationLoop
    rw [anyKey_foldl_snd]
  unfold CacheTable.expirationCheck
  split_ifs <;> exact h2

theorem anyKey_check_wf {K V : Type} [GoKey K] (table : CacheTable K V) (now : Time)
    (hwf : GoMap.wf table.items = true) :
    GoMap.wf (table.expirationCheck now).items = true := by
  rw [anyKey_check_items table now hwf]
  exact goMap_wf_filter _ _ hwf

theorem anyKey_check_timers {K V : Type} [GoKey K] (table : CacheTable K V) (now : Time) :
    (0 < (table.expirationCheck now).deadline.val →
      (table.expirationCheck now).timers =
          table.timers ++
            [{ created := now, d := (table.expirationCheck now).deadline, pending := true }] ∧
        (table.expirationCheck now).timeAfter = some table.timers.length) ∧
    (¬ 0 < (table.expirationCheck now).deadline.val →
      (table.expirationCheck now).timers = table.timers ∧
        (table.expirationCheck now).timeAfter = table.timeAfter) := by
  obtain ⟨_, _, f3, f4⟩ := anyKey_foldl_frame now table.items (table, GoInt64.ofInt 0)
  have g3 : (expirationLoop table now).1.timeAfter = table.timeAfter := f3
  have g4 : (expirationLoop table now).1.timers = table.timers := f4
  have hd : (table.expirationCheck now).deadline = (expirationLoop table now).2 := by
    unfold CacheTable.expirationCheck
    split_ifs <;> rfl
  rw [hd]
  unfold CacheTable.expirationCheck
  constructor
  · intro hp
    rw [if_pos hp]
    constructor
    · show (expirationLoop table now).1.timers ++ _ = table.timers ++ _
      rw [g4]
    · show some (expirationLoop table now).1.timers.length = some table.timers.length
      rw [g4]
  · intro hp
    rw [if_neg hp]
    exact ⟨g4, g3⟩

end AnyKey

/-! ## Deadline and histories over keys of any dynamic type -/

namespace AnyKey

theorem anyKey_remaining_pos {K V : Type} (now : Time) (item : ItemsCache K V)
    (hat : item.accessTime ≤ now)
    (hx : ¬ item.lifeCycle.val ≤ (Time.Sub now item.accessTime).val) :
    (GoInt64.sub item.lifeCycle (Time.Sub now item.accessTime)).val =
        item.lifeCycle.val - (now - item.accessTime) ∧
      0 < (GoInt64.sub item.lifeCycle (Time.Sub now item.accessTime)).val := by
  have hhi := item.lifeCycle.hi
  have hlo := item.lifeCycle.lo
  unfold GoInt64.sub GoInt64.ofInt wrap64
  unfold Time.Sub at hx ⊢
  unfold Time at *
  split_ifs at hx ⊢ <;> simp only at hx ⊢ <;> omega

theorem anyKey_expired_of_pos {K V : Type} (now : Time) (item : ItemsCache K V)
    (hpos : 0 < item.lifeCycle.val) :
    expired item now = false ↔ now - item.accessTime < item.lifeCycle.val := by
  have hiff := Time.Sub_le_iff item.lifeCycle now item.accessTime hpos
  unfold expired
  constructor
  · intro h
    simp only [Bool.and_eq_false_imp, decide_eq_true_eq, decide_eq_false_iff_not] at h
    have h2 := h (by omega)
    have h3 : ¬ item.lifeCycle.val ≤ now - item.accessTime := fun hc => h2 (hiff.mpr hc)
    unfold Time at *
    omega
  · intro h
    have h3 : ¬ item.lifeCycle.val ≤ (Time.Sub now item.accessTime).val := by
      intro hc
      have := hiff.mp hc
      unfold Time at *
      omega
    simp [h3]

theorem anyKey_alive_iff {K V : Type} (now : Time) (item : ItemsCache K V)
    (hat : item.accessTime ≤ now) (h0 : item.lifeCycle.val ≠ 0) :
    expired item now = false ↔ now - item.accessTime < item.lifeCycle.val := by
  by_cases hpos : 0 < item.lifeCycle.val
  · exact anyKey_expired_of_pos now item hpos
  · have hneg : item.lifeCycle.val < 0 := by omega
    have hsub : 0 ≤ (Time.Sub now item.accessTime).val := by
      unfold Time.Sub
      unfold Time at *
      split_ifs <;> simp only <;> omega
    constructor
    · intro h
      unfold expired at h
      simp only [Bool.and_eq_false_imp, decide_eq_true_eq, decide_eq_false_iff_not] at h
      have := h h0
      omega
    · intro h
      unfold Time at *
      omega

theorem anyKey_smallStep_cases {K V : Type} (now : Time) (s : Duration)
    (item : ItemsCache K V) (hs : 0 ≤ s.val)
    (hpos : item.lifeCycle.val ≠ 0 → expired item now = false →
      0 < (GoInt64.sub item.lifeCycle (Time.Sub now item.accessTime)).val) :
    0 ≤ (smallStep now s item).val ∧
      (smallStep now s item = s ∨
        (item.lifeCycle.val ≠ 0 ∧ expired item now = false ∧
          smallStep now s item = GoInt64.sub item.lifeCycle (Time.Sub now item.accessTime))) ∧
      (0 < s.val → 0 < (smallStep now s item).val ∧ (smallStep now s item).val ≤ s.val) ∧
      (item.lifeCycle.val ≠ 0 → expired item now = false →
        0 < (smallStep now s item).val ∧
          (smallStep now s item).val ≤
            (GoInt64.sub item.lifeCycle (Time.Sub now item.accessTime)).val) := by
  by_cases h0 : item.lifeCycle.val = 0
  · have hst : smallStep now s item = s := by unfold smallStep; rw [if_pos h0]
    rw [hst]
    exact ⟨hs, Or.inl rfl, fun h => ⟨h, le_refl _⟩, fun h => absurd h0 h⟩
  · by_cases h1 : item.lifeCycle.val ≤ (Time.Sub now item.accessTime).val
    · have hst : smallStep now s item = s := by unfold smallStep; rw [if_neg h0, if_pos h1]
      have hx : expired item now = true := by
        unfold expired
        simp [h0, h1]
      rw [hst]
      refine ⟨hs, Or.inl rfl, fun h => ⟨h, le_refl _⟩, fun _ h => ?_⟩
      rw [hx] at h
      cases h
    · have hx : expired item now = false := by
        unfold expired
        simp [h1]
      have ht := hpos h0 hx
      by_cases h2 : s.val = 0 ∨
          (GoInt64.sub item.lifeCycle (Time.Sub now item.accessTime)).val < s.val
      · have hst : smallStep now s item =
            GoInt64.sub item.lifeCycle (Time.Sub now item.accessTime) := by
          unfold smallStep; rw [if_neg h0, if_neg h1, if_pos h2]
        rw [hst]
        refine ⟨le_of_lt ht, Or.inr ⟨h0, hx, rfl⟩, fun h => ⟨ht, ?_⟩, fun _ _ => ⟨ht, le_refl _⟩⟩
        rcases h2 with h2 | h2
        · omega
        · omega
      · have hst : smallStep now s item = s := by
          unfold smallStep; rw [if_neg h0, if_neg h1, if_neg h2]
        rw [hst]
        have h3 : s.val ≠ 0 := fun h => h2 (Or.inl h)
        have h4 : ¬ (GoInt64.sub item.lifeCycle (Time.Sub now item.accessTime)).val < s.val :=
          fun h => h2 (Or.inr h)
        refine ⟨hs, Or.inl rfl, fun h => ⟨h, le_refl _⟩, fun _ _ => ⟨?_, ?_⟩⟩
        · omega
        · omega

theorem anyKey_foldl_min {K V : Type} (now : Time) :
    ∀ (es : List (K × ItemsCache K V)) (s : Duration),
      0 ≤ s.val →
      (∀ e ∈ es, e.2.lifeCycle.val ≠ 0 → expired e.2 now = false →
        0 < (GoInt64.sub e.2.lifeCycle (Time.Sub now e.2.accessTime)).val) →
      0 ≤ (es.foldl (fun s e => smallStep now s e.2) s).val ∧
        (es.foldl (fun s e => smallStep now s e.2) s = s ∨
          ∃ e ∈ es, e.2.lifeCycle.val ≠ 0 ∧ expired e.2 now = false ∧
            es.foldl (fun s e => smallStep now s e.2) s =
              GoInt64.sub e.2.lifeCycle (Time.Sub now e.2.accessTime)) ∧
        (0 < s.val →
          0 < (es.foldl (fun s e => smallStep now s e.2) s).val ∧
            (es.foldl (fun s e => smallStep now s e.2) s).val ≤ s.val) ∧
        (∀ e ∈ es, e.2.lifeCycle.val ≠ 0 → expired e.2 now = false →
          0 < (es.foldl (fun s e => smallStep now s e.2) s).val ∧
            (es.foldl (fun s e => smallStep now s e.2) s).val ≤
              (GoInt64.sub e.2.lifeCycle (Time.Sub now e.2.accessTime)).val) := by
  intro es
  induction es with
  | nil =>
    intro s hs _
    exact ⟨hs, Or.inl rfl, fun h => ⟨h, le_refl _⟩, fun e he => absurd he (List.not_mem_nil e)⟩
  | cons e es ih =>
    intro s hs hpos
    rw [List.foldl_cons]
    obtain ⟨c0, c1, c2, c3⟩ :=
      anyKey_smallStep_cases now s e.2 hs (hpos e (List.mem_cons_self _ _))
    obtain ⟨i0, i1, i2, i3⟩ :=
      ih (smallStep now s e.2) c0 (fun x hx => hpos x (List.mem_cons_of_mem _ hx))
    refine ⟨i0, ?_, ?_, ?_⟩
    · rcases i1 with i1 | ⟨x, hx, hx0, hx1, hx2⟩
      · rcases c1 with c1 | ⟨d0, d1, d2⟩
        · left; rw [i1, c1]
        · right; exact ⟨e, List.mem_cons_self _ _, d0, d1, by rw [i1, d2]⟩
      · right; exact ⟨x, List.mem_cons_of_mem _ hx, hx0, hx1, hx2⟩
    · intro h
      obtain ⟨a, b⟩ := c2 h
      obtain ⟨a2, b2⟩ := i2 a
      exact ⟨a2, le_trans b2 b⟩
    · intro x hx hx0 hx1
      rcases List.mem_cons.mp hx with h3 | hx
      · rw [h3] at hx0 hx1 ⊢
        obtain ⟨a, b⟩ := c3 hx0 hx1
        obtain ⟨a2, b2⟩ := i2 a
        exact ⟨a2, le_trans b2 b⟩
      · exact i3 x hx hx0 hx1

theorem anyKey_notBefore_mem {K V : Type} (table : CacheTable K V) (now : Time)
    (h : table.notBefore now = true) (e : K × ItemsCache K V) (he : e ∈ table.items) :
    e.2.accessTime ≤ now := by
  unfold CacheTable.notBefore at h
  rw [List.all_eq_true] at h
  simpa using h e he

theorem anyKey_lookup_filter_keeps {K V : Type} [GoKey K] (now : Time) (m : GoMap K V)
    (k : K) (item : ItemsCache K V) (h : GoMap.lookup m k = some item)
    (hx : expired item now = false) :
    GoMap.lookup (m.filter (fun e => !removed e now)) k = some item := by
  induction m with
  | nil => cases h
  | cons e m ih =>
    cases he : GoKey.eq k e.1 with
    | true =>
      rw [lookup_cons_pos e m k he] at h
      have hi : e.2 = item := Option.some.inj h
      have hr : removed e now = false := by
        unfold removed
        rw [hi, hx]
        rfl
      rw [List.filter_cons_of_pos (by simp [hr]), lookup_cons_pos e _ k he, hi]
    | false =>
      rw [lookup_cons_neg e m k he] at h
      cases hr : removed e now with
      | false =>
        rw [List.filter_cons_of_pos (by simp [hr]), lookup_cons_neg e _ k he]
        exact ih h
      | true =>
        rw [List.filter_cons_of_neg (by simp [hr])]
        exact ih h

theorem anyKey_check_keeps {K V : Type} [GoKey K] (table : CacheTable K V) (now : Time)
    (k : K) (item : ItemsCache K V) (hwf : GoMap.wf table.items = true)
    (h : GoMap.lookup table.items k = some item) (hpos : 0 < item.lifeCycle.val)
    (hb : now - item.accessTime < item.lifeCycle.val) :
    GoMap.lookup (table.expirationCheck now).items k = some item := by
  rw [anyKey_check_items table now hwf]
  exact anyKey_lookup_filter_keeps now table.items k item h
    ((anyKey_expired_of_pos now item hpos).mpr hb)

theorem anyKey_Set_eq {K V : Type} [GoKey K] (table : CacheTable K V) (k : K) (v : V)
    (l : Duration) (now ct : Time) :
    table.Set k v l now ct =
      if sweepTriggered table.deadline (NewItemsCache k v (setLifeCycle l) now) = true then
        CacheTable.expirationCheck
          { table with
            items := GoMap.assign table.items k (NewItemsCache k v (setLifeCycle l) now) } ct
      else
        { table with
          items := GoMap.assign table.items k (NewItemsCache k v (setLifeCycle l) now) } :=
  rfl

theorem anyKey_Set_wf {K V : Type} [GoKey K] (table : CacheTable K V) (k : K) (v : V)
    (l : Duration) (now ct : Time) (hwf : GoMap.wf table.items = true) :
    GoMap.wf (table.Set k v l now ct).items = true := by
  rw [anyKey_Set_eq]
  split_ifs
  · exact anyKey_check_wf _ ct (goMap_wf_assign table.items k _ hwf)
  · exact goMap_wf_assign table.items k _ hwf

theorem anyKey_Set_lookup_self {K V : Type} [GoKey K] (table : CacheTable K V) (k : K)
    (v : V) (l : Duration) (now ct : Time) (hwf : GoMap.wf table.items = true)
    (hk : GoKey.eq k k = true)
    (hb : 0 < (setLifeCycle l).val → ct - now < (setLifeCycle l).val) :
    GoMap.lookup (table.Set k v l now ct).items k =
      some (NewItemsCache k v (setLifeCycle l) now) := by
  rw [anyKey_Set_eq]
  by_cases ht : sweepTriggered table.deadline (NewItemsCache k v (setLifeCycle l) now) = true
  · rw [if_pos ht]
    have hpos : 0 < (setLifeCycle l).val := by
      unfold sweepTriggered NewItemsCache at ht
      simp only [Bool.and_eq_true, decide_eq_true_eq] at ht
      exact ht.1
    exact anyKey_check_keeps _ ct k _ (goMap_wf_assign table.items k _ hwf)
      (goMap_lookup_assign_self table.items k _ hk) hpos (hb hpos)
  · rw [if_neg ht]
    exact goMap_lookup_assign_self table.items k _ hk

theorem anyKey_Set_lookup_other {K V : Type} [GoKey K] (table : CacheTable K V) (key k : K)
    (v : V) (l : Duration) (now ct : Time) (item : ItemsCache K V)
    (hwf : GoMap.wf table.items = true) (hk : GoKey.eq k key = false)
    (h : GoMap.lookup table.items k = some item) (hpos : 0 < item.lifeCycle.val)
    (hb : ct - item.accessTime < item.lifeCycle.val) :
    GoMap.lookup (table.Set key v l now ct).items k = some item := by
  have hins : GoMap.lookup
      (GoMap.assign table.items key (NewItemsCache key v (setLifeCycle l) now)) k = some item := by
    rw [goMap_lookup_assign_other table.items key k _ hk, h]
  rw [anyKey_Set_eq]
  split_ifs
  · exact anyKey_check_keeps _ ct k item (goMap_wf_assign table.items key _ hwf) hins hpos hb
  · exact hins

theorem anyKey_fire_eq {K V : Type} [GoKey K] (table : CacheTable K V) (i : Nat) (ct : Time) :
    table.fire i ct = table ∨
      table.fire i ct =
        CacheTable.expirationCheck
          { table with timers := table.timers.modify Timer.fired i } ct := by
  unfold CacheTable.fire
  cases table.timers.get? i with
  | none => exact Or.inl rfl
  | some tm =>
    by_cases hp : tm.pending = true
    · right
      show (if tm.pending = true then _ else table) = _
      rw [if_pos hp]
    · left
      show (if tm.pending = true then _ else table) = _
      rw [if_neg hp]

theorem anyKey_Get_items {K V : Type} [GoKey K] (table : CacheTable K V) (k : K) (now : Time) :
    (table.Get k now).2.items =
      GoMap.update table.items k (fun x => x.TriggerObtain now) := by
  unfold CacheTable.Get
  cases h : GoMap.lookup table.items k with
  | some v => rfl
  | none =>
    show table.items = _
    rw [goMap_update_of_no_match table.items k _ (goMap_lookup_none table.items k h)]

theorem anyKey_step_wf {K V : Type} [GoKey K] (table : CacheTable K V) (op : Op K V)
    (hwf : GoMap.wf table.items = true) : GoMap.wf (table.step op).items = true := by
  cases op with
  | set key value lifeCycle now checkTime =>
    exact anyKey_Set_wf table key value lifeCycle now checkTime hwf
  | get key now =>
    show GoMap.wf (table.Get key now).2.items = true
    rw [anyKey_Get_items]
    exact goMap_wf_update _ _ _ hwf
  | delete key =>
    show GoMap.wf (table.Delete key).2.items = true
    unfold CacheTable.Delete
    rw [anyKey_deleteInside_snd]
    exact goMap_wf_delete _ _ hwf
  | deleteAll => rfl
  | sweep checkTime => exact anyKey_check_wf table checkTime hwf
  | fire i checkTime =>
    show GoMap.wf (table.fire i checkTime).items = true
    rcases anyKey_fire_eq table i checkTime with h | h
    · rw [h]; exact hwf
    · rw [h]
      exact anyKey_check_wf _ checkTime hwf

end AnyKey

namespace AnyKey

theorem anyKey_run_keeps {K V : Type} [GoKey K] (k : K) (v : V) (bound : Int)
    (hbound : 0 < bound) :
    ∀ (ops : List (Op K V)) (table : CacheTable K V) (last : Time),
      GoMap.wf table.items = true →
      undisturbed k bound last ops = true →
      (∃ item, GoMap.lookup table.items k = some item ∧ item.value = v ∧
        item.lifeCycle.val = bound ∧ item.accessTime = last) →
      ∃ item, GoMap.lookup (table.run ops).items k = some item ∧ item.value = v := by
  intro ops
  induction ops with
  | nil =>
    intro table last _ _ hinv
    obtain ⟨item, h1, h2, _, _⟩ := hinv
    exact ⟨item, h1, h2⟩
  | cons op ops ih =>
    intro table last hwf hq hinv
    obtain ⟨item, h1, h2, h3, h4⟩ := hinv
    have hpos : 0 < item.lifeCycle.val := by omega
    have hwf2 := anyKey_step_wf table op hwf
    show ∃ item, GoMap.lookup ((table.step op).run ops).items k = some item ∧ item.value = v
    cases op with
    | set key value lifeCycle now checkTime =>
      simp only [undisturbed, Bool.and_eq_true, Bool.not_eq_true', decide_eq_true_eq] at hq
      obtain ⟨⟨hk, hb⟩, hrest⟩ := hq
      refine ih _ last hwf2 hrest ⟨item, ?_, h2, h3, h4⟩
      exact anyKey_Set_lookup_other table key k value lifeCycle now checkTime item hwf
        (goKey_not_symm key k hk) h1 hpos (by rw [h4, h3]; exact hb)
    | get key now =>
      simp only [undisturbed] at hq
      cases hk : GoKey.eq key k with
      | true =>
        rw [hk, if_pos rfl] at hq
        refine ih _ now hwf2 hq ⟨item.TriggerObtain now, ?_, h2, h3, rfl⟩
        show GoMap.lookup (table.Get key now).2.items k = _
        rw [anyKey_Get_items, goMap_lookup_update, if_pos (GoKey.symm key k hk), h1]
        rfl
      | false =>
        rw [hk] at hq
        simp only [Bool.false_eq_true, if_false] at hq
        refine ih _ last hwf2 hq ⟨item, ?_, h2, h3, h4⟩
        show GoMap.lookup (table.Get key now).2.items k = _
        have hk2 : ¬ GoKey.eq k key = true := by
          rw [goKey_not_symm key k hk]
          exact Bool.false_ne_true
        rw [anyKey_Get_items, goMap_lookup_update, if_neg hk2, h1]
    | delete key =>
      simp only [undisturbed, Bool.and_eq_true, Bool.not_eq_true'] at hq
      obtain ⟨hk, hrest⟩ := hq
      refine ih _ last hwf2 hrest ⟨item, ?_, h2, h3, h4⟩
      show GoMap.lookup (table.Delete key).2.items k = _
      unfold CacheTable.Delete
      rw [anyKey_deleteInside_snd]
      show GoMap.lookup (GoMap.delete table.items key) k = _
      rw [goMap_lookup_delete_other table.items key k (goKey_not_symm key k hk), h1]
    | deleteAll =>
      simp [undisturbed] at hq
    | sweep checkTime =>
      simp only [undisturbed, Bool.and_eq_true, decide_eq_true_eq] at hq
      obtain ⟨hb, hrest⟩ := hq
      refine ih _ last hwf2 hrest ⟨item, ?_, h2, h3, h4⟩
      exact anyKey_check_keeps table checkTime k item hwf h1 hpos (by rw [h4, h3]; exact hb)
    | fire i checkTime =>
      simp only [undisturbed, Bool.and_eq_true, decide_eq_true_eq] at hq
      obtain ⟨hb, hrest⟩ := hq
      refine ih _ last hwf2 hrest ⟨item, ?_, h2, h3, h4⟩
      show GoMap.lookup (table.fire i checkTime).items k = some item
      rcases anyKey_fire_eq table i checkTime with hf | hf
      · rw [hf]; exact h1
      · rw [hf]
        exact anyKey_check_keeps _ checkTime k item hwf h1 hpos (by rw [h4, h3]; exact hb)

end AnyKey

/-! ## The claims -/

/-- Counterexample to C1 as stated: on a fresh table, `Set(math.NaN(), 7, 5)`
stores the item (`Count()` is 1), and `Get(math.NaN())` right after it fails
with `ErrKeyNotFound`, because the key is not equal to itself. -/
theorem C1_counterexample :
    ((AnyKey.CacheTable.new "t" : AnyKey.CacheTable AnyKey.DemoKey Nat).Set
        AnyKey.DemoKey.nan 7 (GoInt64.ofInt 5) 0 0).items =
      [(AnyKey.DemoKey.nan, NewItemsCache AnyKey.DemoKey.nan 7 (GoInt64.ofInt 5000000000) 0)] ∧
    ((AnyKey.CacheTable.new "t" : AnyKey.CacheTable AnyKey.DemoKey Nat).Set
        AnyKey.DemoKey.nan 7 (GoInt64.ofInt 5) 0 0).Count = 1 ∧
    (((AnyKey.CacheTable.new "t" : AnyKey.CacheTable AnyKey.DemoKey Nat).Set
        AnyKey.DemoKey.nan 7 (GoInt64.ofInt 5) 0 0).Get AnyKey.DemoKey.nan 0).1 =
      Except.error CacheError.ErrKeyNotFound := by
  decide

/-- C1, amended: for every table, every key `k` that is equal to itself
(`k == k` holds), value `v` and lifespan `l`, a `Set(k, v, l)` during which no time
elapses, followed by `Get(k)` (at any instant `tg`), succeeds and returns an
item whose `Key()` is `k` and whose `Value()` is `v`; the table is arbitrary
(it may hold entries under keys not equal to themselves), so `k` may or may
not be present before and the `Set` may or may not run the sweep. -/
theorem C1_get_after_set {K V : Type} [AnyKey.GoKey K] (table : AnyKey.CacheTable K V)
    (k : K) (v : V) (l : Duration) (now tg : Time)
    (hwf : AnyKey.GoMap.wf table.items = true) (hk : AnyKey.GoKey.eq k k = true) :
    ∃ item, ((table.Set k v l now now).Get k tg).1 = Except.ok item ∧
      item.Key = k ∧ item.Value = v := by
  have hl := AnyKey.anyKey_Set_lookup_self table k v l now now hwf hk
    (by intro hp; unfold Time at *; omega)
  refine ⟨(NewItemsCache k v (setLifeCycle l) now).TriggerObtain tg, ?_, rfl, rfl⟩
  unfold AnyKey.CacheTable.Get
  rw [hl]

/-- Witness of C1 (amended): `Set(3, 30, 1)` on the example table, which holds
an entry under `math.NaN()`, 6 seconds after its items were set. -/
theorem C1_get_after_set_witness :
    AnyKey.GoMap.wf AnyKey.demoTable.items = true ∧
    AnyKey.GoKey.eq (AnyKey.DemoKey.int 3) (AnyKey.DemoKey.int 3) = true ∧
    ∃ item, ((AnyKey.demoTable.Set (AnyKey.DemoKey.int 3) 30 (GoInt64.ofInt 1)
        6000000000 6000000000).Get (AnyKey.DemoKey.int 3) 6000000000).1 = Except.ok item ∧
      item.Key = AnyKey.DemoKey.int 3 ∧ item.Value = 30 :=
  ⟨by decide, by decide,
    C1_get_after_set AnyKey.demoTable (AnyKey.DemoKey.int 3) 30 (GoInt64.ofInt 1)
      6000000000 6000000000 (by decide) (by decide)⟩

/-- Counterexample to C2 as stated: an item set under `math.NaN()` with a
lifespan of 1 second at instant 0 is still in the table after the sweep at 2
seconds, although its lifespan is greater than 0 and the elapsed time has
reached it: `deleteInside` does not find its key. -/
theorem C2_counterexample :
    (((AnyKey.CacheTable.new "t" : AnyKey.CacheTable AnyKey.DemoKey Nat).Set
        AnyKey.DemoKey.nan 7 (GoInt64.ofInt 1) 0 0).expirationCheck 2000000000).items =
      [(AnyKey.DemoKey.nan, NewItemsCache AnyKey.DemoKey.nan 7 (GoInt64.ofInt 1000000000) 0)] ∧
    (((AnyKey.CacheTable.new "t" : AnyKey.CacheTable AnyKey.DemoKey Nat).Set
        AnyKey.DemoKey.nan 7 (GoInt64.ofInt 1) 0 0).expirationCheck 2000000000).Count = 1 ∧
    (0 : Int) < (GoInt64.ofInt 1000000000).val ∧
    (GoInt64.ofInt 1000000000).val ≤ 2000000000 - 0 := by
  decide

/-- C2, amended: after the sweep at instant `now`, an item with a lifespan
greater than 0 stored under a key `k` that is equal to itself is still in the
table (and still what `k` reads) if and only if
`now - accessTime < lifespan`; if `now - accessTime >= lifespan` it is removed
and `k` is absent; every entry of the swept table is an entry of the table
before, with the same item; and an entry under a key that is not equal to
itself is never removed. -/
theorem C2_sweep_removes_exactly_expired {K V : Type} [AnyKey.GoKey K]
    (table : AnyKey.CacheTable K V) (now : Time) (k : K) (item : ItemsCache K V)
    (hwf : AnyKey.GoMap.wf table.items = true) (hmem : (k, item) ∈ table.items)
    (hpos : 0 < item.lifeCycle.val) (hk : AnyKey.GoKey.eq k k = true) :
    ((k, item) ∈ (table.expirationCheck now).items ↔
        now - item.accessTime < item.lifeCycle.val) ∧
      (AnyKey.GoMap.lookup (table.expirationCheck now).items k = some item ↔
        now - item.accessTime < item.lifeCycle.val) ∧
      (item.lifeCycle.val ≤ now - item.accessTime →
        AnyKey.GoMap.lookup (table.expirationCheck now).items k = none ∧
          (k, item) ∉ (table.expirationCheck now).items) ∧
      (∀ e : K × ItemsCache K V, e ∈ (table.expirationCheck now).items → e ∈ table.items) ∧
      (∀ (j : K) (other : ItemsCache K V), (j, other) ∈ table.items →
        AnyKey.GoKey.eq j j = false → (j, other) ∈ (table.expirationCheck now).items) := by
  have hitems := AnyKey.anyKey_check_items table now hwf
  have hexp := AnyKey.anyKey_expired_of_pos now item hpos
  have hrem : AnyKey.removed (k, item) now = AnyKey.expired item now := by
    unfold AnyKey.removed
    show (AnyKey.expired item now && AnyKey.GoKey.eq k k) = _
    rw [hk, Bool.and_true]
  have hin : (k, item) ∈ (table.expirationCheck now).items ↔
      now - item.accessTime < item.lifeCycle.val := by
    rw [hitems, List.mem_filter, ← hexp]
    constructor
    · rintro ⟨_, h2⟩
      rw [hrem] at h2
      simpa using h2
    · intro h
      refine ⟨hmem, ?_⟩
      rw [hrem, h]
      rfl
  have hsub : ∀ e : K × ItemsCache K V,
      e ∈ (table.expirationCheck now).items → e ∈ table.items := by
    intro e he
    rw [hitems] at he
    exact List.mem_of_mem_filter he
  have hfound : ∀ x, AnyKey.GoMap.lookup (table.expirationCheck now).items k = some x →
      x = item ∧ (k, item) ∈ (table.expirationCheck now).items := by
    intro x hx
    obtain ⟨j, hj, hj2⟩ := AnyKey.goMap_mem_lookup _ k x hx
    have := AnyKey.goMap_unique table.items k item (j, x) hwf hmem (hsub _ hj) hj2
    rw [this] at hj
    exact ⟨(Prod.mk.inj this).2, hj⟩
  refine ⟨hin, ?_, ?_, hsub, ?_⟩
  · constructor
    · intro h
      exact hin.mp (hfound item h).2
    · intro h
      exact AnyKey.anyKey_check_keeps table now k item hwf
        (AnyKey.goMap_lookup_mem table.items k item hwf hmem hk) hpos h
  · intro hx
    have hnot : (k, item) ∉ (table.expirationCheck now).items := by
      intro hc
      have := hin.mp hc
      unfold Time at *
      omega
    refine ⟨?_, hnot⟩
    cases hl : AnyKey.GoMap.lookup (table.expirationCheck now).items k with
    | none => rfl
    | some x => exact absurd (hfound x hl).2 hnot
  · intro j other hj hjj
    rw [hitems, List.mem_filter]
    refine ⟨hj, ?_⟩
    unfold AnyKey.removed
    show (!(AnyKey.expired other now && AnyKey.GoKey.eq j j)) = true
    rw [hjj]
    simp

/-- Witness of C2 (amended): key 1 of the example table, swept 3 seconds after
its items were set. -/
theorem C2_sweep_removes_exactly_expired_witness :
    AnyKey.GoMap.wf AnyKey.demoTable.items = true ∧
    (AnyKey.DemoKey.int 1, AnyKey.demoItem1) ∈ AnyKey.demoTable.items ∧
    0 < AnyKey.demoItem1.lifeCycle.val ∧
    AnyKey.GoKey.eq (AnyKey.DemoKey.int 1) (AnyKey.DemoKey.int 1) = true ∧
    (((AnyKey.DemoKey.int 1, AnyKey.demoItem1) ∈
          (AnyKey.demoTable.expirationCheck 3000000000).items ↔
        3000000000 - AnyKey.demoItem1.accessTime < AnyKey.demoItem1.lifeCycle.val) ∧
      (AnyKey.GoMap.lookup (AnyKey.demoTable.expirationCheck 3000000000).items
          (AnyKey.DemoKey.int 1) = some AnyKey.demoItem1 ↔
        3000000000 - AnyKey.demoItem1.accessTime < AnyKey.demoItem1.lifeCycle.val) ∧
      (AnyKey.demoItem1.lifeCycle.val ≤ 3000000000 - AnyKey.demoItem1.accessTime →
        AnyKey.GoMap.lookup (AnyKey.demoTable.expirationCheck 3000000000).items
            (AnyKey.DemoKey.int 1) = none ∧
          (AnyKey.DemoKey.int 1, AnyKey.demoItem1) ∉
            (AnyKey.demoTable.expirationCheck 3000000000).items) ∧
      (∀ e : AnyKey.DemoKey × ItemsCache AnyKey.DemoKey Nat,
        e ∈ (AnyKey.demoTable.expirationCheck 3000000000).items →
          e ∈ AnyKey.demoTable.items) ∧
      (∀ (j : AnyKey.DemoKey) (other : ItemsCache AnyKey.DemoKey Nat),
        (j, other) ∈ AnyKey.demoTable.items →
        AnyKey.GoKey.eq j j = false →
          (j, other) ∈ (AnyKey.demoTable.expirationCheck 3000000000).items)) :=
  ⟨by decide, by decide, by decide, by decide,
    C2_sweep_removes_exactly_expired AnyKey.demoTable 3000000000 (AnyKey.DemoKey.int 1)
      AnyKey.demoItem1 (by decide) (by decide) (by decide) (by decide)⟩

/-- Counterexample to C3 as stated: `Set(1, 7, -1)` on a fresh table at
instant 0 stores a lifespan of 3155760000 seconds; a sweep run 3155760000
seconds later removes the item and `Get(1)` fails with `ErrKeyNotFound`.  And
after `Set(math.NaN(), 7, -1)` on a fresh table, `Get(math.NaN())` fails at
once. -/
theorem C3_counterexample :
    (AnyKey.GoMap.lookup ((AnyKey.CacheTable.new "t" : AnyKey.CacheTable AnyKey.DemoKey Nat).Set
        (AnyKey.DemoKey.int 1) 7 (GoInt64.ofInt (-1)) 0 0).items
          (AnyKey.DemoKey.int 1)).map (fun item => item.LifeCycle.val) =
      some 3155760000000000000 ∧
    (((((AnyKey.CacheTable.new "t" : AnyKey.CacheTable AnyKey.DemoKey Nat).Set
        (AnyKey.DemoKey.int 1) 7 (GoInt64.ofInt (-1)) 0 0).run
          [AnyKey.Op.sweep 3155760000000000000]).Get (AnyKey.DemoKey.int 1)
            3155760000000000000).1 =
      Except.error CacheError.ErrKeyNotFound) ∧
    ((((AnyKey.CacheTable.new "t" : AnyKey.CacheTable AnyKey.DemoKey Nat).Set
        AnyKey.DemoKey.nan 7 (GoInt64.ofInt (-1)) 0 0).run []).Get AnyKey.DemoKey.nan 0).1 =
      Except.error CacheError.ErrKeyNotFound := by
  decide

/-- C3, amended: for every key `k` that is equal to itself, after
`Set(k, v, -1)` at instant `t0` (its sweep, if any, reading `t1` less than
3155760000 seconds later), and after any sequence of events with no `Set` or
`Delete` on a key equal to `k`, no `DeleteAll`, and every sweep run less than
3155760000 seconds after the last access of `k` (the `Set` or the latest
`Get(k)`), `Get(k)` succeeds and returns `v`. -/
theorem C3_never_expire_within_sentinel {K V : Type} [AnyKey.GoKey K]
    (table : AnyKey.CacheTable K V) (k : K) (v : V)
    (t0 t1 tg : Time) (ops : List (AnyKey.Op K V))
    (hwf : AnyKey.GoMap.wf table.items = true) (hk : AnyKey.GoKey.eq k k = true)
    (h1 : t1 - t0 < 3155760000000000000)
    (hq : AnyKey.undisturbed k 3155760000000000000 t0 ops = true) :
    ∃ item, (((table.Set k v (GoInt64.ofInt (-1)) t0 t1).run ops).Get k tg).1 = Except.ok item ∧
      item.Value = v := by
  have hl : (setLifeCycle (GoInt64.ofInt (-1))).val = 3155760000000000000 := by decide
  have hset := AnyKey.anyKey_Set_lookup_self table k v (GoInt64.ofInt (-1)) t0 t1 hwf hk
    (by intro _; rw [hl]; exact h1)
  obtain ⟨item, hi, hv⟩ := AnyKey.anyKey_run_keeps k v 3155760000000000000 (by decide) ops
    (table.Set k v (GoInt64.ofInt (-1)) t0 t1) t0
    (AnyKey.anyKey_Set_wf table k v (GoInt64.ofInt (-1)) t0 t1 hwf) hq
    ⟨_, hset, rfl, hl, rfl⟩
  refine ⟨item.TriggerObtain tg, ?_, hv⟩
  unfold AnyKey.CacheTable.Get
  rw [hi]

/-- Witness of C3 (amended): a never-expire item set under key 1 at instant 0
on a fresh table, then a `Set` on `math.NaN()`, a sweep after 50 years, a
`Get` of the item and a sweep 99 years after that `Get`. -/
theorem C3_never_expire_within_sentinel_witness :
    AnyKey.GoMap.wf (AnyKey.CacheTable.new "t" : AnyKey.CacheTable AnyKey.DemoKey Nat).items = true ∧
    AnyKey.GoKey.eq (AnyKey.DemoKey.int 1) (AnyKey.DemoKey.int 1) = true ∧
    (0 : Int) - 0 < 3155760000000000000 ∧
    AnyKey.undisturbed (AnyKey.DemoKey.int 1) 3155760000000000000 0
      [(AnyKey.Op.set AnyKey.DemoKey.nan 20 (GoInt64.ofInt 5) 10 10 :
          AnyKey.Op AnyKey.DemoKey Nat),
        AnyKey.Op.sweep 1577880000000000000,
        AnyKey.Op.get (AnyKey.DemoKey.int 1) 1577880000000000000,
        AnyKey.Op.sweep 4702082400000000000] = true ∧
    ∃ item, ((((AnyKey.CacheTable.new "t" : AnyKey.CacheTable AnyKey.DemoKey Nat).Set
        (AnyKey.DemoKey.int 1) 7 (GoInt64.ofInt (-1)) 0 0).run
        [AnyKey.Op.set AnyKey.DemoKey.nan 20 (GoInt64.ofInt 5) 10 10,
          AnyKey.Op.sweep 1577880000000000000,
          AnyKey.Op.get (AnyKey.DemoKey.int 1) 1577880000000000000,
          AnyKey.Op.sweep 4702082400000000000]).Get (AnyKey.DemoKey.int 1)
            4702082400000000000).1 = Except.ok item ∧
      item.Value = 7 :=
  ⟨by decide, by decide, by decide, by decide,
    C3_never_expire_within_sentinel (AnyKey.CacheTable.new "t") (AnyKey.DemoKey.int 1) 7 0 0
      4702082400000000000
      [AnyKey.Op.set AnyKey.DemoKey.nan 20 (GoInt64.ofInt 5) 10 10,
        AnyKey.Op.sweep 1577880000000000000,
        AnyKey.Op.get (AnyKey.DemoKey.int 1) 1577880000000000000,
        AnyKey.Op.sweep 4702082400000000000] (by decide) (by decide) (by decide) (by decide)⟩

/-- C4: `Get(k)` fails with `ErrKeyNotFound` (and so returns no item) if and
only if `k` is not in `items`, which is exactly when `Exists(k)` is false; in
every case the result of `Get(k)` is the item stored under `k`, read through
its pointer after `TriggerObtain`, or else `ErrKeyNotFound`; and that returned
item is the one stored under `k` afterwards. -/
theorem C4_get_fails_iff_absent (table : CacheTable K V) (k : K) (now : Time) :
    ((table.Get k now).1 = Except.error CacheError.ErrKeyNotFound ↔
        AList.lookup k table.items = none) ∧
      (AList.lookup k table.items = none ↔ table.Exists k = false) ∧
      (table.Get k now).1 =
        (match AList.lookup k table.items with
          | some item => Except.ok (item.TriggerObtain now)
          | none => Except.error CacheError.ErrKeyNotFound) ∧
      AList.lookup k (table.Get k now).2.items =
        (AList.lookup k table.items).map (fun item => item.TriggerObtain now) := by
  unfold CacheTable.Get CacheTable.Exists
  cases h : AList.lookup k table.items with
  | none => simp [h]
  | some item => simp [lookup_replace, h]

/-- C5: when `k` is present, `Delete(k)` returns the item stored under `k` with
no error, and afterwards `Exists(k)` is false, `Count()` is one less than
before, and every other key maps to what it mapped to before. -/
theorem C5_delete_present (table : CacheTable K V) (k : K) (item : ItemsCache K V)
    (h : AList.lookup k table.items = some item) :
    (table.Delete k).1 = Except.ok item ∧
      (table.Delete k).2.Exists k = false ∧
      (table.Delete k).2.Count = table.Count - 1 ∧
      (∀ j : K, j ≠ k →
        AList.lookup j (table.Delete k).2.items = AList.lookup j table.items) := by
  unfold CacheTable.Delete
  have h2 : (table.deleteInside k).2.items = AList.erase k table.items := by
    rw [deleteInside_snd]
  refine ⟨?_, ?_, ?_, ?_⟩
  · unfold CacheTable.deleteInside
    rw [h]
  · unfold CacheTable.Exists
    rw [h2]
    simp
  · unfold CacheTable.Count
    rw [h2]
    exact length_erase_of_lookup table.items k item h
  · intro j hj
    rw [h2]
    exact AList.lookup_erase_ne hj

/-- Witness of C5: deleting key 1 from `demoTable`. -/
theorem C5_delete_present_witness :
    AList.lookup 1 demoTable.items = some demoItem1 ∧
    ((demoTable.Delete 1).1 = Except.ok demoItem1 ∧
      (demoTable.Delete 1).2.Exists 1 = false ∧
      (demoTable.Delete 1).2.Count = demoTable.Count - 1 ∧
      (∀ j : Nat, j ≠ 1 →
        AList.lookup j (demoTable.Delete 1).2.items = AList.lookup j demoTable.items)) :=
  ⟨by decide, C5_delete_present demoTable 1 demoItem1 (by decide)⟩

/-- C6: when `k` is not present, `Delete(k)` returns `ErrKeyNotFound` and no
item, and the table afterwards is the table before: same items, `Count()`,
deadline, timer handle and timers. -/
theorem C6_delete_absent (table : CacheTable K V) (k : K)
    (h : AList.lookup k table.items = none) :
    (table.Delete k).1 = Except.error CacheError.ErrKeyNotFound ∧
      (table.Delete k).2 = table ∧
      (table.Delete k).2.Count = table.Count := by
  unfold CacheTable.Delete CacheTable.deleteInside
  rw [h]
  exact ⟨rfl, rfl, rfl⟩

/-- Witness of C6: deleting the absent key 3 from `demoTable`. -/
theorem C6_delete_absent_witness :
    AList.lookup 3 demoTable.items = none ∧
    ((demoTable.Delete 3).1 = Except.error CacheError.ErrKeyNotFound ∧
      (demoTable.Delete 3).2 = demoTable ∧
      (demoTable.Delete 3).2.Count = demoTable.Count) :=
  ⟨by decide, C6_delete_absent demoTable 3 (by decide)⟩

/-- C7: after `DeleteAll()`, `Count()` is 0, `Exists(k)` is false and `Get(k)`
fails with `ErrKeyNotFound` for every key `k`, and `deadline` is 0. -/
theorem C7_deleteAll_clears (table : CacheTable K V) :
    table.DeleteAll.Count = 0 ∧
      (∀ k : K, table.DeleteAll.Exists k = false) ∧
      (∀ (k : K) (now : Time),
        (table.DeleteAll.Get k now).1 = Except.error CacheError.ErrKeyNotFound) ∧
      table.DeleteAll.deadline.val = 0 := by
  refine ⟨rfl, fun k => rfl, fun k now => rfl, rfl⟩

/-- Counterexample to C8 as stated: `Set(1, 7, 9223372037)` on a fresh table
stores a lifespan of -9223372036709551616 nanoseconds, which is not
9223372037 seconds. -/
theorem C8_counterexample :
    0 ≤ (GoInt64.ofInt 9223372037).val ∧
      (GoInt64.ofInt 9223372037).val = 9223372037 ∧
      (AList.lookup 1 ((CacheTable.new "t" : CacheTable Nat Nat).Set 1 7
          (GoInt64.ofInt 9223372037) 0 0).items).map (fun item => item.LifeCycle.val) =
        some (-9223372036709551616) ∧
      (-9223372036709551616 : Int) ≠ 9223372037 * 1000000000 := by
  decide

/-- C8, amended: for every lifespan argument `n` with `0 <= n <= 9223372036`,
after `Set(k, v, n)` the item stored under `k` has a `LifeCycle()` of exactly
`n * 10^9` nanoseconds. -/
theorem C8_lifespan_in_seconds (table : CacheTable K V) (k : K) (v : V) (n : Duration)
    (now : Time) (h0 : 0 ≤ n.val) (h1 : n.val ≤ 9223372036) :
    ∃ item, AList.lookup k (table.Set k v n now now).items = some item ∧
      item.LifeCycle.val = n.val * 1000000000 := by
  refine ⟨NewItemsCache k v (setLifeCycle n) now, Set_lookup_self table k v n now, ?_⟩
  have hs : Second.val = 1000000000 := by decide
  have hn : ¬ n.val ≤ -1 := by omega
  show (setLifeCycle n).val = n.val * 1000000000
  unfold setLifeCycle GoInt64.mul GoInt64.ofInt
  rw [if_neg hn, hs]
  show wrap64 (n.val * 1000000000) = n.val * 1000000000
  unfold wrap64
  omega

/-- Witness of C8 (amended): a lifespan of 5 seconds on a fresh table. -/
theorem C8_lifespan_in_seconds_witness :
    0 ≤ (GoInt64.ofInt 5).val ∧ (GoInt64.ofInt 5).val ≤ 9223372036 ∧
    ∃ item, AList.lookup 1 ((CacheTable.new "t" : CacheTable Nat Nat).Set 1 7
        (GoInt64.ofInt 5) 0 0).items = some item ∧
      item.LifeCycle.val = (GoInt64.ofInt 5).val * 1000000000 :=
  ⟨by decide, by decide,
    C8_lifespan_in_seconds (CacheTable.new "t") 1 7 (GoInt64.ofInt 5) 0 (by decide) (by decide)⟩

/-- C9: an item stored under `k` with lifespan 0 is still stored, unaltered,
after the sweep at any instant; the deadline the sweep records is the one it
records when that entry is taken out of the table first; and `Set(k, v, 0)`
never calls the sweep: it only inserts the new item. -/
theorem C9_zero_lifespan_exempt (table : CacheTable K V) (now : Time) (k : K)
    (item : ItemsCache K V) (h : AList.lookup k table.items = some item)
    (h0 : item.lifeCycle.val = 0) :
    AList.lookup k (table.expirationCheck now).items = some item ∧
      (CacheTable.expirationCheck { table with items := table.items.erase k } now).deadline =
        (table.expirationCheck now).deadline ∧
      (∀ (t : CacheTable K V) (key : K) (v : V) (t0 t1 : Time),
        sweepTriggered t.deadline (NewItemsCache key v (setLifeCycle (GoInt64.ofInt 0)) t0)
            = false ∧
          t.Set key v (GoInt64.ofInt 0) t0 t1 =
            { t with items := t.items.insert key (NewItemsCache key v (GoInt64.ofInt 0) t0) }) := by
  refine ⟨?_, ?_, ?_⟩
  · rw [expirationCheck_lookup, h]
    have hx : item.expired now = false := by
      unfold ItemsCache.expired
      simp [h0]
    simp [Option.filter, hx]
  · rw [expirationCheck_deadline, expirationCheck_deadline]
    unfold expirationLoop
    have hz : ∀ e ∈ table.items.entries, e.1 = k → e.2.lifeCycle.val = 0 := by
      rintro ⟨ek, ev⟩ he hk
      simp only at hk
      subst hk
      have h3 : AList.lookup ek table.items = some ev := AList.mem_lookup_iff.mpr he
      rw [h] at h3
      rw [← Option.some.inj h3]
      exact h0
    show ((List.kerase k table.items.entries).foldl (expirationStep now) _).2 = _
    rw [foldl_snd_kerase now k table.items.entries _ hz]
    exact foldl_snd_congr now _ _ _ rfl
  · intro t key v t0 t1
    have hl : setLifeCycle (GoInt64.ofInt 0) = GoInt64.ofInt 0 := by decide
    have ht : sweepTriggered t.deadline (NewItemsCache key v (GoInt64.ofInt 0) t0) = false := by
      unfold sweepTriggered NewItemsCache
      have : ¬ (0 : Int) < (GoInt64.ofInt 0).val := by decide
      simp [this]
    rw [hl]
    refine ⟨ht, ?_⟩
    unfold CacheTable.Set CacheTable.setInside
    rw [hl, ht]
    rfl

/-- Witness of C9: key 2 of `demoTable`, whose lifespan is 0, at a sweep run
100 seconds after it was set. -/
theorem C9_zero_lifespan_exempt_witness :
    AList.lookup 2 demoTable.items = some demoItem2 ∧ demoItem2.lifeCycle.val = 0 ∧
    (AList.lookup 2 (demoTable.expirationCheck 100000000000).items = some demoItem2 ∧
      (CacheTable.expirationCheck
          { demoTable with items := demoTable.items.erase 2 } 100000000000).deadline =
        (demoTable.expirationCheck 100000000000).deadline ∧
      (∀ (t : CacheTable Nat Nat) (key : Nat) (v : Nat) (t0 t1 : Time),
        sweepTriggered t.deadline (NewItemsCache key v (setLifeCycle (GoInt64.ofInt 0)) t0)
            = false ∧
          t.Set key v (GoInt64.ofInt 0) t0 t1 =
            { t with items := t.items.insert key (NewItemsCache key v (GoInt64.ofInt 0) t0) })) :=
  ⟨by decide, by decide,
    C9_zero_lifespan_exempt demoTable 100000000000 2 demoItem2 (by decide) (by decide)⟩

/-- C10: after `Set(k, v2, l)` at instant `now` the item stored under `k` is
the fresh item built by `NewItemsCache`: value `v2`, `accessCount` 0,
`createTime` and `accessTime` both `now`; it is the same whatever item (if
any) was stored under `k` before. -/
theorem C10_overwrite_resets (table : CacheTable K V) (k : K) (v2 : V) (l : Duration)
    (now : Time) :
    ∃ item, AList.lookup k (table.Set k v2 l now now).items = some item ∧
      item = NewItemsCache k v2 (setLifeCycle l) now ∧
      item.Key = k ∧ item.Value = v2 ∧ item.AccessCount.val = 0 ∧
      item.CreateTime = now ∧ item.AccessTime = now :=
  ⟨NewItemsCache k v2 (setLifeCycle l) now, Set_lookup_self table k v2 l now,
    rfl, rfl, rfl, rfl, rfl, rfl⟩

/-- Counterexample to C11 as stated: after `Set(1, 7, 5)` on a fresh table,
9223372036854775807 successive `Get(1)` leave `accessCount` at
9223372036854775807, the largest `int`; one more `Get(1)` does not increase it
by 1: after 9223372036854775808 successive `Get(1)` the count is
-9223372036854775808. -/
theorem C11_counterexample :
    (AList.lookup 1 (((CacheTable.new "t" : CacheTable Nat Nat).Set 1 7
        (GoInt64.ofInt 5) 0 0).getN 1 (fun _ => 0) 9223372036854775807).items).map
          (fun item => item.AccessCount.val) = some 9223372036854775807 ∧
      (AList.lookup 1 (((CacheTable.new "t" : CacheTable Nat Nat).Set 1 7
        (GoInt64.ofInt 5) 0 0).getN 1 (fun _ => 0) 9223372036854775808).items).map
          (fun item => item.AccessCount.val) = some (-9223372036854775808) := by
  have h0 := Set_lookup_self (CacheTable.new "t" : CacheTable Nat Nat) 1 7 (GoInt64.ofInt 5) 0
  constructor
  · obtain ⟨got, h1, h2⟩ := getN_count _ 1 (fun _ => 0) _ h0 9223372036854775807
    rw [h1]
    show some got.accessCount.val = _
    rw [h2]
    decide
  · obtain ⟨got, h1, h2⟩ := getN_count _ 1 (fun _ => 0) _ h0 9223372036854775808
    rw [h1]
    show some got.accessCount.val = _
    rw [h2]
    decide

/-- C11, amended: for a key `k` present with an `accessCount` below
9223372036854775807, `Get(k)` succeeds, increases the item's `accessCount` by
exactly 1 and sets its `accessTime` to the current time, and changes nothing
else: key, value, lifespan and `createTime` of the item, the entries under
other keys, the set of keys, `Count()`, the deadline, the timer handle and the
timers are unchanged.  And `n <= 9223372036854775807` successive `Get(k)`
after a `Set(k, ...)` leave `accessCount = n`. -/
theorem C11_get_counts_access (table : CacheTable K V) (k : K) (now : Time)
    (item : ItemsCache K V) (h : AList.lookup k table.items = some item)
    (hc : item.accessCount.val < 9223372036854775807) :
    (table.Get k now).1 = Except.ok (item.TriggerObtain now) ∧
      AList.lookup k (table.Get k now).2.items = some (item.TriggerObtain now) ∧
      (item.TriggerObtain now).AccessCount.val = item.AccessCount.val + 1 ∧
      (item.TriggerObtain now).AccessTime = now ∧
      (item.TriggerObtain now).Key = item.Key ∧
      (item.TriggerObtain now).Value = item.Value ∧
      (item.TriggerObtain now).LifeCycle = item.LifeCycle ∧
      (item.TriggerObtain now).CreateTime = item.CreateTime ∧
      (∀ j : K, j ≠ k →
        AList.lookup j (table.Get k now).2.items = AList.lookup j table.items) ∧
      (table.Get k now).2.items.keys = table.items.keys ∧
      (table.Get k now).2.Count = table.Count ∧
      (table.Get k now).2.deadline = table.deadline ∧
      (table.Get k now).2.timeAfter = table.timeAfter ∧
      (table.Get k now).2.timers = table.timers ∧
      (∀ (v : V) (l : Duration) (t0 : Time) (times : Nat → Time) (n : Nat),
        (n : Int) ≤ 9223372036854775807 →
          ∃ got, AList.lookup k ((table.Set k v l t0 t0).getN k times n).items = some got ∧
            got.AccessCount.val = n) := by
  obtain ⟨f1, f2, f3, f4, f5, _⟩ := Get_frame table k now
  refine ⟨?_, ?_, ?_, rfl, rfl, rfl, rfl, rfl, ?_, f1, f2, f3, f4, f5, ?_⟩
  · unfold CacheTable.Get
    rw [h]
  · rw [Get_lookup, if_pos rfl, h]
    rfl
  · show wrap64 (item.accessCount.val + 1) = item.accessCount.val + 1
    have hlo := item.accessCount.lo
    unfold wrap64
    omega
  · intro j hj
    rw [Get_lookup, if_neg hj]
  · intro v l t0 times n hn
    obtain ⟨got, h1, h2⟩ := getN_count (table.Set k v l t0 t0) k times _
      (Set_lookup_self table k v l t0) n
    refine ⟨got, h1, ?_⟩
    show got.accessCount.val = n
    rw [h2]
    have hz : (NewItemsCache k v (setLifeCycle l) t0).accessCount.val = 0 := by
      show (GoInt64.ofInt 0).val = 0
      decide
    rw [hz]
    unfold wrap64
    omega

/-- Witness of C11 (amended): `Get(1)` on `demoTable` at 1 second. -/
theorem C11_get_counts_access_witness :
    AList.lookup 1 demoTable.items = some demoItem1 ∧
    demoItem1.accessCount.val < 9223372036854775807 ∧
    ((demoTable.Get 1 1000000000).1 = Except.ok (demoItem1.TriggerObtain 1000000000) ∧
      AList.lookup 1 (demoTable.Get 1 1000000000).2.items =
        some (demoItem1.TriggerObtain 1000000000) ∧
      (demoItem1.TriggerObtain 1000000000).AccessCount.val = demoItem1.AccessCount.val + 1 ∧
      (demoItem1.TriggerObtain 1000000000).AccessTime = 1000000000 ∧
      (demoItem1.TriggerObtain 1000000000).Key = demoItem1.Key ∧
      (demoItem1.TriggerObtain 1000000000).Value = demoItem1.Value ∧
      (demoItem1.TriggerObtain 1000000000).LifeCycle = demoItem1.LifeCycle ∧
      (demoItem1.TriggerObtain 1000000000).CreateTime = demoItem1.CreateTime ∧
      (∀ j : Nat, j ≠ 1 →
        AList.lookup j (demoTable.Get 1 1000000000).2.items = AList.lookup j demoTable.items) ∧
      (demoTable.Get 1 1000000000).2.items.keys = demoTable.items.keys ∧
      (demoTable.Get 1 1000000000).2.Count = demoTable.Count ∧
      (demoTable.Get 1 1000000000).2.deadline = demoTable.deadline ∧
      (demoTable.Get 1 1000000000).2.timeAfter = demoTable.timeAfter ∧
      (demoTable.Get 1 1000000000).2.timers = demoTable.timers ∧
      (∀ (v : Nat) (l : Duration) (t0 : Time) (times : Nat → Time) (n : Nat),
        (n : Int) ≤ 9223372036854775807 →
          ∃ got, AList.lookup 1 ((demoTable.Set 1 v l t0 t0).getN 1 times n).items = some got ∧
            got.AccessCount.val = n)) :=
  ⟨by decide, by decide, C11_get_counts_access demoTable 1 1000000000 demoItem1
    (by decide) (by decide)⟩

/-- C12: when `name` is registered, `Cache(name)` returns the registered
pointer and leaves the registry unchanged; otherwise it allocates a new empty
table (no items, deadline 0) carrying that name, registers it and returns it.
After the call `name` is registered to the returned table, so a second call
returns the identical table and changes nothing; no call changes what another
name is registered to, nor any table allocated before; and in a registry built
up by calls of `Cache`, calls with different names return different tables. -/
theorem C12_cache_registry (reg : Registry K V) (name : String) :
    (∀ p, AList.lookup name reg.cache = some p → Cache reg name = (p, reg)) ∧
      (AList.lookup name reg.cache = none →
        (Cache reg name).1 = reg.tables.length ∧
          (Cache reg name).2.tables = reg.tables ++ [CacheTable.new name] ∧
          (Cache reg name).2.cache = reg.cache.insert name reg.tables.length ∧
          (Cache reg name).2.tables.get? (Cache reg name).1 = some (CacheTable.new name) ∧
          (CacheTable.new name : CacheTable K V).name = name ∧
          (CacheTable.new name : CacheTable K V).Count = 0 ∧
          (CacheTable.new name : CacheTable K V).items.entries = [] ∧
          (CacheTable.new name : CacheTable K V).deadline.val = 0) ∧
      AList.lookup name (Cache reg name).2.cache = some (Cache reg name).1 ∧
      Cache (Cache reg name).2 name = ((Cache reg name).1, (Cache reg name).2) ∧
      (∀ other : String, other ≠ name →
        AList.lookup other (Cache reg name).2.cache = AList.lookup other reg.cache) ∧
      (∀ (i : Nat) (t : CacheTable K V), reg.tables.get? i = some t →
        (Cache reg name).2.tables.get? i = some t) ∧
      (∀ (names : List String) (a b : String), a ≠ b →
        (Cache (Registry.after names : Registry K V) a).1 ≠
          (Cache (Cache (Registry.after names : Registry K V) a).2 b).1) := by
  refine ⟨?_, ?_, Cache_lookup_self reg name, ?_, ?_, ?_, ?_⟩
  · intro p hp
    rw [Cache_eq, hp]
  · intro hn
    rw [Cache_eq, hn]
    refine ⟨rfl, rfl, rfl, ?_, rfl, rfl, rfl, rfl⟩
    show (reg.tables ++ [CacheTable.new name]).get? reg.tables.length = _
    exact List.get?_concat_length _ _
  · have hl := Cache_lookup_self reg name
    rw [Cache_eq (Cache reg name).2 name, hl]
  · intro other ho
    exact Cache_lookup_other reg name other ho
  · intro i t ht
    exact Cache_tables reg name i t ht
  · intro names a b hab
    exact Cache_distinct _ (after_wellFormed names) a b hab

/-- Counterexample to C13 as stated: an item set under `math.NaN()` with a
lifespan of 1 second at instant 0 survives the sweep at 2 seconds; it is a
surviving item with non-zero lifespan whose remaining time is -1 second,
while the recorded deadline is 0 and no timer is created. -/
theorem C13_counterexample :
    ((AnyKey.CacheTable.new "t" : AnyKey.CacheTable AnyKey.DemoKey Nat).Set
        AnyKey.DemoKey.nan 7 (GoInt64.ofInt 1) 0 0).notBefore 2000000000 = true ∧
    (((AnyKey.CacheTable.new "t" : AnyKey.CacheTable AnyKey.DemoKey Nat).Set
        AnyKey.DemoKey.nan 7 (GoInt64.ofInt 1) 0 0).expirationCheck 2000000000).items =
      [(AnyKey.DemoKey.nan, NewItemsCache AnyKey.DemoKey.nan 7 (GoInt64.ofInt 1000000000) 0)] ∧
    (GoInt64.ofInt 1000000000).val ≠ 0 ∧
    (GoInt64.ofInt 1000000000).val - (2000000000 - 0) = -1000000000 ∧
    (((AnyKey.CacheTable.new "t" : AnyKey.CacheTable AnyKey.DemoKey Nat).Set
        AnyKey.DemoKey.nan 7 (GoInt64.ofInt 1) 0 0).expirationCheck 2000000000).deadline.val =
      0 := by
  decide

/-- C13, amended: when the sweep instant `now` is not earlier than any stored
item's `accessTime`, the deadline recorded by the sweep is at most the
remaining time `lifespan - (now - accessTime)` of every surviving item with
non-zero lifespan that has not reached its lifespan, it is the remaining time
of one of them, or 0 when no such item survives; every surviving item with
non-zero lifespan whose key is equal to itself is such an item; and the sweep
creates a new pending timer, for exactly that duration and referred to by the
table's handle, if the deadline is greater than 0, and otherwise leaves timers
and handle as they were. -/
theorem C13_deadline_is_min_remaining {K V : Type} [AnyKey.GoKey K]
    (table : AnyKey.CacheTable K V) (now : Time)
    (hwf : AnyKey.GoMap.wf table.items = true) (hnow : table.notBefore now = true) :
    (∀ (k : K) (item : ItemsCache K V),
        (k, item) ∈ (table.expirationCheck now).items →
        item.lifeCycle.val ≠ 0 →
        now - item.accessTime < item.lifeCycle.val →
          (table.expirationCheck now).deadline.val ≤
            item.lifeCycle.val - (now - item.accessTime)) ∧
      ((∃ (k : K) (item : ItemsCache K V),
          (k, item) ∈ (table.expirationCheck now).items ∧
          item.lifeCycle.val ≠ 0 ∧
          now - item.accessTime < item.lifeCycle.val ∧
          (table.expirationCheck now).deadline.val =
            item.lifeCycle.val - (now - item.accessTime)) ∨
        ((∀ (k : K) (item : ItemsCache K V),
            (k, item) ∈ (table.expirationCheck now).items →
            item.lifeCycle.val ≠ 0 →
              ¬ now - item.accessTime < item.lifeCycle.val) ∧
          (table.expirationCheck now).deadline.val = 0)) ∧
      (∀ (k : K) (item : ItemsCache K V),
        (k, item) ∈ (table.expirationCheck now).items →
        AnyKey.GoKey.eq k k = true →
        item.lifeCycle.val ≠ 0 →
          now - item.accessTime < item.lifeCycle.val) ∧
      (0 < (table.expirationCheck now).deadline.val →
        (table.expirationCheck now).timers =
            table.timers ++
              [{ created := now, d := (table.expirationCheck now).deadline, pending := true }] ∧
          (table.expirationCheck now).timeAfter = some table.timers.length) ∧
      (¬ 0 < (table.expirationCheck now).deadline.val →
        (table.expirationCheck now).timers = table.timers ∧
          (table.expirationCheck now).timeAfter = table.timeAfter) := by
  have hitems := AnyKey.anyKey_check_items table now hwf
  have hd := AnyKey.anyKey_check_deadline table now
  have hat : ∀ e ∈ table.items, e.2.accessTime ≤ now :=
    fun e he => AnyKey.anyKey_notBefore_mem table now hnow e he
  have hrem : ∀ e ∈ table.items, e.2.lifeCycle.val ≠ 0 → AnyKey.expired e.2 now = false →
      (GoInt64.sub e.2.lifeCycle (Time.Sub now e.2.accessTime)).val =
          e.2.lifeCycle.val - (now - e.2.accessTime) ∧
        0 < (GoInt64.sub e.2.lifeCycle (Time.Sub now e.2.accessTime)).val := by
    intro e he h0 hx
    apply AnyKey.anyKey_remaining_pos now e.2 (hat e he)
    unfold AnyKey.expired at hx
    simp only [Bool.and_eq_false_imp, decide_eq_true_eq, decide_eq_false_iff_not] at hx
    exact hx h0
  obtain ⟨_, m1, _, m3⟩ := AnyKey.anyKey_foldl_min now table.items (GoInt64.ofInt 0)
    (by decide) (fun e he h0 hx => (hrem e he h0 hx).2)
  have hsurv : ∀ (k : K) (item : ItemsCache K V),
      (k, item) ∈ (table.expirationCheck now).items → (k, item) ∈ table.items := by
    intro k item h
    rw [hitems] at h
    exact List.mem_of_mem_filter h
  have halive : ∀ (k : K) (item : ItemsCache K V), (k, item) ∈ table.items →
      item.lifeCycle.val ≠ 0 →
        (AnyKey.expired item now = false ↔ now - item.accessTime < item.lifeCycle.val) :=
    fun k item h h0 => AnyKey.anyKey_alive_iff now item (hat (k, item) h) h0
  have hstay : ∀ (k : K) (item : ItemsCache K V), (k, item) ∈ table.items →
      AnyKey.expired item now = false → (k, item) ∈ (table.expirationCheck now).items := by
    intro k item h hx
    rw [hitems, List.mem_filter]
    refine ⟨h, ?_⟩
    unfold AnyKey.removed
    show (!(AnyKey.expired item now && AnyKey.GoKey.eq k k)) = true
    rw [hx]
    rfl
  refine ⟨?_, ?_, ?_, (AnyKey.anyKey_check_timers table now).1,
    (AnyKey.anyKey_check_timers table now).2⟩
  · intro k item h h0 hlt
    have hmem := hsurv k item h
    have hx := (halive k item hmem h0).mpr hlt
    have h3 := (m3 (k, item) hmem h0 hx).2
    rw [(hrem (k, item) hmem h0 hx).1] at h3
    rw [hd]
    exact h3
  · by_cases hex : ∃ e ∈ table.items, e.2.lifeCycle.val ≠ 0 ∧ AnyKey.expired e.2 now = false
    · left
      obtain ⟨e0, he0, h00, hx0⟩ := hex
      have hpos := (m3 e0 he0 h00 hx0).1
      rcases m1 with m1 | ⟨e, he, h0, hx, hr⟩
      · rw [m1] at hpos
        exact absurd hpos (by decide)
      · obtain ⟨ek, ev⟩ := e
        refine ⟨ek, ev, hstay ek ev he hx, h0, (halive ek ev he h0).mp hx, ?_⟩
        rw [hd, hr]
        exact (hrem (ek, ev) he h0 hx).1
    · right
      constructor
      · intro k item h h0 hlt
        have hmem := hsurv k item h
        exact hex ⟨(k, item), hmem, h0, (halive k item hmem h0).mpr hlt⟩
      · rcases m1 with m1 | ⟨e, he, h0, hx, _⟩
        · rw [hd, m1]
          decide
        · exact absurd ⟨e, he, h0, hx⟩ hex
  · intro k item h hk h0
    have hmem := hsurv k item h
    rw [hitems, List.mem_filter] at h
    have h2 := h.2
    unfold AnyKey.removed at h2
    have h3 : (!(AnyKey.expired item now && AnyKey.GoKey.eq k k)) = true := h2
    rw [hk, Bool.and_true] at h3
    have hx : AnyKey.expired item now = false := by simpa using h3
    exact (halive k item hmem h0).mp hx

/-- Witness of C13 (amended): the example table, which holds an entry under
`math.NaN()`, swept 3 seconds after its items were set. -/
theorem C13_deadline_is_min_remaining_witness :
    AnyKey.GoMap.wf AnyKey.demoTable.items = true ∧
    AnyKey.demoTable.notBefore 3000000000 = true ∧
    (AnyKey.demoTable.expirationCheck 3000000000).deadline.val = 2000000000 ∧
    ((∀ (k : AnyKey.DemoKey) (item : ItemsCache AnyKey.DemoKey Nat),
        (k, item) ∈ (AnyKey.demoTable.expirationCheck 3000000000).items →
        item.lifeCycle.val ≠ 0 →
        3000000000 - item.accessTime < item.lifeCycle.val →
          (AnyKey.demoTable.expirationCheck 3000000000).deadline.val ≤
            item.lifeCycle.val - (3000000000 - item.accessTime)) ∧
      ((∃ (k : AnyKey.DemoKey) (item : ItemsCache AnyKey.DemoKey Nat),
          (k, item) ∈ (AnyKey.demoTable.expirationCheck 3000000000).items ∧
          item.lifeCycle.val ≠ 0 ∧
          3000000000 - item.accessTime < item.lifeCycle.val ∧
          (AnyKey.demoTable.expirationCheck 3000000000).deadline.val =
            item.lifeCycle.val - (3000000000 - item.accessTime)) ∨
        ((∀ (k : AnyKey.DemoKey) (item : ItemsCache AnyKey.DemoKey Nat),
            (k, item) ∈ (AnyKey.demoTable.expirationCheck 3000000000).items →
            item.lifeCycle.val ≠ 0 →
              ¬ 3000000000 - item.accessTime < item.lifeCycle.val) ∧
          (AnyKey.demoTable.expirationCheck 3000000000).deadline.val = 0)) ∧
      (∀ (k : AnyKey.DemoKey) (item : ItemsCache AnyKey.DemoKey Nat),
        (k, item) ∈ (AnyKey.demoTable.expirationCheck 3000000000).items →
        AnyKey.GoKey.eq k k = true →
        item.lifeCycle.val ≠ 0 →
          3000000000 - item.accessTime < item.lifeCycle.val) ∧
      (0 < (AnyKey.demoTable.expirationCheck 3000000000).deadline.val →
        (AnyKey.demoTable.expirationCheck 3000000000).timers =
            AnyKey.demoTable.timers ++
              [{ created := 3000000000,
                 d := (AnyKey.demoTable.expirationCheck 3000000000).deadline,
                 pending := true }] ∧
          (AnyKey.demoTable.expirationCheck 3000000000).timeAfter =
            some AnyKey.demoTable.timers.length) ∧
      (¬ 0 < (AnyKey.demoTable.expirationCheck 3000000000).deadline.val →
        (AnyKey.demoTable.expirationCheck 3000000000).timers = AnyKey.demoTable.timers ∧
          (AnyKey.demoTable.expirationCheck 3000000000).timeAfter =
            AnyKey.demoTable.timeAfter)) :=
  ⟨by decide, by decide, by decide,
    C13_deadline_is_min_remaining AnyKey.demoTable 3000000000 (by decide) (by decide)⟩

/-- Counterexample to C14 as stated: `Set(1, 7, -1)`, a never-expire request,
on a fresh table (deadline 0) meets the condition of `setInside` and runs the
sweep, which records a deadline of 3155760000 seconds and schedules a timer
for it. -/
theorem C14_counterexample :
    sweepTriggered (CacheTable.new "t" : CacheTable Nat Nat).deadline
        (NewItemsCache 1 7 (setLifeCycle (GoInt64.ofInt (-1))) 0) = true ∧
      ((CacheTable.new "t" : CacheTable Nat Nat).Set 1 7 (GoInt64.ofInt (-1)) 0 0).deadline.val =
        3155760000000000000 ∧
      ((CacheTable.new "t" : CacheTable Nat Nat).Set 1 7 (GoInt64.ofInt (-1)) 0 0).timers =
        [{ created := 0, d := GoInt64.ofInt 3155760000000000000, pending := true }] := by
  decide

/-- C14, amended: `Set` calls the sweep if and only if the lifespan it stores
is greater than 0 and either the deadline is 0 or the stored lifespan is
strictly shorter than the deadline.  The stored lifespan is 3155760000 seconds
for a negative (never-expire) argument, `l` seconds for `1 <= l <= 9223372036`
(both greater than 0), and 0 for the argument 0. -/
theorem C14_set_triggers_sweep_iff (table : CacheTable K V) (k : K) (v : V) (l : Duration)
    (now ct : Time) :
    (sweepTriggered table.deadline (NewItemsCache k v (setLifeCycle l) now) = true ↔
        0 < (setLifeCycle l).val ∧
          (table.deadline.val = 0 ∨ (setLifeCycle l).val < table.deadline.val)) ∧
      table.Set k v l now ct =
        (if sweepTriggered table.deadline (NewItemsCache k v (setLifeCycle l) now) = true then
          CacheTable.expirationCheck
            { table with
              items := table.items.insert k (NewItemsCache k v (setLifeCycle l) now) } ct
        else
          { table with
            items := table.items.insert k (NewItemsCache k v (setLifeCycle l) now) }) ∧
      (l.val ≤ -1 → (setLifeCycle l).val = 3155760000000000000) ∧
      (1 ≤ l.val → l.val ≤ 9223372036 →
        (setLifeCycle l).val = l.val * 1000000000 ∧ 0 < (setLifeCycle l).val) ∧
      (l.val = 0 → (setLifeCycle l).val = 0) := by
  have hs : Second.val = 1000000000 := by decide
  refine ⟨?_, Set_eq table k v l now ct, ?_, ?_, ?_⟩
  · unfold sweepTriggered NewItemsCache
    simp only [Bool.and_eq_true, Bool.or_eq_true, decide_eq_true_eq]
  · intro h
    unfold setLifeCycle
    rw [if_pos h]
    decide
  · intro h1 h2
    have hn : ¬ l.val ≤ -1 := by omega
    have he : (setLifeCycle l).val = l.val * 1000000000 := by
      unfold setLifeCycle GoInt64.mul GoInt64.ofInt
      rw [if_neg hn, hs]
      show wrap64 (l.val * 1000000000) = l.val * 1000000000
      unfold wrap64
      omega
    rw [he]
    omega
  · intro h
    have hn : ¬ l.val ≤ -1 := by omega
    unfold setLifeCycle GoInt64.mul GoInt64.ofInt
    rw [if_neg hn, hs, h]
    decide

/-- Counterexample to C15 as stated: `Set(1, 7, 9223372037)`, a positive
number of seconds, on a fresh table leaves the deadline at 0, which is not
positive (the stored lifespan has wrapped to a negative value, so no sweep
runs).  And an empty table need not have deadline 0: after `Set(3, 30, 5)` at
instant 0, a sweep at 4.5 seconds and `Delete(3)`, the table is empty with a
deadline of 0.5 seconds, and `Set(1, 10, 5)` followed at the same instant by
`Set(2, 20, 1)` leaves the deadline at 0.5 seconds, not 1 second. -/
theorem C15_counterexample :
    (0 : Int) < (GoInt64.ofInt 9223372037).val ∧
      ((CacheTable.new "t" : CacheTable Nat Nat).Set 1 7
        (GoInt64.ofInt 9223372037) 0 0).deadline.val = 0 ∧
      timely (CacheTable.new "t" : CacheTable Nat Nat)
        [Op.set 3 30 (GoInt64.ofInt 5) 0 0, Op.sweep 4500000000, Op.delete 3] = true ∧
      ((CacheTable.new "t" : CacheTable Nat Nat).run
        [Op.set 3 30 (GoInt64.ofInt 5) 0 0, Op.sweep 4500000000, Op.delete 3]).Count = 0 ∧
      ((CacheTable.new "t" : CacheTable Nat Nat).run
        [Op.set 3 30 (GoInt64.ofInt 5) 0 0, Op.sweep 4500000000,
          Op.delete 3]).deadline.val = 500000000 ∧
      ((((CacheTable.new "t" : CacheTable Nat Nat).run
        [Op.set 3 30 (GoInt64.ofInt 5) 0 0, Op.sweep 4500000000, Op.delete 3]).Set 1 10
          (GoInt64.ofInt 5) 4500000000 4500000000).Set 2 20
            (GoInt64.ofInt 1) 4500000000 4500000000).deadline.val = 500000000 := by
  decide

/-- C15, amended: in every state reached from a fresh table by a timely
history, a `Set(k, v, l)` with `1 <= l <= 9223372036`, during which no time
elapses and whose instant is not earlier than the last access of any stored
item, leaves a deadline that is positive and at most `l` seconds; and on every
empty table, for all keys `a`, `b` (equal or not), values `x`, `y` and every
instant, `Set(a, x, 5)` followed at the same instant by `Set(b, y, 1)` leaves
a deadline of 1 second if and only if the deadline before them is 0 or at
least 1 second; it is 0 on a freshly created table, where the two calls
therefore leave 1 second. -/
theorem C15_min_deadline (name : String) (ops : List (Op K V)) (k : K) (v : V)
    (l : Duration) (now : Time)
    (hops : timely (CacheTable.new name : CacheTable K V) ops = true)
    (hnow : ((CacheTable.new name : CacheTable K V).run ops).notBefore now = true)
    (h1 : 1 ≤ l.val) (h2 : l.val ≤ 9223372036) :
    (0 < (((CacheTable.new name : CacheTable K V).run ops).Set k v l now now).deadline.val ∧
        (((CacheTable.new name : CacheTable K V).run ops).Set k v l now now).deadline.val ≤
          l.val * 1000000000) ∧
      (∀ (t : CacheTable K V) (a b : K) (x y : V) (t0 : Time),
        t.items.entries = [] →
          (((t.Set a x (GoInt64.ofInt 5) t0 t0).Set b y (GoInt64.ofInt 1) t0 t0).deadline.val =
              1000000000 ↔
            (t.deadline.val = 0 ∨ 1000000000 ≤ t.deadline.val))) ∧
      (∀ (a b : K) (x y : V) (t0 : Time),
        (((CacheTable.new name : CacheTable K V).Set a x (GoInt64.ofInt 5) t0 t0).Set b y
          (GoInt64.ofInt 1) t0 t0).deadline.val = 1000000000) := by
  have hs : Second.val = 1000000000 := by decide
  have hn : ¬ l.val ≤ -1 := by omega
  have he : (setLifeCycle l).val = l.val * 1000000000 := by
    unfold setLifeCycle GoInt64.mul GoInt64.ofInt
    rw [if_neg hn, hs]
    show wrap64 (l.val * 1000000000) = l.val * 1000000000
    unfold wrap64
    omega
  have hd := run_deadline_nonneg ops (CacheTable.new name : CacheTable K V)
    (by show (0 : Int) ≤ (GoInt64.ofInt 0).val; decide) hops
  have hb := Set_deadline_bounds ((CacheTable.new name : CacheTable K V).run ops) k v l now
    hd hnow (by rw [he]; omega)
  rw [he] at hb
  refine ⟨hb, ?_, ?_⟩
  · intro t a b x y t0 hempty
    exact two_sets_deadline_iff t a b x y t0 hempty
  · intro a b x y t0
    exact two_sets_deadline (CacheTable.new name) a b x y t0 rfl
      (by show (GoInt64.ofInt 0).val = 0; decide)

/-- Witness of C15 (amended): after a `Set` with 5 seconds at instant 0 and a
sweep at 2 seconds, a `Set` with 4 seconds at 3 seconds. -/
theorem C15_min_deadline_witness :
    timely (CacheTable.new "t" : CacheTable Nat Nat)
      [Op.set 1 10 (GoInt64.ofInt 5) 0 0, Op.sweep 2000000000] = true ∧
    ((CacheTable.new "t" : CacheTable Nat Nat).run
      [Op.set 1 10 (GoInt64.ofInt 5) 0 0, Op.sweep 2000000000]).notBefore 3000000000 = true ∧
    1 ≤ (GoInt64.ofInt 4).val ∧ (GoInt64.ofInt 4).val ≤ 9223372036 ∧
    ((0 < (((CacheTable.new "t" : CacheTable Nat Nat).run
          [Op.set 1 10 (GoInt64.ofInt 5) 0 0, Op.sweep 2000000000]).Set 2 20
            (GoInt64.ofInt 4) 3000000000 3000000000).deadline.val ∧
        (((CacheTable.new "t" : CacheTable Nat Nat).run
          [Op.set 1 10 (GoInt64.ofInt 5) 0 0, Op.sweep 2000000000]).Set 2 20
            (GoInt64.ofInt 4) 3000000000 3000000000).deadline.val ≤
          (GoInt64.ofInt 4).val * 1000000000) ∧
      (∀ (t : CacheTable Nat Nat) (a b : Nat) (x y : Nat) (t0 : Time),
        t.items.entries = [] →
          (((t.Set a x (GoInt64.ofInt 5) t0 t0).Set b y (GoInt64.ofInt 1) t0 t0).deadline.val =
              1000000000 ↔
            (t.deadline.val = 0 ∨ 1000000000 ≤ t.deadline.val))) ∧
      (∀ (a b : Nat) (x y : Nat) (t0 : Time),
        (((CacheTable.new "t" : CacheTable Nat Nat).Set a x (GoInt64.ofInt 5) t0 t0).Set b y
          (GoInt64.ofInt 1) t0 t0).deadline.val = 1000000000)) :=
  ⟨by decide, by decide, by decide, by decide,
    C15_min_deadline "t" [Op.set 1 10 (GoInt64.ofInt 5) 0 0, Op.sweep 2000000000] 2 20
      (GoInt64.ofInt 4) 3000000000 (by decide) (by decide) (by decide) (by decide)⟩

/-- C16, evaluated on the code: on a fresh table, `Set(1, 10, 5)` and then
`Set(2, 20, 1)` at the same instant each run the sweep, and each sweep creates
a timer without stopping the one before: two callbacks are outstanding, and
the handle refers to the second. -/
theorem C16_two_callbacks_outstanding :
    ((CacheTable.new "t" : CacheTable Nat Nat).run
        [Op.set 1 10 (GoInt64.ofInt 5) 0 0, Op.set 2 20 (GoInt64.ofInt 1) 0 0]).pendingCount = 2 ∧
      ((CacheTable.new "t" : CacheTable Nat Nat).run
        [Op.set 1 10 (GoInt64.ofInt 5) 0 0, Op.set 2 20 (GoInt64.ofInt 1) 0 0]).timers =
        [{ created := 0, d := GoInt64.ofInt 5000000000, pending := true },
          { created := 0, d := GoInt64.ofInt 1000000000, pending := true }] ∧
      ((CacheTable.new "t" : CacheTable Nat Nat).run
        [Op.set 1 10 (GoInt64.ofInt 5) 0 0, Op.set 2 20 (GoInt64.ofInt 1) 0 0]).timeAfter =
        some 1 := by
  decide

/-- C17, evaluated on the code: after the same two `Set` calls, `DeleteAll`
empties the table and stops the timer the handle refers to, and the timer
created by the first `Set` is still pending. -/
theorem C17_callback_pending_after_deleteAll :
    ((CacheTable.new "t" : CacheTable Nat Nat).run
        [Op.set 1 10 (GoInt64.ofInt 5) 0 0, Op.set 2 20 (GoInt64.ofInt 1) 0 0,
          Op.deleteAll]).pendingCount = 1 ∧
      ((CacheTable.new "t" : CacheTable Nat Nat).run
        [Op.set 1 10 (GoInt64.ofInt 5) 0 0, Op.set 2 20 (GoInt64.ofInt 1) 0 0,
          Op.deleteAll]).timers =
        [{ created := 0, d := GoInt64.ofInt 5000000000, pending := true },
          { created := 0, d := GoInt64.ofInt 1000000000, pending := false }] ∧
      ((CacheTable.new "t" : CacheTable Nat Nat).run
        [Op.set 1 10 (GoInt64.ofInt 5) 0 0, Op.set 2 20 (GoInt64.ofInt 1) 0 0,
          Op.deleteAll]).Count = 0 := by
  decide

/-- C18: the sweep is idempotent: running it twice in succession at the same
instant leaves the same items mapping and the same deadline as running it
once. -/
theorem C18_sweep_idempotent (table : CacheTable K V) (now : Time) :
    ((table.expirationCheck now).expirationCheck now).items =
        (table.expirationCheck now).items ∧
      ((table.expirationCheck now).expirationCheck now).deadline =
        (table.expirationCheck now).deadline := by
  have he : (table.expirationCheck now).items.entries =
      table.items.entries.filter (fun e => !e.2.expired now) := by
    rw [expirationCheck_items, expirationLoop_entries]
  constructor
  · apply AList.ext
    rw [expirationCheck_items, expirationLoop_entries, he, List.filter_filter]
    simp
  · rw [expirationCheck_deadline, expirationCheck_deadline, expirationLoop_snd,
      expirationLoop_snd, he, foldl_smallStep_filter]

/-- C19: for a key `j` different from `k`, after `Set(k, v, l)` either `j` maps
to what it mapped to before or `j` is absent; it is newly absent only if the
`Set` ran the sweep and the item had a non-zero lifespan that the time since
its last access (as the sweep computes it) had reached.  When the `Set` does
not run the sweep, `j` and the deadline are unchanged, and `Count()` grows by
1 if `k` was absent and is unchanged if `k` was present. -/
theorem C19_set_frame (table : CacheTable K V) (k : K) (v : V) (l : Duration)
    (now ct : Time) (j : K) (hj : j ≠ k) :
    (AList.lookup j (table.Set k v l now ct).items = AList.lookup j table.items ∨
        AList.lookup j (table.Set k v l now ct).items = none) ∧
      (∀ item, AList.lookup j table.items = some item →
        AList.lookup j (table.Set k v l now ct).items = none →
          sweepTriggered table.deadline (NewItemsCache k v (setLifeCycle l) now) = true ∧
            item.lifeCycle.val ≠ 0 ∧
            item.lifeCycle.val ≤ (Time.Sub ct item.accessTime).val) ∧
      (sweepTriggered table.deadline (NewItemsCache k v (setLifeCycle l) now) = false →
        AList.lookup j (table.Set k v l now ct).items = AList.lookup j table.items ∧
          (table.Set k v l now ct).deadline = table.deadline ∧
          (AList.lookup k table.items = none →
            (table.Set k v l now ct).Count = table.Count + 1) ∧
          (∀ old, AList.lookup k table.items = some old →
            (table.Set k v l now ct).Count = table.Count)) := by
  have hins : AList.lookup j
      (table.items.insert k (NewItemsCache k v (setLifeCycle l) now)) =
        AList.lookup j table.items := AList.lookup_insert_ne hj
  by_cases ht : sweepTriggered table.deadline (NewItemsCache k v (setLifeCycle l) now) = true
  · have hl : AList.lookup j (table.Set k v l now ct).items =
        (AList.lookup j table.items).filter (fun item => !item.expired ct) := by
      rw [Set_eq, if_pos ht, expirationCheck_lookup]
      show Option.filter _ (AList.lookup j
        (table.items.insert k (NewItemsCache k v (setLifeCycle l) now))) = _
      rw [hins]
    refine ⟨?_, ?_, ?_⟩
    · rw [hl]
      cases AList.lookup j table.items with
      | none => left; rfl
      | some x =>
        simp only [Option.filter]
        split_ifs
        · left; rfl
        · right; rfl
    · intro item h1 h2
      rw [hl, h1] at h2
      simp only [Option.filter] at h2
      split_ifs at h2 with hx
      have hx2 : item.expired ct = true := by simpa using hx
      unfold ItemsCache.expired at hx2
      simp only [Bool.and_eq_true, decide_eq_true_eq] at hx2
      exact ⟨ht, hx2.1, hx2.2⟩
    · intro hf
      rw [hf] at ht
      cases ht
  · have hset : table.Set k v l now ct =
        { table with items := table.items.insert k (NewItemsCache k v (setLifeCycle l) now) } := by
      rw [Set_eq, if_neg ht]
    have hl : AList.lookup j (table.Set k v l now ct).items = AList.lookup j table.items := by
      rw [hset]
      exact hins
    refine ⟨Or.inl hl, ?_, ?_⟩
    · intro item h1 h2
      rw [hl, h1] at h2
      cases h2
    · intro _
      refine ⟨hl, by rw [hset], ?_, ?_⟩
      · intro h
        rw [hset]
        exact (length_insert table.items k _).1 h
      · intro old h
        rw [hset]
        exact (length_insert table.items k _).2 old h

/-- Witness of C19: `Set(3, 30, 1)` on `demoTable` 6 seconds after its items
were set, seen from key 1. -/
theorem C19_set_frame_witness :
    (1 : Nat) ≠ 3 ∧
    ((AList.lookup 1 (demoTable.Set 3 30 (GoInt64.ofInt 1) 6000000000 6000000000).items =
          AList.lookup 1 demoTable.items ∨
        AList.lookup 1 (demoTable.Set 3 30 (GoInt64.ofInt 1) 6000000000 6000000000).items =
          none) ∧
      (∀ item, AList.lookup 1 demoTable.items = some item →
        AList.lookup 1 (demoTable.Set 3 30 (GoInt64.ofInt 1) 6000000000 6000000000).items =
            none →
          sweepTriggered demoTable.deadline
              (NewItemsCache 3 30 (setLifeCycle (GoInt64.ofInt 1)) 6000000000) = true ∧
            item.lifeCycle.val ≠ 0 ∧
            item.lifeCycle.val ≤ (Time.Sub 6000000000 item.accessTime).val) ∧
      (sweepTriggered demoTable.deadline
          (NewItemsCache 3 30 (setLifeCycle (GoInt64.ofInt 1)) 6000000000) = false →
        AList.lookup 1 (demoTable.Set 3 30 (GoInt64.ofInt 1) 6000000000 6000000000).items =
            AList.lookup 1 demoTable.items ∧
          (demoTable.Set 3 30 (GoInt64.ofInt 1) 6000000000 6000000000).deadline =
            demoTable.deadline ∧
          (AList.lookup 3 demoTable.items = none →
            (demoTable.Set 3 30 (GoInt64.ofInt 1) 6000000000 6000000000).Count =
              demoTable.Count + 1) ∧
          (∀ old, AList.lookup 3 demoTable.items = some old →
            (demoTable.Set 3 30 (GoInt64.ofInt 1) 6000000000 6000000000).Count =
              demoTable.Count))) :=
  ⟨by decide, C19_set_frame demoTable 3 30 (GoInt64.ofInt 1) 6000000000 6000000000 1 (by decide)⟩

end GoCache
